import Mathlib

/-!
Certificate pipeline: a shallow embedding.

The certificate pipeline of the event-management backend
(`backend/services/certificateService.js`, `backend/utils/certificateIdGenerator.js`,
`backend/config/certificateDefaults.js`) as Lean definitions, followed by the
properties proved about them.

Conventions of the embedding.
* JavaScript strings are `String`s; the scanning functions work on their
  character lists.
* A JavaScript object is an association list in `Object.entries` order.
* Code that may throw returns `Except String _`, the string being the `message`
  of the thrown `Error`.
* Database collections, the file system and the mail transport are explicit
  components of a `World` value that is passed through the operations.
-/

namespace Certs

/-! ## JavaScript values -/

/-- The JavaScript values that occur in the settings documents, the placeholder map
and the request bodies of the pipeline. `num` is an integer number, of a magnitude
below 10^21 so that its string form is its decimal form. `obj` is a plain object whose
values are strings (the `Map of String` fields of the schemas). -/
inductive JSValue where
  | undefined
  | null
  | nan
  | num (n : Int)
  | str (s : String)
  | obj (fields : List (String × String))
  deriving DecidableEq, Repr

/-- A JavaScript object as the list of its own enumerable entries, in
`Object.entries` order. -/
abbrev JSObject := List (String × JSValue)

/-- Decimal digit `d` (for `d < 10`) as a character. -/
def digitChar (d : Nat) : Char := Char.ofNat (48 + d)

/-- The decimal digits of `n`, most significant first; `fuel` bounds the number of
digits and `n + 1` is always enough. -/
def decimalDigits : Nat → Nat → List Char
  | 0, _ => []
  | fuel + 1, n =>
    if n < 10 then [digitChar n] else decimalDigits fuel (n / 10) ++ [digitChar (n % 10)]

/-- `String(n)` for a non-negative integer `n`: its decimal digits, most significant
first, without leading zeros. -/
def natToJSString (n : Nat) : List Char := decimalDigits (n + 1) n

/-- `String(n)` for an integer `n`. -/
def intToJSString (n : Int) : List Char :=
  if n < 0 then '-' :: natToJSString n.natAbs else natToJSString n.natAbs

/-- The abstract operation `ToString` on the values of the embedding. -/
def JSValue.toJSString : JSValue → List Char
  | .undefined => "undefined".data
  | .null => "null".data
  | .nan => "NaN".data
  | .num n => intToJSString n
  | .str s => s.data
  | .obj _ => "[object Object]".data

/-- The abstract operation `ToBoolean`: `undefined`, `null`, `NaN`, `0` and the empty
string are falsy, everything else is truthy. -/
def JSValue.truthy : JSValue → Bool
  | .undefined => false
  | .null => false
  | .nan => false
  | .num n => n != 0
  | .str s => s.data != []
  | .obj _ => true

/-- The expression `a || b`. -/
def JSValue.or (a b : JSValue) : JSValue := if a.truthy then a else b

/-! ## Placeholder renderer (`fillPlaceholders`) -/

/-- The characters that have a meaning of their own in a regular expression source
(`SyntaxCharacter` of the ECMAScript grammar). -/
def regexSyntaxChars : List Char :=
  ['^', '$', '\\', '.', '*', '+', '?', '(', ')', '[', ']', '{', '}', '|']

/-- A key all of whose characters stand for themselves when the key is spliced into
the regular expression source backslash-brace-backslash-brace-key-... of
`fillPlaceholders`; for such a key the expression matches exactly the literal text
`{{key}}`. -/
def plainKey (key : List Char) : Bool :=
  key.all (fun c => !(regexSyntaxChars.contains c))

/-- The literal text matched by `new RegExp("\\{\\{" + key + "\\}\\}", "g")` for a
plain key. -/
def placeholderToken (key : List Char) : List Char :=
  '{' :: '{' :: (key ++ ['}', '}'])

/-- The abstract operation `GetSubstitution` for a match without capture groups:
in the replacement text `$$` stands for `$`, `$&` for the matched text, dollar-backtick
for the text before the match and dollar-apostrophe for the text after it; every other
`$` is literal. The flag tells that the previous character was an unconsumed `$`. -/
def getSubstitutionGo (matched before after : List Char) : Bool → List Char → List Char
  | false, [] => []
  | true, [] => ['$']
  | false, c :: rest =>
    if c = '$' then getSubstitutionGo matched before after true rest
    else c :: getSubstitutionGo matched before after false rest
  | true, d :: rest =>
    if d = '$' then '$' :: getSubstitutionGo matched before after false rest
    else if d = '&' then matched ++ getSubstitutionGo matched before after false rest
    else if d = Char.ofNat 96 then before ++ getSubstitutionGo matched before after false rest
    else if d = Char.ofNat 39 then after ++ getSubstitutionGo matched before after false rest
    else '$' :: d :: getSubstitutionGo matched before after false rest

/-- The expansion of the replacement text `repl` for one match. -/
def getSubstitution (matched before after repl : List Char) : List Char :=
  getSubstitutionGo matched before after false repl

/-- The scan of `String.prototype.replace` with a global regular expression that
matches the literal text `pat` (non-empty): left to right, each match is replaced by
the expansion of `repl` and the scan resumes after the match. `skip` counts the
characters of the current match still to be passed over, `before` is the part of the
subject already scanned. -/
def replaceLiteralGo (pat repl : List Char) : Nat → List Char → List Char → List Char
  | _, _, [] => []
  | skip + 1, before, c :: rest => replaceLiteralGo pat repl skip (before ++ [c]) rest
  | 0, before, c :: rest =>
    if pat.isPrefixOf (c :: rest) then
      getSubstitution pat before ((c :: rest).drop pat.length) repl
        ++ replaceLiteralGo pat repl (pat.length - 1) (before ++ [c]) rest
    else
      c :: replaceLiteralGo pat repl 0 (before ++ [c]) rest

/-- The call `subject.replace(new RegExp(<literal pat>, "g"), repl)`. -/
def replaceLiteral (pat repl subject : List Char) : List Char :=
  replaceLiteralGo pat repl 0 [] subject

/-- Number of characters matched by `[^}]*\}\}` at the head of the text, if it
matches: the run of characters other than `}` is maximal, so it ends at the first
`}`, which must be followed by a second one. -/
def closeLen : List Char → Option Nat
  | [] => none
  | c :: rest =>
    if c = '}' then
      match rest with
      | d :: _ => if d = '}' then some 2 else none
      | [] => none
    else (closeLen rest).map (· + 1)

/-- Number of characters matched by the regular expression `\{\{[^}]+\}\}` at the head
of the text, if it matches there. -/
def tokenLen : List Char → Option Nat
  | a :: b :: c :: rest =>
    if a = '{' ∧ b = '{' ∧ c ≠ '}' then (closeLen rest).map (· + 3) else none
  | _ => none

/-- The scan of `subject.replace(/\{\{[^}]+\}\}/g, "")`: every match found left to
right is removed; `skip` counts the characters of the current match still to be
passed over. -/
def stripTokensGo : Nat → List Char → List Char
  | _, [] => []
  | skip + 1, _ :: rest => stripTokensGo skip rest
  | 0, c :: rest =>
    match tokenLen (c :: rest) with
    | some n => stripTokensGo (n - 1) rest
    | none => c :: stripTokensGo 0 rest

/-- The call `subject.replace(/\{\{[^}]+\}\}/g, "")`. -/
def stripTokens (subject : List Char) : List Char := stripTokensGo 0 subject

/-- The replacement argument of the loop body:
`value !== undefined && value !== null ? value : ""`, converted to a string by
`replace`. -/
def replacementText : JSValue → List Char
  | .undefined => []
  | .null => []
  | v => v.toJSString

/-- The source of the regular expression that the loop body builds for a key:
backslash-brace, backslash-brace, the key, backslash-brace, backslash-brace. -/
def regexSource (key : List Char) : List Char :=
  ['\\', '{', '\\', '{'] ++ key ++ ['\\', '}', '\\', '}']

/-- The `for` loop of `fillPlaceholders`: one global replace per entry of the map,
in `Object.entries` order, each applied to the result of the previous one. For a
plain key the regular expression is a literal and the replace is the scan above. For
any other key the call `result.replace(new RegExp(source, "g"), replacement)` is left
to `regexReplace source replacement result`, the regular-expression engine of the
runtime: the text it returns, or the message of the error it throws (a source that is
not a regular expression makes `new RegExp` throw, and the error leaves
`fillPlaceholders`). -/
def substituteEntries
    (regexReplace : List Char → List Char → List Char → Except String (List Char)) :
    List Char → List (String × JSValue) → Except String (List Char)
  | result, [] => .ok result
  | result, (key, value) :: entries =>
    if plainKey key.data then
      substituteEntries regexReplace
        (replaceLiteral (placeholderToken key.data) (replacementText value) result) entries
    else
      match regexReplace (regexSource key.data) (replacementText value) result with
      | .ok replaced => substituteEntries regexReplace replaced entries
      | .error message => .error message

/-- The function `fillPlaceholders(html, data)`: the known substitutions, then the
removal of the remaining placeholders; the text returned, or the message of the error
thrown. -/
def fillPlaceholders
    (regexReplace : List Char → List Char → List Char → Except String (List Char))
    (html : String) (data : JSObject) : Except String String :=
  match substituteEntries regexReplace html.data data with
  | .ok result => .ok (String.mk (stripTokens result))
  | .error message => .error message

/-- An engine for the examples: one that finds no match. It is called only for a key
that is not plain. -/
def sampleRegexReplace : List Char → List Char → List Char → Except String (List Char) :=
  fun _ _ subject => .ok subject

/-- A placeholder token starts at the head of the text: `{{x}}` with `x` a non-empty
run of characters other than `}`. -/
def tokenAtHead (s : List Char) : Bool := (tokenLen s).isSome

/-- The text contains a placeholder token `{{x}}`, `x` a non-empty run of characters
other than `}`. -/
def hasToken : List Char → Bool
  | [] => false
  | c :: rest => tokenAtHead (c :: rest) || hasToken rest

/-- The text has a joint: a `}` that directly follows a character other than `}` and
is directly followed by `{{`. It is the place where the removal of a placeholder can
bring the text around it together into a new one, as in `{{a}{{b}}}`; two placeholders in
a row, `{{a}}{{b}}`, are no joint. -/
def hasJoint : List Char → Bool
  | a :: b :: c :: d :: rest =>
    (a != '}' && b == '}' && c == '{' && d == '{') || hasJoint (b :: c :: d :: rest)
  | _ => false

/-! ### What the specification asks of the renderer

The definitions of this section follow the words of the specification, not the code:
they say what the rendered text has to be. -/

/-- The string form of a value as the specification asks for it: the empty string for
`null` and for `undefined` (never the text `null` or `undefined`), and `String(value)`
for every other value. -/
def stringForm : JSValue → List Char
  | .null => []
  | .undefined => []
  | .nan => ['N', 'a', 'N']
  | .num n => intToJSString n
  | .str s => s.data
  | .obj _ => "[object Object]".data

/-- The placeholder of a key as the specification writes it: `{{key}}`. -/
def placeholder (key : List Char) : List Char := ['{', '{'] ++ key ++ ['}', '}']

/-- The pieces of a text, put together with a separator between each two. -/
def joinPieces (sep : List Char) : List (List Char) → List Char
  | [] => []
  | [a] => a
  | a :: b :: rest => a ++ sep ++ joinPieces sep (b :: rest)

/-- The text `result` is the text `subject` with every occurrence of `token` replaced by
`text`, and nothing else changed: `subject` is cut at the occurrences into pieces, none
of which contains `token`, and `result` is the same pieces with `text` in the place of
each occurrence. -/
def ReplacedAll (token text subject result : List Char) : Prop :=
  ∃ pieces : List (List Char),
    subject = joinPieces token pieces ∧ (∀ a ∈ pieces, ¬ token <:+: a) ∧
      result = joinPieces text pieces

/-- The known substitutions: for each entry of the map in turn, every occurrence of
`{{key}}` is replaced by the string form of the value. -/
def Substituted : List Char → List (String × JSValue) → List Char → Prop
  | subject, [], result => result = subject
  | subject, (key, value) :: entries, result =>
    ∃ middle, ReplacedAll (placeholder key.data) (stringForm value) subject middle ∧
      Substituted middle entries result

/-- A value text that `replace` inserts as it stands: no `$` in it is followed by `$`,
`&`, a backtick or an apostrophe, the four sequences that `replace` expands in a
replacement text for a pattern without groups. -/
def dollarSafe : List Char → Bool
  | [] => true
  | [_] => true
  | c :: d :: rest =>
    !(c == '$' && (d == '$' || d == '&' || d == Char.ofNat 96 || d == Char.ofNat 39))
      && dollarSafe (d :: rest)

/-- A piece of a template: literal text or a placeholder. -/
inductive Seg where
  | text (s : List Char)
  | hole (key : List Char)
  deriving DecidableEq, Repr

/-- The text of a template piece. -/
def Seg.render : Seg → List Char
  | .text s => s
  | .hole key => placeholder key

/-- The text of a template given by its pieces. -/
def renderSegs : List Seg → List Char
  | [] => []
  | seg :: segs => seg.render ++ renderSegs segs

/-- The first value stored under `key` in the map, if any. -/
def lookupEntry (key : List Char) : List (String × JSValue) → Option JSValue
  | [] => none
  | (k, v) :: entries => if k.data = key then some v else lookupEntry key entries

/-- What the specification asks a template piece to become: text stays, a placeholder
whose key is in the map becomes the string form of the value, any other placeholder
becomes empty. -/
def Seg.instantiate (data : List (String × JSValue)) : Seg → List Char
  | .text s => s
  | .hole key =>
    match lookupEntry key data with
    | some v => stringForm v
    | none => []

/-- The text the specification asks for: every piece instantiated from the map. -/
def instantiateSegs (data : List (String × JSValue)) : List Seg → List Char
  | [] => []
  | seg :: segs => seg.instantiate data ++ instantiateSegs data segs

/-- A character other than the two braces. -/
def notBrace (c : Char) : Bool := c != '{' && c != '}'

/-- A text that opens no placeholder: it may hold braces (a style rule, a script), but
no two opening braces in a row, and it does not end in an opening brace. -/
def plainText : List Char → Bool
  | [] => true
  | [c] => c != '{'
  | c :: d :: rest => !(c == '{' && d == '{') && plainText (d :: rest)

/-- A well-formed template piece: text that opens no placeholder, or a placeholder
whose key is non-empty and without braces. -/
def Seg.wellFormed : Seg → Bool
  | .text s => plainText s
  | .hole key => key != [] && key.all notBrace

/-- The template piece after the global replace for `key`: a placeholder of that key
has become the text `repl`. -/
def Seg.subst (key repl : List Char) : Seg → Seg
  | .text s => .text s
  | .hole key2 => if key2 = key then .text repl else .hole key2
/-! ## Certificate id allocator (`certificateIdGenerator.js`) -/

/-- The local-time fields of a valid `Date` that the generator reads:
`getFullYear()`, `getMonth()` (0 to 11) and `getDate()` (1 to 31). -/
structure JSDate where
  fullYear : Int
  month : Nat
  date : Nat
  deriving DecidableEq, Repr

/-- The fields of a `JSDate` are in the ranges of a valid date. -/
def JSDate.valid (d : JSDate) : Prop := d.month < 12 ∧ 1 ≤ d.date ∧ d.date ≤ 31

instance (d : JSDate) : Decidable d.valid := by
  unfold JSDate.valid
  exact inferInstance

/-- The call `s.padStart(2, "0")`. -/
def padStart2 (s : List Char) : List Char := List.replicate (2 - s.length) '0' ++ s

/-- The number of binary digits of `n`, computed with `fuel` halvings at most. -/
def bitLengthFuel : Nat → Nat → Nat
  | 0, _ => 0
  | fuel + 1, n => if n = 0 then 0 else bitLengthFuel fuel (n / 2) + 1

/-- The number of binary digits of `n` (`0` for `0`). -/
def bitLength (n : Nat) : Nat := bitLengthFuel n n

/-- Rounding of a positive integer to 53 significant bits, to nearest, ties to even:
the significand arithmetic of an IEEE 754 double multiplication whose exact product
is `p` (times a power of two). -/
def roundToDouble (p : Nat) : Nat :=
  if bitLength p ≤ 53 then p
  else
    let shift := bitLength p - 53
    let q := p / 2 ^ shift
    let rem := p % 2 ^ shift
    let half := 2 ^ (shift - 1)
    if rem < half then q * 2 ^ shift
    else if half < rem then (q + 1) * 2 ^ shift
    else if q % 2 = 0 then q * 2 ^ shift
    else (q + 1) * 2 ^ shift

/-- The expression `Math.floor(Math.random() * c)` for a draw `Math.random() = k / 2^53`
(`k < 2^53`) and a positive integer constant `c`: the exact product `k * c / 2^53` is
rounded to a double, then floored. -/
def floorRandomTimes (k c : Nat) : Nat := roundToDouble (k * c) / 2 ^ 53

/-- The function `generateCertificateId(eventDate, sequenceNumber, prefix)`.
`eventDate` is `none` for a falsy argument, in which case the current date `today` is
used. `rand` is the stream of numerators of the `Math.random()` draws and `pos` the
index of the next draw; the result is the id and the index of the next unused draw. -/
def generateCertificateId (today : JSDate) (rand : Nat → Nat) (eventDate : Option JSDate)
    (sequenceNumber : Option Nat) (pfx : String) (pos : Nat) : String × Nat :=
  let date := match eventDate with
    | some d => d
    | none => today
  let year := date.fullYear
  let month := padStart2 (natToJSString (date.month + 1))
  let day := padStart2 (natToJSString date.date)
  let dateStr := intToJSString year ++ month ++ day
  let (seq, pos1) := match sequenceNumber with
    | some n => (padStart2 (natToJSString n), pos)
    | none => (padStart2 (natToJSString (floorRandomTimes (rand pos) 99 + 1)), pos + 1)
  let random := natToJSString (floorRandomTimes (rand pos1) 9000 + 1000)
  (String.mk (pfx.data ++ ['-'] ++ dateStr ++ ['-'] ++ seq ++ ['-'] ++ random), pos1 + 1)

/-- The outcome of `generateUniqueCertificateId`: the id returned, the index of the
next unused random draw, the state of the uniqueness callback and the number of
existence checks made. -/
structure UniqueIdResult (σ : Type) where
  id : String
  pos : Nat
  callback : σ
  checks : Nat

/-- The `do ... while (attempts < 10)` loop of `generateUniqueCertificateId`. The
uniqueness callback `Certificate.findOne({certificateId: id})` is `findOne`, a function of
its own state; it answers `true` when a record exists. `fuel` bounds the number of
iterations; the result is `none` only when the fuel runs out. -/
def uniqueIdLoop {σ : Type} (today : JSDate) (rand : Nat → Nat)
    (findOne : σ → String → Bool × σ) (eventDate : Option JSDate) (seq : Option Nat) :
    Nat → Nat → Nat → σ → Option (UniqueIdResult σ)
  | 0, _, _, _ => none
  | fuel + 1, attempts, pos, st =>
    let (id, pos1) := generateCertificateId today rand eventDate seq "CERT" pos
    let (found, st1) := findOne st id
    if !found then some ⟨id, pos1, st1, attempts + 1⟩
    else if attempts + 1 < 10 then
      uniqueIdLoop today rand findOne eventDate seq fuel (attempts + 1) pos1 st1
    else some ⟨id, pos1, st1, attempts + 1⟩

/-- The function `generateUniqueCertificateId(eventDate, Certificate, seq)`. -/
def generateUniqueCertificateId {σ : Type} (today : JSDate) (rand : Nat → Nat)
    (findOne : σ → String → Bool × σ) (eventDate : Option JSDate) (seq : Option Nat)
    (pos : Nat) (st : σ) : Option (UniqueIdResult σ) :=
  uniqueIdLoop today rand findOne eventDate seq 10 0 pos st

/-- The `i`-th candidate id generated by a run of `generateUniqueCertificateId` that starts
at draw `pos`, together with the index of the draw after it. -/
def candidate (today : JSDate) (rand : Nat → Nat) (eventDate : Option JSDate)
    (seq : Option Nat) (pos : Nat) : Nat → String × Nat
  | 0 => generateCertificateId today rand eventDate seq "CERT" pos
  | i + 1 =>
    generateCertificateId today rand eventDate seq "CERT"
      (candidate today rand eventDate seq pos i).2

/-- The state of the uniqueness callback before its `i`-th check in such a run. -/
def callbackState {σ : Type} (today : JSDate) (rand : Nat → Nat)
    (findOne : σ → String → Bool × σ) (eventDate : Option JSDate) (seq : Option Nat)
    (pos : Nat) (st : σ) : Nat → σ
  | 0 => st
  | i + 1 =>
    (findOne (callbackState today rand findOne eventDate seq pos st i)
      (candidate today rand eventDate seq pos i).1).2

/-- The answer of the uniqueness callback to its `i`-th check in such a run. -/
def callbackAnswer {σ : Type} (today : JSDate) (rand : Nat → Nat)
    (findOne : σ → String → Bool × σ) (eventDate : Option JSDate) (seq : Option Nat)
    (pos : Nat) (st : σ) (i : Nat) : Bool :=
  (findOne (callbackState today rand findOne eventDate seq pos st i)
    (candidate today rand eventDate seq pos i).1).1

/-- A uniqueness callback that reports a collision for its first three checks and a
free id from the fourth on; its state is the number of checks made. -/
def busyThenFree (n : Nat) (_id : String) : Bool × Nat := (decide (n < 3), n + 1)

/-- A stream of random draws (numerators over `2^53`) given by its first values; the
stream is zero afterwards. -/
def drawsOf (ks : List Nat) (i : Nat) : Nat := ks.getD i 0

/-- The index of the first random draw used for the `i`-th candidate of a run that
starts at draw `pos`. -/
def candidateStart (today : JSDate) (rand : Nat → Nat) (eventDate : Option JSDate)
    (seq : Option Nat) (pos : Nat) : Nat → Nat
  | 0 => pos
  | i + 1 => (candidate today rand eventDate seq pos i).2

/-! ## Settings resolver (`certificateDefaults.js`, `getEffectiveSettings`) -/

/-- The property read `o[key]`: the value stored under the key, `undefined` when the
object has no such property. -/
def JSObject.get (o : JSObject) (key : String) : JSValue :=
  match o.find? (fun e => e.1 == key) with
  | some e => e.2
  | none => .undefined

/-- The assignment `o[key] = value`: an existing property keeps its place, a new one is
added at the end. This is the enumeration order of properties whose names are not
array indices; the names that the pipeline writes itself are of that kind. -/
def JSObject.set : JSObject → String → JSValue → JSObject
  | [], key, value => [(key, value)]
  | (k, v) :: rest, key, value =>
    if k = key then (k, value) :: rest else (k, v) :: JSObject.set rest key value

/-- The environment `process.env`: the value of a variable, if it is set. -/
abbrev ProcessEnv := String → Option String

/-- The expression `process.env.NAME || "literal"`: the variable when it is set to a
non-empty string, the literal otherwise. -/
def envOr (env : ProcessEnv) (name dflt : String) : String :=
  match env name with
  | some v => if v.data = [] then dflt else v
  | none => dflt

/-- The module `certificateDefaults.js`. -/
structure DefaultConfig where
  collegeName : String
  collegeTagline : String
  logoLeft : String
  logoRight : String
  sig1Name : String
  sig1Title : String
  sig1Url : String
  sig2Name : String
  sig2Title : String
  sig2Url : String
  sig3Name : String
  sig3Title : String
  sig3Url : String
  sig4Name : String
  sig4Title : String
  sig4Url : String
  deriving DecidableEq, Repr

/-- The exported object `DEFAULT_CONFIG`, for a given process environment. -/
def DEFAULT_CONFIG (env : ProcessEnv) : DefaultConfig where
  collegeName := envOr env "COLLEGE_NAME" "DAV College Jalandhar"
  collegeTagline := envOr env "COLLEGE_TAGLINE"
    "NAAC Re-Accredited with Grade A | DBT-Star College Status | DST-FIST Supported"
  logoLeft := envOr env "LOGO_LEFT_URL" "https://via.placeholder.com/150?text=Left+Logo"
  logoRight := envOr env "LOGO_RIGHT_URL" "https://via.placeholder.com/150?text=Right+Logo"
  sig1Name := envOr env "SIG1_NAME" "Dr. Dinesh Arora"
  sig1Title := envOr env "SIG1_TITLE" "Vice President IIC"
  sig1Url := envOr env "SIG1_URL" ""
  sig2Name := envOr env "SIG2_NAME" "Dr. Rajeev Puri"
  sig2Title := envOr env "SIG2_TITLE" "Convener IIC"
  sig2Url := envOr env "SIG2_URL" ""
  sig3Name := envOr env "SIG3_NAME" "Dr. Manav Aggarwal"
  sig3Title := envOr env "SIG3_TITLE" "Internship Coordinator"
  sig3Url := envOr env "SIG3_URL" ""
  sig4Name := envOr env "SIG4_NAME" "Dr. Rajesh Kumar"
  sig4Title := envOr env "SIG4_TITLE" "Principal"
  sig4Url := envOr env "SIG4_URL" ""

/-- One entry of the `signatures` array of a settings document; a sub-field that is not
stored is `undefined`. -/
structure SignatureDoc where
  name : JSValue
  title : JSValue
  imageUrl : JSValue
  deriving DecidableEq, Repr

/-- A `CertificateSettings` document as `findOne(...).lean()` returns it; a field that
is not stored is `undefined`, respectively `none`. -/
structure CertificateSettingsDoc where
  event : String
  templateId : JSValue
  logoLeft : JSValue
  logoRight : JSValue
  signatures : Option (List SignatureDoc)
  customFields : Option (List (String × String))
  autoSendAfterEventEnd : Bool
  deriving DecidableEq, Repr

/-- The query `CertificateSettings.findOne({ event: eventId })`. -/
def findSettings (store : List CertificateSettingsDoc) (eventId : String) :
    Option CertificateSettingsDoc :=
  store.find? (fun doc => doc.event == eventId)

/-- The object literal that opens `getEffectiveSettings`: the system defaults, template 1
and no custom fields. -/
def defaultSettings (d : DefaultConfig) : JSObject :=
  [("collegeName", .str d.collegeName),
   ("collegeTagline", .str d.collegeTagline),
   ("logoLeft", .str d.logoLeft),
   ("logoRight", .str d.logoRight),
   ("sig1Name", .str d.sig1Name),
   ("sig1Title", .str d.sig1Title),
   ("sig1Url", .str d.sig1Url),
   ("sig2Name", .str d.sig2Name),
   ("sig2Title", .str d.sig2Title),
   ("sig2Url", .str d.sig2Url),
   ("sig3Name", .str d.sig3Name),
   ("sig3Title", .str d.sig3Title),
   ("sig3Url", .str d.sig3Url),
   ("sig4Name", .str d.sig4Name),
   ("sig4Title", .str d.sig4Title),
   ("sig4Url", .str d.sig4Url),
   ("templateId", .num 1),
   ("customFields", .obj [])]

/-- The template literal that names a signature property: `sig`, the slot number, and
the suffix. -/
def sigKey (num : Nat) (suffix : String) : String :=
  String.mk ("sig".data ++ natToJSString num ++ suffix.data)

/-- The assignment `if (value) config[key] = value`. -/
def setIfTruthy (config : JSObject) (key : String) (value : JSValue) : JSObject :=
  if value.truthy then config.set key value else config

/-- The callback of `settings.signatures.forEach((sig, index) => ...)`. -/
def applySignature (config : JSObject) (sig : SignatureDoc) (index : Nat) : JSObject :=
  let num := index + 1
  if num > 4 then config
  else
    let c1 := setIfTruthy config (sigKey num "Name") sig.name
    let c2 := setIfTruthy c1 (sigKey num "Title") sig.title
    setIfTruthy c2 (sigKey num "Url") sig.imageUrl

/-- The loop `settings.signatures.forEach(...)`, from the entry of index `index` on. -/
def applySignatures (config : JSObject) : List SignatureDoc → Nat → JSObject
  | [], _ => config
  | sig :: rest, index => applySignatures (applySignature config sig index) rest (index + 1)

/-- The block `if (settings) { ... }` of `getEffectiveSettings`. -/
def applySettings (config : JSObject) (settings : CertificateSettingsDoc) : JSObject :=
  let c1 := setIfTruthy config "templateId" settings.templateId
  let c2 := setIfTruthy c1 "logoLeft" settings.logoLeft
  let c3 := setIfTruthy c2 "logoRight" settings.logoRight
  let c4 := match settings.signatures with
    | some sigs => if sigs.length > 0 then applySignatures c3 sigs 0 else c3
    | none => c3
  match settings.customFields with
  | some fields => c4.set "customFields" (.obj fields)
  | none => c4

/-- The function `getEffectiveSettings(eventId)`, for the process environment `env` and the
stored settings documents `store`. -/
def getEffectiveSettings (env : ProcessEnv) (store : List CertificateSettingsDoc)
    (eventId : String) : JSObject :=
  let config := defaultSettings (DEFAULT_CONFIG env)
  match findSettings store eventId with
  | some settings => applySettings config settings
  | none => config

/-- A process environment in which no variable is set. -/
def emptyEnv : ProcessEnv := fun _ => none

/-! ## Certificate batch orchestrator (`certificateService.js`)

The collections are lists; a document is identified by its position in the list, which
never changes because the pipeline deletes nothing. The calls that leave the service
(HTML generation, PDF rendering, the mail transport, the clock) take their outcome
from an `Env`, which may look at the whole state of the world, and are recorded in a
log. -/

/-- The `status` field of a Certificate. -/
inductive CertStatus where
  | generated
  | sent
  | failed
  deriving DecidableEq, Repr

/-- The `deliveryStatus` field of a Certificate, and the `emailStatus` of a run. -/
inductive DeliveryStatus where
  | pending
  | sent
  | failed
  deriving DecidableEq, Repr

/-- The `status` field of an Attendance. -/
inductive AttendanceStatus where
  | present
  | late
  | excused
  deriving DecidableEq, Repr

/-- A User document as stored, with the fields the pipeline reads; a field that is not
stored is `none`. The schema declares `fullName` as a virtual: a document read with
`lean()` has a `fullName` only if one is stored, while a hydrated document answers
`fullName` with the virtual (`User.virtualFullName`). -/
structure User where
  id : String
  email : Option String
  fullName : Option String
  firstName : Option String
  lastName : Option String
  deriving DecidableEq, Repr

/-- An Event document, with the fields the pipeline and the scheduler read; dates are
timestamps. -/
structure Event where
  id : String
  title : String
  eventDate : Nat
  autoSendAfterEventEnd : Bool
  certificatesSent : Bool
  certificatesSentAt : Option Nat
  deriving DecidableEq, Repr

/-- An Attendance document. -/
structure Attendance where
  event : String
  user : String
  status : AttendanceStatus
  deriving DecidableEq, Repr

/-- A Certificate document. The template id is a number, not necessarily whole: the
schema declares it a `Number` with `min: 1` and `max: 7`. -/
structure Certificate where
  certificateId : String
  event : String
  user : String
  templateId : ℚ
  issuedAt : Nat
  pdfPath : String
  emailSent : Bool
  emailSentAt : Option Nat
  customFields : List (String × String)
  status : CertStatus
  deliveryStatus : DeliveryStatus
  failureReason : Option String
  retryCount : Nat
  lastAttemptAt : Option Nat
  deriving DecidableEq, Repr

/-- A call that leaves the service, as recorded in the log. The first argument of the
last three is the user on whose behalf the call is made. -/
inductive Call where
  | generateCertificateHTML (eventId userId : String)
  | htmlToPdf (forUser outputPath : String)
  | sendCertificateEmail (forUser : String) (recipient : Option String) (pdfPath : String)
  | transportSend (forUser : String) (recipient : Option String) (pdfPath : String)
  deriving DecidableEq, Repr

/-- The state of the world: the four collections, the paths of the files on disk and the
log of calls, oldest first. -/
structure World where
  events : List Event
  users : List User
  attendances : List Attendance
  certificates : List Certificate
  files : List String
  log : List Call
  deriving DecidableEq, Repr

/-- What `generateCertificateHTML` returns. The template id is the number that the
settings hold (whose schema declares a `Number` without bounds), or 1. -/
structure HtmlResult where
  html : String
  certificateId : String
  templateId : ℚ
  deriving DecidableEq, Repr

/-- The outcomes of the calls that leave the service, each a function of the state of
the world at the time of the call.
* `generateCertificateHTML w eventId user event`: the result, or the message of the error
  thrown (invalid template id, missing template file, ...);
* `htmlToPdf w html outputPath`: `some message` when rendering throws;
* `sendMail w recipient participantName eventName pdfPath`: `some message` when the
  mail transport throws;
* `now w`: the reading of the clock;
* `validationMessage doc`: the message of the `ValidationError` that the database
  library raises for a Certificate document that the validators of the schema reject. -/
structure Env where
  generateCertificateHTML : World → String → User → Event → Except String HtmlResult
  htmlToPdf : World → String → String → Option String
  sendMail : World → Option String → Option String → String → String → Option String
  now : World → Nat
  validationMessage : Certificate → String

/-- The options of `generateCertificatesForEvent`. -/
structure Options where
  sendEmail : Bool := true
  savePdf : Bool := true
  forceRegenerate : Bool := false
  deriving DecidableEq, Repr

/-- The `status` of a result entry. -/
inductive ResultStatus where
  | success
  | failed
  | skipped
  deriving DecidableEq, Repr

/-- An entry of the `results` array; a property that the entry does not have is `none`. -/
structure ResultEntry where
  userId : String
  participantName : Option String
  status : ResultStatus
  deliveryStatus : Option DeliveryStatus
  reason : Option String
  deriving DecidableEq, Repr

/-- The object returned by `generateCertificatesForEvent`. -/
structure BatchResult where
  success : Bool
  message : Option String
  total : Option Nat
  results : List ResultEntry
  deriving DecidableEq, Repr

/-- The object returned by `resendFailedCertificates`. -/
structure ResendResult where
  total : Nat
  success : Nat
  results : List ResultEntry
  deriving DecidableEq, Repr

/-- Truthiness of a string that may be `undefined`. -/
def truthyString : Option String → Bool
  | some s => s.data != []
  | none => false

/-- A value inside a template literal: `undefined` is written out. -/
def templateString : Option String → String
  | some s => s
  | none => "undefined"

/-- Record a call at the end of the log. -/
def World.logCall (w : World) (c : Call) : World := { w with log := w.log ++ [c] }

/-- The query `Event.findById(eventId)`. -/
def findEvent (events : List Event) (eventId : String) : Option Event :=
  events.find? (fun e => e.id == eventId)

/-- The query `User.findById(userId)`, also used to populate a `user` reference. -/
def findUser (users : List User) (userId : String) : Option User :=
  users.find? (fun u => u.id == userId)

/-- The first certificate of the pair `(event, user)` and its position, positions being
counted from `start`. -/
def findCertificateFrom (eventId userId : String) :
    List Certificate → Nat → Option (Nat × Certificate)
  | [], _ => none
  | c :: rest, start =>
    if c.event = eventId ∧ c.user = userId then some (start, c)
    else findCertificateFrom eventId userId rest (start + 1)

/-- The query `Certificate.findOne({ event: eventId, user: userId })`: the position of the
document and the document. -/
def findCertificate (certs : List Certificate) (eventId userId : String) :
    Option (Nat × Certificate) :=
  findCertificateFrom eventId userId certs 0

/-- The validators of the field `templateId` of the Certificate schema, `min: 1` and
`max: 7`. -/
def validTemplateId (templateId : ℚ) : Bool :=
  decide (1 ≤ templateId) && decide (templateId ≤ 7)

/-- The validators that the Certificate schema declares on the fields that the pipeline
sets from its inputs: `certificateId` is required, which a string meets when it is not
empty, and `templateId` lies between 1 and 7. -/
def Certificate.valid (c : Certificate) : Bool :=
  c.certificateId.data != [] && validTemplateId c.templateId

/-- The call `cert.save()` for the document at position `i`, once the document has
passed validation. The documents of the collection have passed it when they were
stored; of the fields that the pipeline assigns before a `save()`, only `templateId`
has a validator that can reject the value assigned, and the one `save()` that follows
such an assignment is checked where it is made (`upsertStep`). -/
def World.saveCertificate (w : World) (i : Nat) (c : Certificate) : World :=
  { w with certificates := w.certificates.set i c }

/-- The message of the error raised by the unique index on `certificateId`. -/
def duplicateKeyError (certificateId : String) : String :=
  String.mk ("E11000 duplicate key error: certificateId ".data ++ certificateId.data)

/-- The call `Certificate.create(doc)`: the document is validated first, and a document
that the validators reject is not stored; then the unique index on `certificateId`
rejects an id that a document already has; otherwise the document is added and its
position returned. -/
def World.createCertificate (w : World) (validationMessage : Certificate → String)
    (c : Certificate) : Except String (Nat × World) :=
  if c.valid = false then .error (validationMessage c)
  else if w.certificates.any (fun d => d.certificateId == c.certificateId) then
    .error (duplicateKeyError c.certificateId)
  else
    .ok (w.certificates.length, { w with certificates := w.certificates ++ [c] })

/-- The query `Attendance.find({ event, status: "present" }).populate("user")`: for each
present attendance of the event, in collection order, the user it refers to, or `none`
when the reference does not resolve. -/
def presentAttendees (w : World) (eventId : String) : List (Option User) :=
  (w.attendances.filter (fun a => a.event == eventId && a.status == .present)).map
    (fun a => findUser w.users a.user)

/-- The directory `path.join(__dirname, "..", "generated_certificates", String(eventId))`,
relative to the backend root. -/
def outputDirOf (eventId : String) : String :=
  String.mk ("generated_certificates/".data ++ eventId.data)

/-- The path `path.join(outputDir, certificateId + ".pdf")`. -/
def pdfPathOf (outputDir certificateId : String) : String :=
  String.mk (outputDir.data ++ ['/'] ++ certificateId.data ++ ".pdf".data)

/-- The message of the error thrown by `sendCertificateEmail` without attachment. -/
def noPdfContentError : String :=
  "No PDF content provided. Supply either pdfPath or pdfBuffer."

/-- The function `sendCertificateEmail`, called with a `pdfPath` and no `pdfBuffer` as the
service does: the attachment is read from `pdfPath` when the path is non-empty and the
file exists, otherwise the call throws; then the mail is handed to the transport, which
may throw. -/
def sendCertificateEmail (env : Env) (w : World) (forUser : String)
    (recipient participantName : Option String) (eventName pdfPath : String) :
    Except String Unit × World :=
  let w1 := w.logCall (.sendCertificateEmail forUser recipient pdfPath)
  if pdfPath.data ≠ [] ∧ pdfPath ∈ w1.files then
    let w2 := w1.logCall (.transportSend forUser recipient pdfPath)
    match env.sendMail w1 recipient participantName eventName pdfPath with
    | some message => (.error message, w2)
    | none => (.ok (), w2)
  else (.error noPdfContentError, w1)

/-- The entry pushed for a skipped attendee. -/
def skippedEntry (userId : String) : ResultEntry :=
  ⟨userId, none, .skipped, none, some "Already sent"⟩

/-- The entry pushed by the `catch` of the loop body. -/
def caughtEntry (userId message : String) : ResultEntry :=
  ⟨userId, none, .failed, none, some message⟩

/-- The entry pushed at the end of the loop body. -/
def doneEntry (user : User) (emailStatus : DeliveryStatus) : ResultEntry :=
  ⟨user.id, user.fullName, if emailStatus = .sent then .success else .failed,
    some emailStatus, none⟩

/-- The step "Create/Update PDF" of the loop body: the path of the PDF (empty without
`savePdf`) and the world after rendering, or the message of the error thrown by
`htmlToPdf`, with the world in which the call is logged. -/
def renderPdfStep (env : Env) (w : World) (savePdf : Bool) (outputDir : String)
    (user : User) (r : HtmlResult) : Except String String × World :=
  if savePdf then
    let pdfPath := pdfPathOf outputDir r.certificateId
    let w1 := w.logCall (.htmlToPdf user.id pdfPath)
    match env.htmlToPdf w r.html pdfPath with
    | some message => (.error message, w1)
    | none => (.ok pdfPath, { w1 with files := w1.files ++ [pdfPath] })
  else (.ok "", w)

/-- The step "Create/Update DB Record (Pending)" of the loop body: the position and the
content of the record after the step, or the message of the error thrown. Without a
record, `Certificate.create` validates the new document; with a record, `save()`
validates the template id assigned to it, and a rejected document is not written. -/
def upsertStep (env : Env) (w : World) (eventId : String) (user : User) (r : HtmlResult)
    (pdfPath : String) (now : Nat) (found : Option (Nat × Certificate)) :
    Except String (Nat × Certificate) × World :=
  match found with
  | none =>
    let doc : Certificate :=
      { certificateId := r.certificateId, event := eventId, user := user.id,
        templateId := r.templateId, issuedAt := now, pdfPath := pdfPath,
        emailSent := false, emailSentAt := none, customFields := [],
        status := .generated, deliveryStatus := .pending, failureReason := none,
        retryCount := 0, lastAttemptAt := none }
    match w.createCertificate env.validationMessage doc with
    | .error message => (.error message, w)
    | .ok (i, w1) => (.ok (i, doc), w1)
  | some (i, certRecord) =>
    let doc := { certRecord with
      pdfPath := pdfPath, templateId := r.templateId,
      deliveryStatus := .pending, status := .generated }
    if validTemplateId r.templateId then (.ok (i, doc), w.saveCertificate i doc)
    else (.error (env.validationMessage doc), w)

/-- The step "Send Email" of the loop body: the `emailStatus` and the world after the
step. -/
def emailStep (env : Env) (w : World) (opts : Options) (event : Event) (user : User)
    (i : Nat) (certRecord : Certificate) (pdfPath : String) (now : Nat) :
    DeliveryStatus × World :=
  if opts.sendEmail ∧ truthyString user.email then
    let participantName :=
      if truthyString user.fullName then user.fullName
      else some (String.mk ((templateString user.firstName).data ++ [' ']
        ++ (templateString user.lastName).data))
    match sendCertificateEmail env w user.id user.email participantName event.title pdfPath with
    | (.ok _, w1) =>
      (.sent, w1.saveCertificate i { certRecord with
        emailSent := true, emailSentAt := some now, status := .sent, deliveryStatus := .sent })
    | (.error message, w1) =>
      (.failed, w1.saveCertificate i { certRecord with
        deliveryStatus := .failed, failureReason := some message,
        retryCount := certRecord.retryCount + 1, lastAttemptAt := some now })
  else (.pending, w)

/-- The test `certRecord && certRecord.status === "sent" && !forceRegenerate`. -/
def alreadySent (found : Option (Nat × Certificate)) (forceRegenerate : Bool) : Bool :=
  match found with
  | some (_, certRecord) => certRecord.status == .sent && !forceRegenerate
  | none => false

/-- The body of the loop `for (const attendance of attendances)` for an attendance whose
user resolves: the world after the iteration and the entry pushed. -/
def processUser (env : Env) (eventId : String) (event : Event) (opts : Options)
    (outputDir : String) (w : World) (user : User) : World × ResultEntry :=
  let found := findCertificate w.certificates eventId user.id
  if alreadySent found opts.forceRegenerate then (w, skippedEntry user.id)
  else
    let w1 := w.logCall (.generateCertificateHTML eventId user.id)
    match env.generateCertificateHTML w eventId user event with
    | .error message => (w1, caughtEntry user.id message)
    | .ok r =>
      match renderPdfStep env w1 opts.savePdf outputDir user r with
      | (.error message, w2) => (w2, caughtEntry user.id message)
      | (.ok pdfPath, w2) =>
        let now := env.now w2
        match upsertStep env w2 eventId user r pdfPath now found with
        | (.error message, w3) => (w3, caughtEntry user.id message)
        | (.ok (i, certRecord), w3) =>
          let (emailStatus, w4) := emailStep env w3 opts event user i certRecord pdfPath now
          (w4, doneEntry user emailStatus)

/-- One iteration of the loop `for (const attendance of attendances)`; an attendance
whose user does not resolve is passed over. -/
def processAttendee (env : Env) (eventId : String) (event : Event) (opts : Options)
    (outputDir : String) (st : World × List ResultEntry) (attendee : Option User) :
    World × List ResultEntry :=
  match attendee with
  | none => st
  | some user =>
    let (w, entry) := processUser env eventId event opts outputDir st.1 user
    (w, st.2 ++ [entry])

/-- The world in which the iteration of the loop for the attendance at position `k`
starts: the world that the iterations before it have left. -/
def worldAtTurn (env : Env) (eventId : String) (event : Event) (opts : Options)
    (outputDir : String) (w : World) (attendees : List (Option User)) (k : Nat) : World :=
  ((attendees.take k).foldl (processAttendee env eventId event opts outputDir) (w, [])).1

/-- The update `Event.findByIdAndUpdate(eventId, { certificatesSent: true,
certificatesSentAt: new Date() })`. -/
def World.markCertificatesSent (w : World) (eventId : String) (now : Nat) : World :=
  { w with events := w.events.map (fun e =>
      if e.id = eventId then { e with certificatesSent := true, certificatesSentAt := some now }
      else e) }

/-- The function `generateCertificatesForEvent(eventId, options)`: the value returned or
the message of the error thrown, and the world afterwards. -/
def generateCertificatesForEvent (env : Env) (w : World) (eventId : String)
    (opts : Options) : Except String BatchResult × World :=
  match findEvent w.events eventId with
  | none => (.error "Event not found", w)
  | some event =>
    let attendances := presentAttendees w eventId
    if attendances.length = 0 then
      (.ok ⟨false, some "No present attendees found", none, []⟩, w)
    else
      let outputDir := outputDirOf eventId
      let (w1, results) :=
        attendances.foldl (processAttendee env eventId event opts outputDir) (w, [])
      let w2 := w1.markCertificatesSent eventId (env.now w1)
      (.ok ⟨true, none, some attendances.length, results⟩, w2)

/-- The query of `resendFailedCertificates`, `Certificate.find({ event: eventId,
deliveryStatus: "failed", retryCount: { $lt: 3 } }).populate("user")`, as a test on one
document. -/
def isResendCandidate (eventId : String) (c : Certificate) : Bool :=
  c.event == eventId && c.deliveryStatus == .failed && decide (c.retryCount < 3)

/-- The documents found by that query, each with its position and its populated user. -/
def failedCertificatesFrom (users : List User) (eventId : String) :
    List Certificate → Nat → List (Nat × Certificate × Option User)
  | [], _ => []
  | c :: rest, start =>
    if isResendCandidate eventId c then
      (start, c, findUser users c.user) :: failedCertificatesFrom users eventId rest (start + 1)
    else failedCertificatesFrom users eventId rest (start + 1)

/-- The message of the `TypeError` for reading a property of `null`. -/
def nullPropertyError (property : String) : String :=
  String.mk ("Cannot read properties of null (reading '".data ++ property.data ++ "')".data)

/-- The virtual `fullName` of the User schema,
`[this.firstName, this.lastName].filter(Boolean).join(" ")`: the names that are stored
and not empty, with a space between them. -/
def User.virtualFullName (u : User) : String :=
  match truthyString u.firstName, truthyString u.lastName with
  | true, true =>
    String.mk ((templateString u.firstName).data ++ [' '] ++ (templateString u.lastName).data)
  | true, false => templateString u.firstName
  | false, true => templateString u.lastName
  | false, false => ""

/-- The `try` block of the loop of `resendFailedCertificates`, up to the end of the
`await`: the argument object is built (reading `cert.user.email` and `event.title`, either
of which throws on `null`), then `sendCertificateEmail` is called. The user is a
hydrated document (the query populates it without `lean()`), so that `cert.user.fullName`
is the virtual. -/
def resendAttempt (env : Env) (w : World) (event : Option Event) (cert : Certificate)
    (user : Option User) : Except String Unit × World :=
  match user with
  | none => (.error (nullPropertyError "email"), w)
  | some u =>
    match event with
    | none => (.error (nullPropertyError "title"), w)
    | some e =>
      sendCertificateEmail env w u.id u.email (some u.virtualFullName) e.title cert.pdfPath

/-- The loop `for (const cert of failedCerts)` of `resendFailedCertificates`: the entries
pushed, or the message of an error that leaves the loop, and the world afterwards. An
error leaves the loop when the `catch` block itself throws, reading `cert.user._id` of a
`null` user. -/
def resendLoop (env : Env) (event : Option Event) :
    World → List ResultEntry → List (Nat × Certificate × Option User) →
      Except String (List ResultEntry) × World
  | w, results, [] => (.ok results, w)
  | w, results, (i, cert, user) :: rest =>
    match resendAttempt env w event cert user with
    | (.ok _, w1) =>
      let w2 := w1.saveCertificate i { cert with
        deliveryStatus := .sent, emailSent := true, emailSentAt := some (env.now w1),
        status := .sent }
      match user with
      | some u => resendLoop env event w2 (results ++ [⟨u.id, none, .success, none, none⟩]) rest
      | none => (.error (nullPropertyError "_id"), w2)
    | (.error message, w1) =>
      let w2 := w1.saveCertificate i { cert with
        retryCount := cert.retryCount + 1, lastAttemptAt := some (env.now w1),
        failureReason := some message }
      match user with
      | some u =>
        resendLoop env event w2 (results ++ [⟨u.id, none, .failed, none, some message⟩]) rest
      | none => (.error (nullPropertyError "_id"), w2)

/-- The function `resendFailedCertificates(eventId)`. -/
def resendFailedCertificates (env : Env) (w : World) (eventId : String) :
    Except String ResendResult × World :=
  let failedCerts := failedCertificatesFrom w.users eventId w.certificates 0
  let event := findEvent w.events eventId
  match resendLoop env event w [] failedCerts with
  | (.ok results, w1) =>
    (.ok ⟨failedCerts.length, (results.filter (fun r => r.status == .success)).length,
      results⟩, w1)
  | (.error message, w1) => (.error message, w1)

/-! ### Vocabulary for the effect of one iteration -/

/-- The user on whose behalf a logged call was made. -/
def Call.forUser : Call → String
  | .generateCertificateHTML _ userId => userId
  | .htmlToPdf forUser _ => forUser
  | .sendCertificateEmail forUser _ _ => forUser
  | .transportSend forUser _ _ => forUser

/-- The document `c2` is the document `c1` after work on the pair `(eventId, userId)`:
its identity (certificate id, event, user) is that of `c1`, and it is `c1` itself unless
`c1` belongs to the pair. -/
def SameDoc (eventId userId : String) (c1 c2 : Certificate) : Prop :=
  c2.event = c1.event ∧ c2.user = c1.user ∧ c2.certificateId = c1.certificateId ∧
    (¬ (c1.event = eventId ∧ c1.user = userId) → c2 = c1)

/-- The collection `after` is the collection `before` after work on the pair
`(eventId, userId)`: position by position the documents correspond by `SameDoc`, and
the documents added at the end belong to the pair. -/
def CertsStep (eventId userId : String) : List Certificate → List Certificate → Prop
  | [], after => ∀ c ∈ after, c.event = eventId ∧ c.user = userId
  | _ :: _, [] => False
  | c1 :: before, c2 :: after => SameDoc eventId userId c1 c2 ∧ CertsStep eventId userId before after

/-- The world `w2` is the world `w1` after work on the pair `(eventId, userId)`: the log
has grown by calls made for that user, the certificates have changed as `CertsStep`
allows, files have only been added, and the other collections are the same. -/
def Touches (eventId userId : String) (w1 w2 : World) : Prop :=
  (∃ calls, w2.log = w1.log ++ calls ∧ ∀ c ∈ calls, c.forUser = userId) ∧
    CertsStep eventId userId w1.certificates w2.certificates ∧
    w2.events = w1.events ∧ w2.users = w1.users ∧ w2.attendances = w1.attendances ∧
    ∀ f ∈ w1.files, f ∈ w2.files

/-! ### Sample worlds -/

/-- The total length of the certificate ids of a collection. -/
def totalIdLength : List Certificate → Nat
  | [] => 0
  | c :: rest => c.certificateId.data.length + totalIdLength rest

/-- An id that no document of the collection has: it is longer than each of them. -/
def freshId (certs : List Certificate) : String :=
  String.mk (List.replicate (totalIdLength certs + 1) 'X')

/-- An environment for the examples: HTML generation succeeds with an id that no record
has and the template id 1, rendering succeeds, the mail transport throws for the
recipients in `failing` and for no other, and the clock reads the length of the log. -/
def exampleEnv (failing : List String) : Env where
  generateCertificateHTML := fun w _ _ _ => .ok ⟨"<html></html>", freshId w.certificates, 1⟩
  htmlToPdf := fun _ _ _ => none
  sendMail := fun _ recipient _ _ _ =>
    match recipient with
    | some address => if address ∈ failing then some "Message failed: timeout" else none
    | none => none
  now := fun w => w.log.length
  validationMessage := fun _ => "Certificate validation failed"

/-- An environment for the examples whose certificate ids come from a bounded supply:
the id is `CERT-20240212-01-` followed by the id of the user, whatever the collection
holds. The rest is as in `exampleEnv`. -/
def perUserEnv (failing : List String) : Env :=
  { exampleEnv failing with
    generateCertificateHTML := fun _ _ u _ =>
      .ok ⟨"<html></html>", String.mk ("CERT-20240212-01-".data ++ u.id.data), 1⟩ }

/-- Three users with an e-mail address. -/
def exampleUsers : List User :=
  [⟨"u1", some "ann@example.org", some "Ann Lee", none, none⟩,
   ⟨"u2", some "bob@example.org", some "Bob Ray", none, none⟩,
   ⟨"u3", some "cy@example.org", some "Cy Moss", none, none⟩]

/-- A world with one event, the three users present at it, and the given
certificates. -/
def exampleWorld (certs : List Certificate) : World where
  events := [⟨"e1", "Summit", 1, true, false, none⟩]
  users := exampleUsers
  attendances := [⟨"e1", "u1", .present⟩, ⟨"e1", "u2", .present⟩, ⟨"e1", "u3", .present⟩]
  certificates := certs
  files := []
  log := []

/-- A certificate of the given user for the event `e1` with the given two status fields
and retry count. -/
def exampleCertificate (userId : String) (status : CertStatus)
    (deliveryStatus : DeliveryStatus) (retryCount : Nat) : Certificate where
  certificateId := String.mk ("CERT-20240212-01-".data ++ userId.data)
  event := "e1"
  user := userId
  templateId := 1
  issuedAt := 0
  pdfPath := String.mk ("generated_certificates/e1/CERT-20240212-01-".data ++ userId.data
    ++ ".pdf".data)
  emailSent := false
  emailSentAt := none
  customFields := []
  status := status
  deliveryStatus := deliveryStatus
  failureReason := none
  retryCount := retryCount
  lastAttemptAt := none

/-! ## Signature slots and placeholder map (`generateCertificateHTML`, steps 4 to 7) -/

/-- The value a property takes from an optional source under the rule
`if (value) config[key] = value`: the source when there is one and it is truthy, the
previous value otherwise. -/
def slotValue (previous : JSValue) : Option JSValue → JSValue
  | some value => if value.truthy then value else previous
  | none => previous

/-- The characters matched by the class `\s` of a regular expression and removed by
`String.prototype.trim`: the white space and line terminator code points of
ECMAScript. -/
def isJSWhiteSpace (c : Char) : Bool :=
  let n := c.toNat
  n == 9 || n == 10 || n == 11 || n == 12 || n == 13 || n == 32 || n == 160 ||
    n == 0x1680 || (0x2000 ≤ n && n ≤ 0x200A) || n == 0x2028 || n == 0x2029 ||
    n == 0x202F || n == 0x205F || n == 0x3000 || n == 0xFEFF

/-- The method `String.prototype.trim`. -/
def jsTrim (s : List Char) : List Char :=
  ((s.dropWhile isJSWhiteSpace).reverse.dropWhile isJSWhiteSpace).reverse

/-- The properties of the `userData` argument that `generateCertificateHTML` reads. -/
structure UserData where
  fullName : JSValue
  firstName : JSValue
  lastName : JSValue
  department : JSValue
  deriving DecidableEq, Repr

/-- The properties of the `eventData` argument that the placeholder map reads; the
event date enters the map through its formatted text. -/
structure EventData where
  title : JSValue
  organiserName : JSValue
  department : JSValue
  venue : JSValue
  chiefGuest : JSValue
  deriving DecidableEq, Repr

/-- Step 4 of `generateCertificateHTML`: the full name, else the trimmed
`firstName lastName`, else `Participant`. -/
def resolveParticipantName (userData : UserData) : JSValue :=
  userData.fullName.or
    ((JSValue.str (String.mk (jsTrim ((userData.firstName.or (.str "")).toJSString
        ++ ' ' :: (userData.lastName.or (.str "")).toJSString)))).or
      (.str "Participant"))

/-- The own enumerable properties of a string: its characters under their indices,
from index `index` on. -/
def indexedChars : Nat → List Char → JSObject
  | _, [] => []
  | index, c :: rest =>
    (String.mk (natToJSString index), JSValue.str (String.mk [c])) :: indexedChars (index + 1) rest

/-- The own enumerable properties that a spread `...value` copies: those of a plain
object, the indexed characters of a string, nothing for `undefined`, `null` and
numbers. -/
def spreadEntries : JSValue → JSObject
  | .obj fields => fields.map (fun kv => (kv.1, JSValue.str kv.2))
  | .str s => indexedChars 0 s.data
  | _ => []

/-- The spread `{ ...target, ...source }` continued into an object under construction:
every property of `source` is assigned in turn, a later one overriding an earlier one
of the same name. -/
def JSObject.assign (target source : JSObject) : JSObject :=
  source.foldl (fun o kv => o.set kv.1 kv.2) target

/-- Step 6 of `generateCertificateHTML`: the object literal `placeholders`. The
properties are written in source order: the effective settings, the event and user
fields, the identifier and the issue date, then the custom fields of the settings and
last those of the request. `formattedEventDate` and `issuedDate` are the texts produced
by `moment(...).format("DD MMMM YYYY")` in step 3. -/
def buildPlaceholders (config : JSObject) (userData : UserData) (eventData : EventData)
    (formattedEventDate issuedDate certificateId : String) (customFields : JSObject) :
    JSObject :=
  let p0 := JSObject.assign [] config
  let p1 := p0.set "eventTitle" (eventData.title.or (.str ""))
  let p2 := p1.set "organiserName" (eventData.organiserName.or (config.get "sig4Name"))
  let p3 := p2.set "department" (userData.department.or (eventData.department.or (.str "")))
  let p4 := p3.set "venue" (eventData.venue.or (.str ""))
  let p5 := p4.set "eventDate" (.str formattedEventDate)
  let p6 := p5.set "chiefGuest" (eventData.chiefGuest.or (.str ""))
  let p7 := p6.set "participantName" (resolveParticipantName userData)
  let p8 := p7.set "certificateId" (.str certificateId)
  let p9 := p8.set "issuedDate" (.str issuedDate)
  let p10 := p9.assign (spreadEntries (config.get "customFields"))
  p10.assign customFields

/-- One turn of the loop of step 7:
`placeholders["sig" + i + "Display"] = placeholders["sig" + i + "Url"] ? "block" : "none"`. -/
def setSignatureDisplay (placeholders : JSObject) (i : Nat) : JSObject :=
  placeholders.set (sigKey i "Display")
    (if (placeholders.get (sigKey i "Url")).truthy then .str "block" else .str "none")

/-- Step 7 of `generateCertificateHTML`: the loop `for (let i = 1; i <= 4; i++)`. -/
def signatureDisplayLoop (placeholders : JSObject) : JSObject :=
  setSignatureDisplay (setSignatureDisplay (setSignatureDisplay
    (setSignatureDisplay placeholders 1) 2) 3) 4

/-- The placeholder map that `generateCertificateHTML` hands to `fillPlaceholders`:
the object literal of step 6 after the loop of step 7. -/
def placeholderMap (config : JSObject) (userData : UserData) (eventData : EventData)
    (formattedEventDate issuedDate certificateId : String) (customFields : JSObject) :
    JSObject :=
  signatureDisplayLoop
    (buildPlaceholders config userData eventData formattedEventDate issuedDate certificateId
      customFields)

/-- The object has an own property of that name. -/
def JSObject.has (o : JSObject) (key : String) : Bool := o.any (fun e => e.1 == key)

/-- The four names `sig1Display` to `sig4Display`. -/
def displayKeys : List String := [sigKey 1 "Display", sigKey 2 "Display", sigKey 3 "Display",
  sigKey 4 "Display"]

/-- Sample user and event data. -/
def sampleUser : UserData := ⟨.str "Asha Rao", .str "Asha", .str "Rao", .str "CSE"⟩

/-- Sample event data. -/
def sampleEvent : EventData := ⟨.str "Tech Fest", .undefined, .str "IT", .str "Hall 1", .null⟩

/-! ## Template loader (`loadTemplate`) -/

/-- The value of a character as a digit of a radix up to 36, if it is one. -/
def digitValue (c : Char) : Option Nat :=
  let n := c.toNat
  if 48 ≤ n ∧ n ≤ 57 then some (n - 48)
  else if 97 ≤ n ∧ n ≤ 122 then some (n - 97 + 10)
  else if 65 ≤ n ∧ n ≤ 90 then some (n - 65 + 10)
  else none

/-- The value of a character as a digit of the given radix, if it is one. -/
def radixDigit (radix : Nat) (c : Char) : Option Nat :=
  match digitValue c with
  | some d => if d < radix then some d else none
  | none => none

/-- The value of the longest prefix of the text made of digits of the radix; `acc` is
the value read so far, `none` as long as no digit has been read. -/
def parseDigits (radix : Nat) : List Char → Option Nat → Option Nat
  | [], acc => acc
  | c :: rest, acc =>
    match radixDigit radix c with
    | some d => parseDigits radix rest (some (acc.getD 0 * radix + d))
    | none => acc

/-- The optional sign that `parseInt` reads: whether it is a minus, and the text after
it. -/
def stripSign : List Char → Bool × List Char
  | [] => (false, [])
  | c :: rest =>
    if c = '-' then (true, rest) else if c = '+' then (false, rest) else (false, c :: rest)

/-- The optional prefix `0x` or `0X` that `parseInt` reads when no radix is given: the
radix to use, and the text after the prefix. -/
def stripHexPrefix : List Char → Nat × List Char
  | c :: d :: rest =>
    if c = '0' ∧ (d = 'x' ∨ d = 'X') then (16, rest) else (10, c :: d :: rest)
  | s => (10, s)

/-- The function `parseInt(string)` without a radix, on the string form of its
argument: leading white space is skipped, then an optional sign, an optional `0x`, and
the longest run of digits is read; what follows the digits is ignored, and the result
is `NaN` (`none`) when there is no digit. The result is the exact integer; the tests
made on it by `loadTemplate` do not depend on its rounding to a double. -/
def parseIntJS (input : List Char) : Option Int :=
  let s := stripSign (input.dropWhile isJSWhiteSpace)
  let t := stripHexPrefix s.2
  match parseDigits t.1 t.2 none with
  | some n => some (if s.1 then -(n : Int) else (n : Int))
  | none => none

/-- The message of the error for a template id that is not accepted. -/
def invalidTemplateError (templateId : JSValue) : String :=
  String.mk ("Invalid templateId: ".data ++ templateId.toJSString ++ ". Must be 1–7.".data)

/-- The message of the error for a template whose file is absent. -/
def templateNotFoundError (validId : Nat) : String :=
  String.mk ("Template file not found: template".data ++ natToJSString validId ++ ".html".data)

/-- The function `loadTemplate(templateId)`. `templates n` is the text of the file
`templates/template<n>.html`, if the file exists. -/
def loadTemplate (templates : Nat → Option String) (templateId : JSValue) :
    Except String String :=
  match parseIntJS templateId.toJSString with
  | none => .error (invalidTemplateError templateId)
  | some validId =>
    if validId < 1 ∨ validId > 7 then .error (invalidTemplateError templateId)
    else
      match templates validId.toNat with
      | some text => .ok text
      | none => .error (templateNotFoundError validId.toNat)

/-- A template directory that holds the files of templates 1 to 3. -/
def sampleTemplates : Nat → Option String
  | 1 => some "<h1>{{participantName}}</h1>"
  | 2 => some "<h2>{{participantName}}</h2>"
  | 3 => some "<h3>{{participantName}}</h3>"
  | _ => none

/-! ## Outcome of a dispatch on the certificate record -/

/-- The `participantName` argument of the dispatch in the loop body of
`generateCertificatesForEvent`: the full name, else first and last name joined by a
space. -/
def mailParticipantName (user : User) : Option String :=
  if truthyString user.fullName then user.fullName
  else some (String.mk ((templateString user.firstName).data ++ [' ']
    ++ (templateString user.lastName).data))

/-- The assignments made to the record after a dispatch that returned:
`emailSent = true`, `emailSentAt = now`, `status = "sent"`, `deliveryStatus = "sent"`. -/
def Certificate.markSent (c : Certificate) (now : Nat) : Certificate :=
  { c with emailSent := true, emailSentAt := some now, status := .sent, deliveryStatus := .sent }

/-- The assignments made to the record in the `catch` block of a dispatch:
`deliveryStatus = "failed"`, `failureReason = err.message`, `retryCount += 1`,
`lastAttemptAt = now`. -/
def Certificate.markFailed (c : Certificate) (message : String) (now : Nat) : Certificate :=
  { c with deliveryStatus := .failed, failureReason := some message,
           retryCount := c.retryCount + 1, lastAttemptAt := some now }

/-! ## Scheduler (`cron/certificateCron.js`) -/

/-- The options object that the scheduled job passes to `generateCertificatesForEvent`. -/
def cronOptions : Options := { sendEmail := true, savePdf := true, forceRegenerate := false }

/-- The query `Event.find({ eventDate: { $lt: now }, autoSendAfterEventEnd: true,
certificatesSent: false })` as a test on one document. -/
def isPendingEvent (now : Nat) (e : Event) : Bool :=
  decide (e.eventDate < now) && e.autoSendAfterEventEnd == true && e.certificatesSent == false

/-- One invocation made by the scheduled job: the arguments, the world in which it
started, what it returned or threw, and the world it left. -/
structure CronCall where
  eventId : String
  options : Options
  before : World
  outcome : Except String BatchResult
  after : World

/-- The loop `for (const event of eventsToProcess)` of the scheduled job, `generate` being
the function invoked: an invocation that throws is caught and logged, and the loop goes
on with the next event. -/
def cronLoop (generate : World → String → Options → Except String BatchResult × World) :
    List Event → World → List CronCall → World × List CronCall
  | [], w, calls => (w, calls)
  | event :: rest, w, calls =>
    match generate w event.id cronOptions with
    | (.ok result, w1) =>
      cronLoop generate rest w1 (calls ++ [⟨event.id, cronOptions, w, .ok result, w1⟩])
    | (.error message, w1) =>
      cronLoop generate rest w1 (calls ++ [⟨event.id, cronOptions, w, .error message, w1⟩])

/-- The callback that `startCertificateCron` schedules, fired at time `now`: the query,
the early return when it selects nothing, then the loop. The result is the world
afterwards and the invocations made, in order. -/
def certificateCronJob
    (generate : World → String → Options → Except String BatchResult × World)
    (now : Nat) (w : World) : World × List CronCall :=
  let eventsToProcess := w.events.filter (isPendingEvent now)
  if eventsToProcess.length = 0 then (w, []) else cronLoop generate eventsToProcess w []

/-- The scheduled job with the service function `generateCertificatesForEvent`. -/
def certificateCron (env : Env) (w : World) : World × List CronCall :=
  certificateCronJob (generateCertificatesForEvent env) (env.now w) w

/-- The invocations run one after the other: the first starts in the world `w`, each
next one in the world left by the one before, and `final` is the world left by the
last. -/
def callChain : World → List CronCall → World → Prop
  | w, [], final => final = w
  | w, c :: cs, final => c.before = w ∧ callChain c.after cs final

/-- Three events at time 10: a past one to be sent, a past one already sent, and one
without automatic sending. -/
def cronEvents : List Event :=
  [⟨"e1", "Summit", 1, true, false, none⟩, ⟨"e2", "Fair", 2, true, true, some 3⟩,
   ⟨"e3", "Talk", 3, false, false, none⟩, ⟨"e4", "Expo", 4, true, false, none⟩,
   ⟨"e5", "Gala", 10, true, false, none⟩]

/-! ## Resending one certificate (`resendSingleCertificate`) -/

/-- The message of the error thrown when the pair has no certificate. -/
def certificateNotFoundError : String := "Certificate not found. Please generate first."

/-- The message of the error thrown when the user or the event does not resolve. -/
def userOrEventMissingError : String := "User or Event missing"

/-- The function `path.dirname` of the POSIX flavour: trailing slashes and the last
component are dropped; the result is `.` for a path without directory part and `/` for
a component under the root. -/
def dirnameOf : List Char → List Char
  | [] => ['.']
  | c :: tail =>
    match (tail.reverse.dropWhile (fun x => x == '/')).dropWhile (fun x => x != '/') with
    | [] => if c = '/' then ['/'] else ['.']
    | _ :: r => if c = '/' ∧ r = [] then ['/', '/'] else c :: r.reverse

/-- The call `path.join(dir, file)` for a normalized directory `dir` and a file name
without slash. -/
def joinPath (dir file : List Char) : List Char :=
  if dir = ['.'] then file
  else if dir.getLast? = some '/' then dir ++ file
  else dir ++ '/' :: file

/-- The first part of the `try` block of `resendSingleCertificate`: the path of the PDF
to attach. When the file of `cert.pdfPath` is on disk that path is used; otherwise the
HTML is generated again under the certificate id of the record and rendered to
`<dirname of cert.pdfPath>/<certificateId>.pdf`. `regenerate` stands for the call
`generateCertificateHTML(eventId, user, event, cert.customFields, cert.certificateId)`,
of which only the `html` is used: the HTML, or the message of the error thrown. -/
def preparePdf (env : Env)
    (regenerate : World → String → User → Event → List (String × String) → String →
      Except String String)
    (w : World) (eventId : String) (user : User) (event : Event) (cert : Certificate) :
    Except String String × World :=
  if cert.pdfPath ∈ w.files then (.ok cert.pdfPath, w)
  else
    let w1 := w.logCall (.generateCertificateHTML eventId user.id)
    match regenerate w eventId user event cert.customFields cert.certificateId with
    | .error message => (.error message, w1)
    | .ok html =>
      let pdfPath := String.mk (joinPath (dirnameOf cert.pdfPath.data)
        (cert.certificateId.data ++ ".pdf".data))
      let w2 := w1.logCall (.htmlToPdf user.id pdfPath)
      match env.htmlToPdf w1 html pdfPath with
      | some message => (.error message, w2)
      | none => (.ok pdfPath, { w2 with files := w2.files ++ [pdfPath] })

/-- The function `resendSingleCertificate(eventId, userId)`: whether it returns or the
message of the error it throws, and the world afterwards. After a dispatch that returned
the record is saved with `deliveryStatus = "sent"`, `emailSent = true`,
`emailSentAt = new Date()`, `status = "sent"`; in the `catch` block it is saved with
`deliveryStatus = "failed"`, `failureReason = err.message`, `retryCount += 1`,
`lastAttemptAt = new Date()`, and the error is thrown again. -/
def resendSingleCertificate (env : Env)
    (regenerate : World → String → User → Event → List (String × String) → String →
      Except String String)
    (w : World) (eventId userId : String) : Except String Unit × World :=
  match findCertificate w.certificates eventId userId with
  | none => (.error certificateNotFoundError, w)
  | some (i, cert) =>
    match findUser w.users userId, findEvent w.events eventId with
    | some user, some event =>
      match preparePdf env regenerate w eventId user event cert with
      | (.error message, w1) =>
        (.error message, w1.saveCertificate i { cert with
          deliveryStatus := .failed, failureReason := some message,
          retryCount := cert.retryCount + 1, lastAttemptAt := some (env.now w1) })
      | (.ok pdfPath, w1) =>
        match sendCertificateEmail env w1 user.id user.email user.fullName event.title
            pdfPath with
        | (.ok _, w2) =>
          (.ok (), w2.saveCertificate i { cert with
            deliveryStatus := .sent, emailSent := true, emailSentAt := some (env.now w2),
            status := .sent })
        | (.error message, w2) =>
          (.error message, w2.saveCertificate i { cert with
            deliveryStatus := .failed, failureReason := some message,
            retryCount := cert.retryCount + 1, lastAttemptAt := some (env.now w2) })
    | _, _ => (.error userOrEventMissingError, w)

/-- A regeneration that succeeds. -/
def sampleRegenerate : World → String → User → Event → List (String × String) → String →
    Except String String :=
  fun _ _ _ _ _ _ => .ok "<html></html>"

/-! ## Mail sender (`utils/emailSender.js`, `sendCertificateEmail`) -/

/-- The call `name.replace(/\s+/g, "_")`: every maximal run of white space becomes one
underscore. The flag tells that the previous character belonged to a run that has
already been replaced. -/
def replaceWhiteSpaceRuns : Bool → List Char → List Char
  | _, [] => []
  | inRun, c :: rest =>
    if isJSWhiteSpace c then
      if inRun then replaceWhiteSpaceRuns true rest
      else '_' :: replaceWhiteSpaceRuns true rest
    else c :: replaceWhiteSpaceRuns false rest

/-- The attachment file name:
`Certificate_` + `(participantName || "Participant").replace(/\s+/g, "_")` + `.pdf`. -/
def attachmentFilename (participantName : Option String) : String :=
  let name := if truthyString participantName then participantName.getD "" else "Participant"
  String.mk ("Certificate_".data ++ replaceWhiteSpaceRuns false name.data ++ ".pdf".data)

/-- The file name as the specification words it: each space of the name replaced by
an underscore. -/
def eachSpaceToUnderscore (name : String) : String :=
  String.mk ("Certificate_".data ++ name.data.map (fun c => if c = ' ' then '_' else c)
    ++ ".pdf".data)

/-- The parameters of `sendCertificateEmail` that decide the attachment and the
recipient; a parameter that is not supplied is `none`. A supplied `pdfBuffer` is a
`Buffer`, given by its bytes. -/
structure MailParams where
  recipient : Option String
  participantName : Option String
  eventName : String
  pdfPath : Option String
  pdfBuffer : Option (List Nat)
  deriving DecidableEq, Repr

/-- The content of the attachment: the buffer supplied, or what `fs.readFileSync` reads
from the path supplied. -/
inductive AttachmentContent where
  | buffer (bytes : List Nat)
  | file (path : String)
  deriving DecidableEq, Repr

/-- The part of `mailOptions` that depends on the attachment: the recipient and the
single attachment. -/
structure MailOptions where
  recipient : Option String
  filename : String
  content : AttachmentContent
  deriving DecidableEq, Repr

/-- The function `sendCertificateEmail(params)`: whether it returns or the message of the
error it throws, and the mails handed to `transporter.sendMail`. `fileExists` is
`fs.existsSync` and `transport mail` is `some message` when the transport throws. -/
def sendCertificateEmailWith (fileExists : String → Bool)
    (transport : MailOptions → Option String) (params : MailParams) :
    Except String Unit × List MailOptions :=
  let filename := attachmentFilename params.participantName
  let content : Option AttachmentContent :=
    match params.pdfBuffer with
    | some bytes => some (.buffer bytes)
    | none =>
      if truthyString params.pdfPath ∧ fileExists (params.pdfPath.getD "") then
        some (.file (params.pdfPath.getD ""))
      else none
  match content with
  | none => (.error noPdfContentError, [])
  | some attachmentContent =>
    let mailOptions : MailOptions := ⟨params.recipient, filename, attachmentContent⟩
    match transport mailOptions with
    | some message => (.error message, [mailOptions])
    | none => (.ok (), [mailOptions])

/-- Every white space character of the text is a space that stands alone: the next
character, if any, is not white space. -/
def singleSpaces : List Char → Bool
  | [] => true
  | c :: rest =>
    (if isJSWhiteSpace c then
      c == ' ' && (match rest with
        | d :: _ => !isJSWhiteSpace d
        | [] => true)
     else true) && singleSpaces rest

/-! ## Event membership (`models/event.js`) -/

/-- The ownership fields of an Event document, ids in their string form. -/
structure EventDoc where
  createdBy : Option String
  subAdmins : List String
  participants : List String
  deriving DecidableEq, Repr

/-- The helper `getId(obj)`: `null` for a falsy value, else the string form of the id. -/
def getId : Option String → Option String
  | some s => if s.data = [] then none else some s
  | none => none

/-- The method `isMainAdmin(userId)`: `creatorId && creatorId === userId.toString()`. -/
def EventDoc.isMainAdmin (e : EventDoc) (userId : String) : Bool :=
  match getId e.createdBy with
  | some creatorId => creatorId == userId
  | none => false

/-- The method `isSubAdmin(userId)`. -/
def EventDoc.isSubAdmin (e : EventDoc) (userId : String) : Bool :=
  e.subAdmins.any (fun admin => getId (some admin) == some userId)

/-- The method `isParticipant(userId)`. -/
def EventDoc.isParticipant (e : EventDoc) (userId : String) : Bool :=
  e.participants.any (fun participant => getId (some participant) == some userId)

/-- The values returned by `getUserPermission`. -/
inductive Permission where
  | mainAdmin
  | subAdmin
  | participant
  | none
  deriving DecidableEq, Repr

/-- The method `getUserPermission(userId)`. -/
def EventDoc.getUserPermission (e : EventDoc) (userId : String) : Permission :=
  if e.isMainAdmin userId then .mainAdmin
  else if e.isSubAdmin userId then .subAdmin
  else if e.isParticipant userId then .participant
  else .none

/-- The method `addSubAdmin(userId)`: the document after the call, or the message of the
error thrown, in which case the document is as before. -/
def EventDoc.addSubAdmin (e : EventDoc) (userId : String) : Except String EventDoc :=
  if e.subAdmins.length ≥ 3 then .error "Maximum 3 sub-admins allowed"
  else if e.isSubAdmin userId then .error "User is already a sub-admin"
  else if e.isMainAdmin userId then .error "Main admin cannot be added as sub-admin"
  else .ok { e with subAdmins := e.subAdmins ++ [userId] }

/-- The method `removeSubAdmin(userId)`: the first occurrence of the id is removed. -/
def EventDoc.removeSubAdmin (e : EventDoc) (userId : String) : Except String EventDoc :=
  match e.subAdmins.indexOf? userId with
  | none => .error "User is not a sub-admin"
  | some index => .ok { e with subAdmins := e.subAdmins.eraseIdx index }

/-- The method `addParticipant(userId)`. -/
def EventDoc.addParticipant (e : EventDoc) (userId : String) : Except String EventDoc :=
  if e.isParticipant userId then .error "User is already a participant"
  else .ok { e with participants := e.participants ++ [userId] }

/-- The method `removeParticipant(userId)`. -/
def EventDoc.removeParticipant (e : EventDoc) (userId : String) : Except String EventDoc :=
  match e.participants.indexOf? userId with
  | none => .error "User is not a participant"
  | some index => .ok { e with participants := e.participants.eraseIdx index }

/-- The membership step of the controller `joinEvent`: a user with any permission on the
event is turned away, any other is added as participant. -/
def EventDoc.joinEvent (e : EventDoc) (userId : String) : Except String EventDoc :=
  if e.getUserPermission userId ≠ .none then .error "You're already part of this event"
  else e.addParticipant userId

/-- A call of one of the membership operations. -/
inductive EventOp where
  | addSubAdmin (userId : String)
  | removeSubAdmin (userId : String)
  | addParticipant (userId : String)
  | removeParticipant (userId : String)
  | joinEvent (userId : String)
  deriving DecidableEq, Repr

/-- The outcome of one call. -/
def EventDoc.apply (e : EventDoc) : EventOp → Except String EventDoc
  | .addSubAdmin userId => e.addSubAdmin userId
  | .removeSubAdmin userId => e.removeSubAdmin userId
  | .addParticipant userId => e.addParticipant userId
  | .removeParticipant userId => e.removeParticipant userId
  | .joinEvent userId => e.joinEvent userId

/-- The document after a sequence of calls; a call that throws leaves the document as
it is. -/
def EventDoc.run (e : EventDoc) : List EventOp → EventDoc
  | [] => e
  | op :: ops =>
    match e.apply op with
    | .ok e1 => e1.run ops
    | .error _ => e.run ops

/-- The call is one of the four model operations. -/
def EventOp.isModelOp : EventOp → Bool
  | .joinEvent _ => false
  | _ => true

/-! ## PDF generator (`utils/pdfGenerator.js`) -/

/-- A call made on the rendering engine or on the disk by `htmlToPdf`. -/
inductive EngineCall where
  | launch
  | newPage
  | setViewport
  | setContent
  | goto
  | evaluate
  | pdf
  | writeFile (outputPath : String)
  | close
  deriving DecidableEq, Repr

/-- The outcomes of the calls that `htmlToPdf` makes: for each call the message of the
error it throws, if it throws; for `page.pdf` the buffer it returns; `writeFile` stands
for the creation of the directory and the write of the file; `fileExists` is
`fs.existsSync`. -/
structure Engine where
  launch : Option String
  newPage : Option String
  setViewport : Option String
  setContent : Option String
  goto : Option String
  evaluate : Option String
  pdf : Except String (List Nat)
  writeFile : Option String
  close : Option String
  fileExists : String → Bool

/-- An awaited call followed by the rest of the block: when the call throws, the block
ends with that error; otherwise the rest runs. The second component lists the calls
made. -/
def andThen {α : Type} (outcome : Option String) (call : EngineCall)
    (next : Except String α × List EngineCall) : Except String α × List EngineCall :=
  match outcome with
  | some message => (.error message, [call])
  | none => (next.1, call :: next.2)

/-- The message of the error thrown for an input that is neither HTML nor the path of
a file. -/
def invalidHtmlError : String :=
  "htmlContent must be valid HTML string or existing file path"

/-- The end of the `try` block of `htmlToPdf`, from the wait for the fonts on: the PDF
is produced, written to `outputPath` when one is given, and returned. -/
def renderAndSave (engine : Engine) (outputPath : Option String) :
    Except String (List Nat) × List EngineCall :=
  andThen engine.evaluate .evaluate
    (match engine.pdf with
     | .error message => (.error message, [.pdf])
     | .ok pdfBuffer =>
       if truthyString outputPath then
         match engine.writeFile with
         | some message => (.error message, [.pdf, .writeFile (outputPath.getD "")])
         | none => (.ok pdfBuffer, [.pdf, .writeFile (outputPath.getD "")])
       else (.ok pdfBuffer, [.pdf]))

/-- The `try` block of `htmlToPdf` after the launch: a page is opened and sized, the
input is loaded as HTML when its trimmed text starts with `<`, as a file when it is
the path of one, and rejected otherwise; then the PDF is rendered and saved. -/
def pdfBody (engine : Engine) (htmlContent : String) (outputPath : Option String) :
    Except String (List Nat) × List EngineCall :=
  andThen engine.newPage .newPage
    (andThen engine.setViewport .setViewport
      (if (jsTrim htmlContent.data).head? = some '<' then
        andThen engine.setContent .setContent (renderAndSave engine outputPath)
      else if engine.fileExists htmlContent then
        andThen engine.goto .goto (renderAndSave engine outputPath)
      else (.error invalidHtmlError, [])))

/-- The function `htmlToPdf(htmlContent, outputPath)`: the buffer returned or the
message of the error thrown, and the calls made, in order. The `finally` block closes
the browser when the launch has returned one; an error thrown by `close` replaces the
outcome of the `try` block. -/
def htmlToPdf (engine : Engine) (htmlContent : String) (outputPath : Option String) :
    Except String (List Nat) × List EngineCall :=
  match engine.launch with
  | some message => (.error message, [.launch])
  | none =>
    let body := pdfBody engine htmlContent outputPath
    match engine.close with
    | some message => (.error message, .launch :: body.2 ++ [.close])
    | none => (body.1, .launch :: body.2 ++ [.close])

/-- An engine all of whose calls return, on a disk without files. -/
def sampleEngine : Engine where
  launch := none
  newPage := none
  setViewport := none
  setContent := none
  goto := none
  evaluate := none
  pdf := .ok [37, 80, 68, 70]
  writeFile := none
  close := none
  fileExists := fun _ => false

/-! ## Request handlers (`controllers/certificateController.js`) -/

/-- The `data` object of the response of `verifyCertificate`, for the fields that the
documents of the embedding carry. -/
structure VerifiedData where
  certificateId : String
  participantName : String
  eventTitle : String
  eventDate : Nat
  issuedAt : Nat
  deriving DecidableEq, Repr

/-- A response: the status code (200 when the handler does not set one) and the
properties of the JSON body; a property that the body does not have is `none`. -/
structure HttpResponse where
  status : Nat
  success : Bool
  valid : Option Bool := none
  message : Option String := none
  result : Option BatchResult := none
  data : Option VerifiedData := none
  deriving DecidableEq, Repr

/-- The handler `generateBulk`, for a request body with the given `eventId`,
`forceRegenerate` and `sendEmail`: the response and the world afterwards. Every error
thrown by the service is answered with status 500. -/
def generateBulk (env : Env) (w : World) (eventId : Option String)
    (forceRegenerate sendEmail : Bool) : HttpResponse × World :=
  if truthyString eventId then
    match generateCertificatesForEvent env w (eventId.getD "")
        { sendEmail := sendEmail, savePdf := true, forceRegenerate := forceRegenerate } with
    | (.ok result, w1) =>
      ({ status := 200, success := result.success, message := result.message,
         result := some result }, w1)
    | (.error message, w1) => ({ status := 500, success := false, message := some message }, w1)
  else ({ status := 400, success := false, message := some "eventId is required" }, w)

/-- The handler `resendSingle`: the response and the world afterwards. Every error
thrown by the service is answered with status 500. -/
def resendSingle (env : Env)
    (regenerate : World → String → User → Event → List (String × String) → String →
      Except String String)
    (w : World) (eventId userId : String) : HttpResponse × World :=
  match resendSingleCertificate env regenerate w eventId userId with
  | (.ok _, w1) =>
    ({ status := 200, success := true, message := some "Resent successfully" }, w1)
  | (.error message, w1) => ({ status := 500, success := false, message := some message }, w1)

/-- The `try` block of the handler `verifyCertificate`: the response it sends, or the
message of the error thrown. `queryError` is the message of the error thrown by the
query, if it throws; a reference that does not resolve is populated with `null`, and
reading a property of it throws. -/
def verifyCertificateTry (w : World) (queryError : Option String) (certificateId : String) :
    Except String HttpResponse :=
  match queryError with
  | some message => .error message
  | none =>
    match w.certificates.find? (fun c => c.certificateId == certificateId) with
    | none =>
      .ok { status := 404, success := false, valid := some false,
            message := some "Certificate not found" }
    | some cert =>
      match findUser w.users cert.user with
      | none => .error (nullPropertyError "firstName")
      | some user =>
        match findEvent w.events cert.event with
        | none => .error (nullPropertyError "title")
        | some event =>
          .ok { status := 200, success := true, valid := some true,
                data := some
                  { certificateId := cert.certificateId,
                    participantName := String.mk ((templateString user.firstName).data ++ [' ']
                      ++ (templateString user.lastName).data),
                    eventTitle := event.title,
                    eventDate := event.eventDate,
                    issuedAt := cert.issuedAt } }

/-- The handler `verifyCertificate`: the response it sends, or the message of an error
that escapes it. The `catch` block answers every error of the `try` block with status
500. -/
def verifyCertificate (w : World) (queryError : Option String) (certificateId : String) :
    Except String HttpResponse :=
  match verifyCertificateTry w queryError certificateId with
  | .ok response => .ok response
  | .error message => .ok { status := 500, success := false, message := some message }

/-! ## Writes of the pipeline to the Certificate collection -/

/-- The identity of a record: certificate id, event and user. -/
def Certificate.ident (c : Certificate) : String × String × String :=
  (c.certificateId, c.event, c.user)

/-- The pair `(event, user)` of a record. -/
def Certificate.key (c : Certificate) : String × String := (c.event, c.user)

/-- The two status fields agree on a delivered certificate: `deliveryStatus = sent`
implies `status = sent`. -/
def Certificate.consistent (c : Certificate) : Prop :=
  c.deliveryStatus = .sent → c.status = .sent

/-- The collection on the right results from the one on the left by writes of the
following two kinds, in any number: a record is replaced, at its position, by one of
the same identity; or a record is added at the end for a pair that `findOne` does not
find. Every record written is consistent. -/
inductive PipelineWrites : List Certificate → List Certificate → Prop where
  | same (cs : List Certificate) : PipelineWrites cs cs
  | update (cs : List Certificate) (i : Nat) (c d : Certificate) :
      cs.get? i = some c → d.ident = c.ident → d.consistent → PipelineWrites cs (cs.set i d)
  | create (cs : List Certificate) (d : Certificate) :
      findCertificate cs d.event d.user = none → d.consistent → PipelineWrites cs (cs ++ [d])
  | seq (cs1 cs2 cs3 : List Certificate) :
      PipelineWrites cs1 cs2 → PipelineWrites cs2 cs3 → PipelineWrites cs1 cs3

/-- A call of one of the three functions of the service that write certificates. -/
inductive PipelineOp where
  | generate (eventId : String) (opts : Options)
  | resendSingle (eventId userId : String)
  | resendFailed (eventId : String)
  deriving DecidableEq, Repr

/-- The world after one call, whether it returns or throws. -/
def World.applyOp (env : Env)
    (regenerate : World → String → User → Event → List (String × String) → String →
      Except String String)
    (w : World) : PipelineOp → World
  | .generate eventId opts => (generateCertificatesForEvent env w eventId opts).2
  | .resendSingle eventId userId => (resendSingleCertificate env regenerate w eventId userId).2
  | .resendFailed eventId => (resendFailedCertificates env w eventId).2

/-- The world after a sequence of calls. -/
def World.runOps (env : Env)
    (regenerate : World → String → User → Event → List (String × String) → String →
      Except String String)
    (w : World) (ops : List PipelineOp) : World :=
  ops.foldl (World.applyOp env regenerate) w


/-! ## Properties of the placeholder renderer -/

/-- The placeholder that the specification writes is the text that the regular
expression of the loop body matches for a plain key. -/
theorem placeholder_eq (key : List Char) : placeholder key = placeholderToken key := rfl

theorem dollarSafe_tail (c : Char) (rest : List Char) (h : dollarSafe (c :: rest) = true) :
    dollarSafe rest = true := by
  cases rest with
  | nil => rfl
  | cons d rest =>
    simp only [dollarSafe, Bool.and_eq_true] at h
    exact h.2

/-- A replacement text without expandable sequence is inserted as it stands. -/
theorem getSubstitutionGo_dollarSafe (matched before after repl : List Char)
    (h : dollarSafe repl = true) :
    getSubstitutionGo matched before after false repl = repl ∧
      (dollarSafe ('$' :: repl) = true →
        getSubstitutionGo matched before after true repl = '$' :: repl) := by
  induction repl with
  | nil => exact ⟨rfl, fun _ => rfl⟩
  | cons c rest ih =>
    obtain ⟨ih1, ih2⟩ := ih (dollarSafe_tail c rest h)
    constructor
    · by_cases hc : c = '$'
      · subst hc
        simp only [getSubstitutionGo, if_true]
        rw [ih2 h]
      · simp only [getSubstitutionGo, hc, if_false]
        rw [ih1]
    · intro h2
      simp only [dollarSafe, Bool.and_eq_true, Bool.not_eq_true', Bool.and_eq_false_imp,
        Bool.or_eq_false_iff, beq_eq_false_iff_ne, ne_eq, beq_self_eq_true,
        true_implies] at h2
      obtain ⟨⟨⟨⟨h3, h4⟩, h5⟩, h6⟩, _⟩ := h2
      simp only [getSubstitutionGo, h3, h4, h5, h6, if_false]
      rw [ih1]

theorem getSubstitution_dollarSafe (matched before after repl : List Char)
    (h : dollarSafe repl = true) : getSubstitution matched before after repl = repl :=
  (getSubstitutionGo_dollarSafe matched before after repl h).1

theorem replaceLiteralGo_succ (pat repl : List Char) (n : Nat) (before : List Char)
    (c : Char) (rest : List Char) :
    replaceLiteralGo pat repl (n + 1) before (c :: rest)
      = replaceLiteralGo pat repl n (before ++ [c]) rest := rfl

theorem replaceLiteralGo_miss (pat repl before : List Char) (c : Char) (rest : List Char)
    (h : pat.isPrefixOf (c :: rest) = false) :
    replaceLiteralGo pat repl 0 before (c :: rest)
      = c :: replaceLiteralGo pat repl 0 (before ++ [c]) rest := by
  simp [replaceLiteralGo, h]

theorem replaceLiteralGo_hit (pat repl before : List Char) (c : Char) (rest : List Char)
    (h : pat.isPrefixOf (c :: rest) = true) :
    replaceLiteralGo pat repl 0 before (c :: rest)
      = getSubstitution pat before ((c :: rest).drop pat.length) repl
        ++ replaceLiteralGo pat repl (pat.length - 1) (before ++ [c]) rest := by
  simp [replaceLiteralGo, h]

theorem replaceLiteralGo_skip (pat repl : List Char) (xs ys before : List Char) :
    replaceLiteralGo pat repl xs.length before (xs ++ ys)
      = replaceLiteralGo pat repl 0 (before ++ xs) ys := by
  induction xs generalizing before with
  | nil => cases ys <;> simp [replaceLiteralGo]
  | cons x xs ih =>
    rw [List.length_cons, List.cons_append, replaceLiteralGo_succ, ih]
    simp

theorem placeholderToken_isPrefixOf_cons (key : List Char) (c : Char) (rest : List Char)
    (hc : c ≠ '{') : (placeholderToken key).isPrefixOf (c :: rest) = false := by
  have hc2 : ¬ ('{' = c) := fun h => hc h.symm
  simp [placeholderToken, List.isPrefixOf, hc2]

theorem replaceLiteralGo_noOpen (key repl s tail before : List Char)
    (hs : ∀ c ∈ s, c ≠ '{') :
    replaceLiteralGo (placeholderToken key) repl 0 before (s ++ tail)
      = s ++ replaceLiteralGo (placeholderToken key) repl 0 (before ++ s) tail := by
  induction s generalizing before with
  | nil => simp
  | cons c s ih =>
    have hc : c ≠ '{' := hs c (List.mem_cons_self _ _)
    have hrest : ∀ d ∈ s, d ≠ '{' := fun d hd => hs d (List.mem_cons_of_mem _ hd)
    rw [List.cons_append, replaceLiteralGo_miss _ _ _ _ _
      (placeholderToken_isPrefixOf_cons key c _ hc), ih _ hrest]
    simp

theorem plainText_tail (c : Char) (rest : List Char) (h : plainText (c :: rest) = true) :
    plainText rest = true := by
  cases rest with
  | nil => rfl
  | cons d rest =>
    simp only [plainText, Bool.and_eq_true] at h
    exact h.2

theorem plainText_open (rest : List Char) (h : plainText ('{' :: rest) = true) :
    ∃ d tail, rest = d :: tail ∧ d ≠ '{' := by
  cases rest with
  | nil => simp [plainText] at h
  | cons d tail =>
    refine ⟨d, tail, rfl, ?_⟩
    intro hd
    subst hd
    simp [plainText] at h

/-- No placeholder token starts inside a text that opens no placeholder. -/
theorem placeholderToken_isPrefixOf_plainText (key : List Char) (c : Char)
    (s tail : List Char) (h : plainText (c :: s) = true) :
    (placeholderToken key).isPrefixOf (c :: (s ++ tail)) = false := by
  by_cases hc : c = '{'
  · subst hc
    obtain ⟨d, s2, rfl, hd⟩ := plainText_open s h
    have hd2 : ¬ ('{' = d) := fun e => hd e.symm
    simp [placeholderToken, List.isPrefixOf, hd2]
  · exact placeholderToken_isPrefixOf_cons key c _ hc

/-- The scan passes over a text that opens no placeholder. -/
theorem replaceLiteralGo_plainText (key repl s tail before : List Char)
    (hs : plainText s = true) :
    replaceLiteralGo (placeholderToken key) repl 0 before (s ++ tail)
      = s ++ replaceLiteralGo (placeholderToken key) repl 0 (before ++ s) tail := by
  induction s generalizing before with
  | nil => simp
  | cons c s ih =>
    rw [List.cons_append, replaceLiteralGo_miss _ _ _ _ _
      (placeholderToken_isPrefixOf_plainText key c s tail hs), ih _ (plainText_tail c s hs)]
    simp

theorem prefix_closer_eq (k k2 x y : List Char)
    (hk : ∀ c ∈ k, c ≠ '}') (hk2 : ∀ c ∈ k2, c ≠ '}')
    (h : (k ++ '}' :: x) <+: (k2 ++ '}' :: y)) : k = k2 := by
  induction k generalizing k2 with
  | nil =>
    cases k2 with
    | nil => rfl
    | cons d k2 =>
      have hd : d ≠ '}' := hk2 d (List.mem_cons_self _ _)
      simp only [List.nil_append, List.cons_append] at h
      rw [List.cons_prefix_cons] at h
      exact absurd h.1.symm hd
  | cons c k ih =>
    have hc : c ≠ '}' := hk c (List.mem_cons_self _ _)
    cases k2 with
    | nil =>
      simp only [List.nil_append, List.cons_append] at h
      rw [List.cons_prefix_cons] at h
      exact absurd h.1 hc
    | cons d k2 =>
      simp only [List.cons_append] at h
      rw [List.cons_prefix_cons] at h
      rw [h.1, ih k2 (fun e he => hk e (List.mem_cons_of_mem _ he))
        (fun e he => hk2 e (List.mem_cons_of_mem _ he)) h.2]

theorem placeholderToken_length (key : List Char) :
    (placeholderToken key).length = key.length + 4 := by
  simp [placeholderToken]

theorem placeholderToken_not_prefix (key key2 tail : List Char)
    (hk : ∀ c ∈ key, c ≠ '}') (hk2 : ∀ c ∈ key2, c ≠ '}') (hne : key2 ≠ key) :
    (placeholderToken key).isPrefixOf (placeholderToken key2 ++ tail) = false := by
  rcases h : (placeholderToken key).isPrefixOf (placeholderToken key2 ++ tail) with _ | _
  · rfl
  · exfalso
    rw [List.isPrefixOf_iff_prefix] at h
    simp only [placeholderToken, List.cons_append, List.append_assoc] at h
    rw [List.cons_prefix_cons, List.cons_prefix_cons] at h
    exact hne (prefix_closer_eq key key2 _ _ hk hk2 h.2.2).symm

theorem placeholderToken_isPrefixOf_self (key tail : List Char) :
    (placeholderToken key).isPrefixOf (placeholderToken key ++ tail) = true := by
  rw [List.isPrefixOf_iff_prefix]
  exact List.prefix_append _ _

/-- Scanning over a placeholder of another key leaves it in place. -/
theorem replaceLiteralGo_otherHole (key repl key2 tail before : List Char)
    (hk : ∀ c ∈ key, c ≠ '}') (hk2 : ∀ c ∈ key2, notBrace c = true)
    (hne2 : key2 ≠ []) (hne : key2 ≠ key) :
    replaceLiteralGo (placeholderToken key) repl 0 before (placeholderToken key2 ++ tail)
      = placeholderToken key2
        ++ replaceLiteralGo (placeholderToken key) repl 0
            (before ++ placeholderToken key2) tail := by
  have hk2c : ∀ c ∈ key2, c ≠ '}' := fun c hc => by
    have := hk2 c hc
    simp [notBrace] at this
    exact this.2
  have hk2o : ∀ c ∈ key2, c ≠ '{' := fun c hc => by
    have := hk2 c hc
    simp [notBrace] at this
    exact this.1
  have h0 := placeholderToken_not_prefix key key2 tail hk hk2c hne
  obtain ⟨d, rest2, rfl⟩ := List.exists_cons_of_ne_nil hne2
  have hd : d ≠ '{' := hk2o d (List.mem_cons_self _ _)
  have hd2 : ¬ ('{' = d) := fun h => hd h.symm
  have htxt : ∀ c ∈ (d :: rest2) ++ ['}', '}'], c ≠ '{' := by
    intro c hc
    rcases List.mem_append.mp hc with h | h
    · exact hk2o c h
    · simp at h
      subst h
      decide
  have h1 : (placeholderToken key).isPrefixOf
      ('{' :: ((d :: rest2) ++ ['}', '}'] ++ tail)) = false := by
    simp [placeholderToken, List.isPrefixOf, hd2]
  have e : placeholderToken (d :: rest2) ++ tail
      = '{' :: '{' :: ((d :: rest2) ++ ['}', '}'] ++ tail) := by
    simp [placeholderToken]
  rw [e] at h0 ⊢
  rw [replaceLiteralGo_miss _ _ _ _ _ h0, replaceLiteralGo_miss _ _ _ _ _ h1,
    replaceLiteralGo_noOpen key repl _ tail _ htxt]
  simp [placeholderToken]

/-- Scanning over a placeholder of the key replaces it by the expansion. -/
theorem replaceLiteralGo_sameHole (key repl tail before : List Char) :
    replaceLiteralGo (placeholderToken key) repl 0 before (placeholderToken key ++ tail)
      = getSubstitution (placeholderToken key) before tail repl
        ++ replaceLiteralGo (placeholderToken key) repl 0
            (before ++ placeholderToken key) tail := by
  have h0 := placeholderToken_isPrefixOf_self key tail
  have e : placeholderToken key ++ tail = '{' :: ('{' :: (key ++ ['}', '}']) ++ tail) := by
    simp [placeholderToken]
  have hl : (placeholderToken key).length - 1 = ('{' :: (key ++ ['}', '}'])).length := by
    simp [placeholderToken]
  have hd : List.drop (placeholderToken key).length ('{' :: ('{' :: (key ++ ['}', '}']) ++ tail))
      = tail := by
    rw [← e]
    exact List.drop_left _ _
  rw [e] at h0 ⊢
  rw [replaceLiteralGo_hit _ _ _ _ _ h0, hl, replaceLiteralGo_skip, hd]
  simp [placeholderToken]

theorem notBrace_open {c : Char} (h : notBrace c = true) : c ≠ '{' := by
  simp [notBrace] at h
  exact h.1

theorem notBrace_close {c : Char} (h : notBrace c = true) : c ≠ '}' := by
  simp [notBrace] at h
  exact h.2

theorem Seg.subst_wellFormed (key repl : List Char) (seg : Seg)
    (hrepl : plainText repl = true) (h : seg.wellFormed = true) :
    (seg.subst key repl).wellFormed = true := by
  cases seg with
  | text s => exact h
  | hole key2 =>
    by_cases hk : key2 = key
    · simp only [Seg.subst, hk, if_true, Seg.wellFormed]
      exact hrepl
    · simp only [Seg.subst, hk, if_false]
      exact h

/-- One global replace over a well-formed template acts piece by piece. -/
theorem replaceLiteralGo_segs (key repl : List Char) (segs : List Seg) (before : List Char)
    (hk : ∀ c ∈ key, c ≠ '}') (hrepl : dollarSafe repl = true)
    (hsegs : ∀ seg ∈ segs, seg.wellFormed = true) :
    replaceLiteralGo (placeholderToken key) repl 0 before (renderSegs segs)
      = renderSegs (segs.map (Seg.subst key repl)) := by
  induction segs generalizing before with
  | nil => rfl
  | cons seg segs ih =>
    have hseg : seg.wellFormed = true := hsegs seg (List.mem_cons_self _ _)
    have hrest : ∀ s ∈ segs, s.wellFormed = true :=
      fun s hs => hsegs s (List.mem_cons_of_mem _ hs)
    cases seg with
    | text s =>
      simp only [renderSegs, Seg.render, List.map_cons, Seg.subst, placeholder_eq]
      rw [replaceLiteralGo_plainText key repl s _ before hseg, ih _ hrest]
    | hole key2 =>
      simp only [Seg.wellFormed, Bool.and_eq_true, List.all_eq_true, bne_iff_ne] at hseg
      by_cases hkk : key2 = key
      · subst hkk
        simp only [renderSegs, Seg.render, List.map_cons, Seg.subst, if_true, placeholder_eq]
        rw [replaceLiteralGo_sameHole, ih _ hrest]
        rw [getSubstitution_dollarSafe _ _ _ repl hrepl]
      · simp only [renderSegs, Seg.render, List.map_cons, Seg.subst, hkk, if_false, placeholder_eq]
        rw [replaceLiteralGo_otherHole key repl key2 _ before hk hseg.2 hseg.1 hkk,
          ih _ hrest]

/-! ### The final pass -/

theorem stripTokensGo_drop (n : Nat) (xs : List Char) :
    stripTokensGo n xs = stripTokensGo 0 (xs.drop n) := by
  induction n generalizing xs with
  | zero => simp
  | succ n ih =>
    cases xs with
    | nil => simp [stripTokensGo]
    | cons x xs => simp only [stripTokensGo, List.drop_succ_cons]; exact ih xs

theorem stripTokens_nil : stripTokens [] = [] := rfl

theorem stripTokens_miss (c : Char) (rest : List Char) (h : tokenLen (c :: rest) = none) :
    stripTokens (c :: rest) = c :: stripTokens rest := by
  simp [stripTokens, stripTokensGo, h]

theorem stripTokens_hit (s : List Char) (n : Nat) (h : tokenLen s = some n) :
    stripTokens s = stripTokens (s.drop n) := by
  cases s with
  | nil => simp [tokenLen] at h
  | cons c rest =>
    simp only [stripTokens, stripTokensGo, h]
    rw [stripTokensGo_drop]
    cases n with
    | zero =>
      exfalso
      match rest, h with
      | b :: c2 :: r, h =>
        simp only [tokenLen] at h
        split at h
        · simp at h
        · simp at h
    | succ m => simp

theorem tokenLen_some_iff (s : List Char) (n : Nat) :
    tokenLen s = some n ↔
      ∃ c rest m, s = '{' :: '{' :: c :: rest ∧ c ≠ '}' ∧ closeLen rest = some m ∧ n = m + 3 := by
  constructor
  · intro h
    match s, h with
    | a :: b :: c :: rest, h =>
      simp only [tokenLen] at h
      split at h
      · rename_i hc
        obtain ⟨rfl, rfl, hc3⟩ := hc
        rcases hcl : closeLen rest with _ | m
        · simp [hcl] at h
        · simp [hcl] at h
          exact ⟨c, rest, m, rfl, hc3, hcl, h.symm⟩
      · simp at h
  · rintro ⟨c, rest, m, rfl, hc, hcl, rfl⟩
    simp [tokenLen, hc, hcl]

theorem tokenLen_cons_ne (c : Char) (rest : List Char) (hc : c ≠ '{') :
    tokenLen (c :: rest) = none := by
  rcases h : tokenLen (c :: rest) with _ | n
  · rfl
  · obtain ⟨c2, r, m, e, _⟩ := (tokenLen_some_iff _ _).mp h
    simp at e
    exact absurd e.1 hc

theorem tokenLen_plainText (c : Char) (s tail : List Char)
    (h : plainText (c :: s) = true) : tokenLen (c :: (s ++ tail)) = none := by
  rcases htl : tokenLen (c :: (s ++ tail)) with _ | n
  · rfl
  · exfalso
    obtain ⟨c2, r, m, e, _⟩ := (tokenLen_some_iff _ _).mp htl
    rw [List.cons.injEq] at e
    obtain ⟨rfl, e2⟩ := e
    obtain ⟨d, s2, rfl, hd⟩ := plainText_open s h
    rw [List.cons_append, List.cons.injEq] at e2
    exact hd e2.1

/-- The final pass keeps a text that opens no placeholder. -/
theorem stripTokens_plainText (s tail : List Char) (hs : plainText s = true) :
    stripTokens (s ++ tail) = s ++ stripTokens tail := by
  induction s with
  | nil => rfl
  | cons c s ih =>
    rw [List.cons_append, stripTokens_miss _ _ (tokenLen_plainText c s tail hs),
      ih (plainText_tail c s hs)]
    rfl

theorem closeLen_run (run tail : List Char) (h : ∀ c ∈ run, c ≠ '}') :
    closeLen (run ++ '}' :: '}' :: tail) = some (run.length + 2) := by
  induction run with
  | nil => simp [closeLen]
  | cons c run ih =>
    have hc : c ≠ '}' := h c (List.mem_cons_self _ _)
    simp [closeLen, hc, ih (fun d hd => h d (List.mem_cons_of_mem _ hd))]

theorem tokenLen_placeholderToken (key tail : List Char) (hne : key ≠ [])
    (hk : ∀ c ∈ key, c ≠ '}') :
    tokenLen (placeholderToken key ++ tail) = some (placeholderToken key).length := by
  obtain ⟨d, rest, rfl⟩ := List.exists_cons_of_ne_nil hne
  have hd : d ≠ '}' := hk d (List.mem_cons_self _ _)
  rw [tokenLen_some_iff]
  refine ⟨d, rest ++ '}' :: '}' :: tail, rest.length + 2, ?_, hd,
    closeLen_run rest tail (fun c hc => hk c (List.mem_cons_of_mem _ hc)), ?_⟩
  · simp [placeholderToken]
  · simp [placeholderToken]

theorem stripTokens_hole (key tail : List Char) (hne : key ≠ [])
    (hk : ∀ c ∈ key, c ≠ '}') :
    stripTokens (placeholderToken key ++ tail) = stripTokens tail := by
  rw [stripTokens_hit _ _ (tokenLen_placeholderToken key tail hne hk), List.drop_left]

/-- The final pass over a well-formed template keeps the text and drops every
placeholder. -/
theorem stripTokens_segs (segs : List Seg) (hsegs : ∀ seg ∈ segs, seg.wellFormed = true) :
    stripTokens (renderSegs segs) = instantiateSegs [] segs := by
  induction segs with
  | nil => rfl
  | cons seg segs ih =>
    have hseg : seg.wellFormed = true := hsegs seg (List.mem_cons_self _ _)
    have hrest : ∀ s ∈ segs, s.wellFormed = true :=
      fun s hs => hsegs s (List.mem_cons_of_mem _ hs)
    cases seg with
    | text s =>
      simp only [renderSegs, Seg.render, instantiateSegs, Seg.instantiate, placeholder_eq]
      rw [stripTokens_plainText s _ hseg, ih hrest]
    | hole key =>
      simp only [Seg.wellFormed, Bool.and_eq_true, List.all_eq_true, bne_iff_ne] at hseg
      simp only [renderSegs, Seg.render, instantiateSegs, Seg.instantiate, lookupEntry,
        List.nil_append, placeholder_eq]
      rw [stripTokens_hole key _ hseg.1 (fun c hc => notBrace_close (hseg.2 c hc)), ih hrest]

theorem plainKey_close (key : List Char) (h : plainKey key = true) : ∀ c ∈ key, c ≠ '}' := by
  intro c hc hcc
  subst hcc
  have := List.all_eq_true.mp h _ hc
  revert this
  decide

/-- The text that the code hands to `replace` is the string form that the specification
asks for. -/
theorem replacementText_eq_stringForm (v : JSValue) : replacementText v = stringForm v := by
  cases v <;> rfl

theorem Seg.instantiate_subst (key : String) (value : JSValue)
    (entries : List (String × JSValue)) (seg : Seg) :
    (seg.subst key.data (replacementText value)).instantiate entries
      = seg.instantiate ((key, value) :: entries) := by
  cases seg with
  | text s => rfl
  | hole key2 =>
    by_cases hk : key2 = key.data
    · subst hk
      simp [Seg.subst, Seg.instantiate, lookupEntry, replacementText_eq_stringForm]
    · have hk2 : ¬ key.data = key2 := fun h => hk h.symm
      simp [Seg.subst, Seg.instantiate, lookupEntry, hk, hk2]

theorem instantiateSegs_subst (key : String) (value : JSValue)
    (entries : List (String × JSValue)) (segs : List Seg) :
    instantiateSegs entries (segs.map (Seg.subst key.data (replacementText value)))
      = instantiateSegs ((key, value) :: entries) segs := by
  induction segs with
  | nil => rfl
  | cons seg segs ih =>
    simp only [List.map_cons, instantiateSegs, ih, Seg.instantiate_subst]

/-- With plain keys the loop does not call the regular-expression engine: its result is
the chain of the literal replaces. -/
theorem substituteEntries_plain
    (regexReplace : List Char → List Char → List Char → Except String (List Char))
    (s : List Char) (data : List (String × JSValue))
    (hkeys : ∀ e ∈ data, plainKey e.1.data = true) :
    substituteEntries regexReplace s data
      = .ok (data.foldl (fun r e =>
          replaceLiteral (placeholderToken e.1.data) (replacementText e.2) r) s) := by
  induction data generalizing s with
  | nil => rfl
  | cons e entries ih =>
    obtain ⟨key, value⟩ := e
    have hkey : plainKey key.data = true := hkeys (key, value) (List.mem_cons_self _ _)
    simp only [substituteEntries, hkey, if_true, List.foldl_cons]
    exact ih _ (fun e he => hkeys e (List.mem_cons_of_mem _ he))

/-- The loop and the final pass over a well-formed template, for plain keys and values
that are inserted as they stand and open no placeholder, give the instantiated
template. -/
theorem substituteEntries_segs
    (regexReplace : List Char → List Char → List Char → Except String (List Char))
    (data : List (String × JSValue)) (segs : List Seg)
    (hsegs : ∀ seg ∈ segs, seg.wellFormed = true)
    (hkeys : ∀ e ∈ data, plainKey e.1.data = true)
    (hvals : ∀ e ∈ data, dollarSafe (stringForm e.2) = true)
    (hplain : ∀ e ∈ data, plainText (stringForm e.2) = true) :
    ∃ r, substituteEntries regexReplace (renderSegs segs) data = .ok r ∧
      stripTokens r = instantiateSegs data segs := by
  induction data generalizing segs with
  | nil => exact ⟨_, rfl, stripTokens_segs segs hsegs⟩
  | cons e entries ih =>
    obtain ⟨key, value⟩ := e
    have hkey : plainKey key.data = true := hkeys (key, value) (List.mem_cons_self _ _)
    have hval : dollarSafe (replacementText value) = true := by
      rw [replacementText_eq_stringForm]
      exact hvals (key, value) (List.mem_cons_self _ _)
    have hpl : plainText (replacementText value) = true := by
      rw [replacementText_eq_stringForm]
      exact hplain (key, value) (List.mem_cons_self _ _)
    simp only [substituteEntries, hkey, if_true, replaceLiteral]
    rw [replaceLiteralGo_segs key.data (replacementText value) segs []
      (plainKey_close _ hkey) hval hsegs]
    obtain ⟨r, hr, hstrip⟩ := ih (segs.map (Seg.subst key.data (replacementText value)))
      (fun seg hseg => by
        obtain ⟨s0, hs0, rfl⟩ := List.mem_map.mp hseg
        exact Seg.subst_wellFormed _ _ _ hpl (hsegs s0 hs0))
      (fun e he => hkeys e (List.mem_cons_of_mem _ he))
      (fun e he => hvals e (List.mem_cons_of_mem _ he))
      (fun e he => hplain e (List.mem_cons_of_mem _ he))
    exact ⟨r, hr, by rw [hstrip, instantiateSegs_subst]⟩

/-! ### Every occurrence is replaced -/

theorem joinPieces_cons_cons (sep a b : List Char) (rest : List (List Char)) :
    joinPieces sep (a :: b :: rest) = a ++ sep ++ joinPieces sep (b :: rest) := rfl

theorem joinPieces_push (sep : List Char) (c : Char) (a : List Char)
    (rest : List (List Char)) :
    joinPieces sep ((c :: a) :: rest) = c :: joinPieces sep (a :: rest) := by
  cases rest with
  | nil => rfl
  | cons b rest => simp [joinPieces]

theorem joinPieces_starts (sep a : List Char) (rest : List (List Char)) :
    a <+: joinPieces sep (a :: rest) := by
  cases rest with
  | nil => exact List.prefix_refl a
  | cons b rest =>
    rw [joinPieces_cons_cons, List.append_assoc]
    exact List.prefix_append _ _

/-- One global replace of a placeholder token by a text that is inserted as it stands
replaces every occurrence of the token and changes nothing else: the subject is cut at
the occurrences into pieces without the token, and the result is the same pieces with
the text between them. -/
theorem replaceLiteralGo_pieces (key repl : List Char) (hrepl : dollarSafe repl = true)
    (n : Nat) :
    ∀ subject before : List Char, subject.length ≤ n →
      ∃ a pieces, subject = joinPieces (placeholderToken key) (a :: pieces) ∧
        (∀ p ∈ a :: pieces, ¬ placeholderToken key <:+: p) ∧
        replaceLiteralGo (placeholderToken key) repl 0 before subject
          = joinPieces repl (a :: pieces) := by
  induction n with
  | zero =>
    intro subject before hlen
    have hnil : subject = [] := List.length_eq_zero.mp (Nat.le_zero.mp hlen)
    subst hnil
    refine ⟨[], [], rfl, ?_, rfl⟩
    intro p hp
    rw [List.mem_singleton] at hp
    subst hp
    intro h
    have := List.eq_nil_of_infix_nil h
    simp [placeholderToken] at this
  | succ n ih =>
    intro subject before hlen
    cases subject with
    | nil =>
      refine ⟨[], [], rfl, ?_, rfl⟩
      intro p hp
      rw [List.mem_singleton] at hp
      subst hp
      intro h
      have := List.eq_nil_of_infix_nil h
      simp [placeholderToken] at this
    | cons c rest =>
      rcases hpre : (placeholderToken key).isPrefixOf (c :: rest) with _ | _
      · obtain ⟨a, pieces, hsub, hfree, hres⟩ := ih rest (before ++ [c])
          (by simpa using hlen)
        refine ⟨c :: a, pieces, ?_, ?_, ?_⟩
        · rw [joinPieces_push, ← hsub]
        · intro p hp
          rcases List.mem_cons.mp hp with h | h
          · subst h
            intro hin
            rcases List.infix_cons_iff.mp hin with h1 | h1
            · have h2 : placeholderToken key <+: c :: rest := by
                refine h1.trans ?_
                rw [hsub]
                exact (List.prefix_cons_inj c).mpr (joinPieces_starts _ a pieces)
              rw [← List.isPrefixOf_iff_prefix] at h2
              rw [h2] at hpre
              cases hpre
            · exact hfree a (List.mem_cons_self _ _) h1
          · exact hfree p (List.mem_cons_of_mem _ h)
        · rw [replaceLiteralGo_miss _ _ _ _ _ hpre, hres, joinPieces_push]
      · have hp2 := List.isPrefixOf_iff_prefix.mp hpre
        obtain ⟨tail, htail⟩ := hp2
        have hlt : tail.length ≤ n := by
          have := congrArg List.length htail
          simp only [List.length_append, placeholderToken_length, List.length_cons] at this
          simp only [List.length_cons] at hlen
          omega
        obtain ⟨a, pieces, hsub, hfree, hres⟩ := ih tail (before ++ placeholderToken key) hlt
        refine ⟨[], a :: pieces, ?_, ?_, ?_⟩
        · rw [joinPieces_cons_cons, ← hsub, ← htail]
          rfl
        · intro p hp
          rcases List.mem_cons.mp hp with h | h
          · subst h
            intro hin
            have := List.eq_nil_of_infix_nil hin
            simp [placeholderToken] at this
          · exact hfree p h
        · rw [← htail, replaceLiteralGo_sameHole, getSubstitution_dollarSafe _ _ _ repl hrepl,
            hres, joinPieces_cons_cons]
          rfl

/-- One pass of the loop, for a plain key and a value that is inserted as it stands,
does what the specification asks. -/
theorem replaceLiteral_replacedAll (key repl subject : List Char)
    (hrepl : dollarSafe repl = true) :
    ReplacedAll (placeholderToken key) repl subject
      (replaceLiteral (placeholderToken key) repl subject) := by
  obtain ⟨a, pieces, hsub, hfree, hres⟩ :=
    replaceLiteralGo_pieces key repl hrepl subject.length subject [] (Nat.le_refl _)
  exact ⟨a :: pieces, hsub, hfree, hres⟩

/-- The loop, for plain keys and values that are inserted as they stand, does what the
specification asks: entry by entry, every occurrence of the placeholder is replaced by
the string form of the value. -/
theorem substituteEntries_substituted
    (regexReplace : List Char → List Char → List Char → Except String (List Char))
    (s : List Char) (data : List (String × JSValue))
    (hkeys : ∀ e ∈ data, plainKey e.1.data = true)
    (hvals : ∀ e ∈ data, dollarSafe (stringForm e.2) = true) :
    ∃ r, substituteEntries regexReplace s data = .ok r ∧ Substituted s data r := by
  induction data generalizing s with
  | nil => exact ⟨s, rfl, rfl⟩
  | cons e entries ih =>
    obtain ⟨key, value⟩ := e
    have hkey : plainKey key.data = true := hkeys (key, value) (List.mem_cons_self _ _)
    have hval : dollarSafe (stringForm value) = true :=
      hvals (key, value) (List.mem_cons_self _ _)
    obtain ⟨r, hr, hsub⟩ := ih
      (replaceLiteral (placeholderToken key.data) (replacementText value) s)
      (fun e he => hkeys e (List.mem_cons_of_mem _ he))
      (fun e he => hvals e (List.mem_cons_of_mem _ he))
    refine ⟨r, ?_, _, ?_, hsub⟩
    · simp only [substituteEntries, hkey, if_true]
      exact hr
    · rw [replacementText_eq_stringForm, placeholder_eq]
      exact replaceLiteral_replacedAll key.data (stringForm value) s hval

/-! ### The text that the specification asks for is determined -/

theorem plainKey_open (key : List Char) (h : plainKey key = true) : ∀ c ∈ key, c ≠ '{' := by
  intro c hc hcc
  subst hcc
  have := List.all_eq_true.mp h _ hc
  revert this
  decide

theorem prefix_of_noOpen (u : List Char) (hu : ∀ c ∈ u, c ≠ '{') (b x r : List Char)
    (h : u ++ r = b ++ '{' :: x) : u <+: b := by
  induction u generalizing b with
  | nil => exact List.nil_prefix
  | cons c u ih =>
    cases b with
    | nil =>
      simp only [List.cons_append, List.nil_append, List.cons.injEq] at h
      exact absurd h.1 (hu c (List.mem_cons_self _ _))
    | cons d b =>
      simp only [List.cons_append, List.cons.injEq] at h
      rw [h.1]
      exact (List.prefix_cons_inj d).mpr
        (ih (fun e he => hu e (List.mem_cons_of_mem _ he)) b h.2)

/-- A placeholder token of a plain key does not overlap with itself: where the token
stands at the head of a text and also after a stretch without the token, the stretch is
empty. -/
theorem placeholderToken_head (key : List Char) (hkey : plainKey key = true)
    (b r r2 : List Char) (hb : ¬ placeholderToken key <:+: b)
    (h : placeholderToken key ++ r = b ++ placeholderToken key ++ r2) : b = [] := by
  have hu : ∀ c ∈ key ++ ['}', '}'], c ≠ '{' := by
    intro c hc
    rcases List.mem_append.mp hc with h1 | h1
    · exact plainKey_open key hkey c h1
    · simp at h1
      subst h1
      decide
  cases b with
  | nil => rfl
  | cons c b =>
    exfalso
    simp only [placeholderToken, List.cons_append, List.append_assoc, List.cons.injEq] at h
    obtain ⟨hc, h⟩ := h
    cases b with
    | nil =>
      simp only [List.nil_append, List.cons.injEq, true_and] at h
      cases key with
      | nil =>
        simp only [List.nil_append, List.cons.injEq] at h
        exact absurd h.1 (by decide)
      | cons k key =>
        simp only [List.cons_append, List.cons.injEq] at h
        exact hu k (by simp) h.1
    | cons d b =>
      simp only [List.cons_append, List.cons.injEq] at h
      obtain ⟨hd, h⟩ := h
      have hpre : key ++ ['}', '}'] <+: b :=
        prefix_of_noOpen (key ++ ['}', '}']) hu b _ r (by simpa using h)
      obtain ⟨t, ht⟩ := hpre
      apply hb
      refine ⟨[], t, ?_⟩
      rw [← hc, ← hd, ← ht]
      simp [placeholderToken]


theorem infix_of_cons {c : Char} {p s : List Char} (h : p <:+: s) : p <:+: c :: s :=
  h.trans (List.suffix_cons c s).isInfix

/-- Two ways of cutting a text at a placeholder token of a plain key, each after a
stretch without the token, cut it at the same place. -/
theorem placeholderToken_split (key : List Char) (hkey : plainKey key = true)
    (a b r r2 : List Char) (ha : ¬ placeholderToken key <:+: a)
    (hb : ¬ placeholderToken key <:+: b)
    (h : a ++ placeholderToken key ++ r = b ++ placeholderToken key ++ r2) :
    a = b ∧ r = r2 := by
  induction a generalizing b with
  | nil =>
    have hbn := placeholderToken_head key hkey b r r2 hb (by simpa using h)
    subst hbn
    exact ⟨rfl, by simpa using h⟩
  | cons c a ih =>
    cases b with
    | nil =>
      have han := placeholderToken_head key hkey (c :: a) r2 r ha (by simpa using h.symm)
      cases han
    | cons d b =>
      simp only [List.cons_append, List.cons.injEq] at h
      obtain ⟨hcd, h⟩ := h
      obtain ⟨hab, hr⟩ := ih b (fun hin => ha (infix_of_cons hin))
        (fun hin => hb (infix_of_cons hin)) (by simpa using h)
      exact ⟨by rw [hcd, hab], hr⟩

theorem placeholderToken_infix_join (key a b : List Char) (rest : List (List Char)) :
    placeholderToken key <:+: joinPieces (placeholderToken key) (a :: b :: rest) :=
  ⟨a, joinPieces (placeholderToken key) (b :: rest), by rw [joinPieces_cons_cons]⟩

/-- A text is cut into pieces without the token in one way only. -/
theorem joinPieces_unique (key : List Char) (hkey : plainKey key = true)
    (ps qs : List (List Char)) (a b : List Char)
    (hps : ∀ p ∈ a :: ps, ¬ placeholderToken key <:+: p)
    (hqs : ∀ q ∈ b :: qs, ¬ placeholderToken key <:+: q)
    (h : joinPieces (placeholderToken key) (a :: ps)
      = joinPieces (placeholderToken key) (b :: qs)) :
    a :: ps = b :: qs := by
  induction ps generalizing a b qs with
  | nil =>
    cases qs with
    | nil => exact congrArg (fun x => [x]) h
    | cons q qs =>
      exfalso
      apply hps a (List.mem_cons_self _ _)
      have e : joinPieces (placeholderToken key) [a] = a := rfl
      rw [e] at h
      rw [h]
      exact placeholderToken_infix_join key b q qs
  | cons p ps ih =>
    cases qs with
    | nil =>
      exfalso
      apply hqs b (List.mem_cons_self _ _)
      have e : joinPieces (placeholderToken key) [b] = b := rfl
      rw [e] at h
      rw [← h]
      exact placeholderToken_infix_join key a p ps
    | cons q qs =>
      rw [joinPieces_cons_cons, joinPieces_cons_cons] at h
      obtain ⟨hab, hr⟩ := placeholderToken_split key hkey a b _ _
        (hps a (List.mem_cons_self _ _)) (hqs b (List.mem_cons_self _ _)) h
      rw [hab, ih qs p q (fun x hx => hps x (List.mem_cons_of_mem _ hx))
        (fun x hx => hqs x (List.mem_cons_of_mem _ hx)) hr]

theorem joinPieces_eq_nil (sep text : List Char) (pieces : List (List Char))
    (hsep : sep ≠ []) (h : joinPieces sep pieces = []) : joinPieces text pieces = [] := by
  match pieces, h with
  | [], _ => rfl
  | [a], h =>
    have e : joinPieces sep [a] = a := rfl
    rw [e] at h
    subst h
    rfl
  | a :: b :: rest, h =>
    rw [joinPieces_cons_cons] at h
    simp at h
    exact absurd h.2.1 hsep

/-- For a plain key, the text with every occurrence of the placeholder replaced is
determined by the subject. -/
theorem replacedAll_unique (key text subject r1 r2 : List Char)
    (hkey : plainKey key = true)
    (h1 : ReplacedAll (placeholderToken key) text subject r1)
    (h2 : ReplacedAll (placeholderToken key) text subject r2) : r1 = r2 := by
  obtain ⟨ps, hs1, hf1, hr1⟩ := h1
  obtain ⟨qs, hs2, hf2, hr2⟩ := h2
  have htok : placeholderToken key ≠ [] := by simp [placeholderToken]
  cases ps with
  | nil =>
    have hnil : subject = [] := hs1
    rw [hnil] at hs2
    rw [hr1, hr2, joinPieces_eq_nil _ text qs htok hs2.symm]
    rfl
  | cons a ps =>
    cases qs with
    | nil =>
      have hnil : subject = [] := hs2
      rw [hnil] at hs1
      rw [hr1, hr2, joinPieces_eq_nil _ text (a :: ps) htok hs1.symm]
      rfl
    | cons b qs =>
      rw [hr1, hr2, joinPieces_unique key hkey ps qs a b hf1 hf2 (by rw [← hs1, ← hs2])]

/-- For plain keys, the text after the known substitutions is determined by the
template and the map. -/
theorem substituted_unique (data : List (String × JSValue))
    (hkeys : ∀ e ∈ data, plainKey e.1.data = true) (s r1 r2 : List Char)
    (h1 : Substituted s data r1) (h2 : Substituted s data r2) : r1 = r2 := by
  induction data generalizing s with
  | nil =>
    have e1 : r1 = s := h1
    have e2 : r2 = s := h2
    rw [e1, e2]
  | cons e entries ih =>
    obtain ⟨key, value⟩ := e
    obtain ⟨m1, hm1, hs1⟩ := h1
    obtain ⟨m2, hm2, hs2⟩ := h2
    rw [placeholder_eq] at hm1 hm2
    have hm := replacedAll_unique key.data _ s m1 m2
      (hkeys (key, value) (List.mem_cons_self _ _)) hm1 hm2
    subst hm
    exact ih (fun e he => hkeys e (List.mem_cons_of_mem _ he)) m1 hs1 hs2

/-! ### When the final pass leaves no placeholder -/

theorem closeLen_of_tokenLen (r : List Char) (n : Nat) (h : tokenLen r = some n) :
    ∃ m, closeLen r = some m := by
  obtain ⟨c, rest, m, rfl, hc, hcl, _⟩ := (tokenLen_some_iff _ _).mp h
  exact ⟨m + 3, by simp [closeLen, hc, hcl]⟩

theorem tokenLen_open_cons (r : List Char) (n : Nat) (h : tokenLen r = some n) :
    ∃ k, tokenLen ('{' :: r) = some k := by
  obtain ⟨c, rest, m, rfl, hc, hcl, _⟩ := (tokenLen_some_iff _ _).mp h
  exact ⟨m + 1 + 3, by simp [tokenLen, closeLen, hc, hcl]⟩

theorem tokenLen_open_open_cons (r : List Char) (n : Nat) (h : tokenLen r = some n) :
    ∃ k, tokenLen ('{' :: '{' :: r) = some k := by
  obtain ⟨c, rest, m, rfl, hc, hcl, _⟩ := (tokenLen_some_iff _ _).mp h
  exact ⟨m + 1 + 1 + 3, by simp [tokenLen, closeLen, hc, hcl]⟩

theorem hasJoint_tail (c : Char) (rest : List Char) (h : hasJoint (c :: rest) = false) :
    hasJoint rest = false := by
  match rest, h with
  | [], _ => rfl
  | [_], _ => rfl
  | [_, _], _ => rfl
  | b :: c2 :: d :: rest, h =>
    simp only [hasJoint, Bool.or_eq_false_iff] at h
    exact h.2

theorem hasJoint_drop (n : Nat) (s : List Char) (h : hasJoint s = false) :
    hasJoint (s.drop n) = false := by
  induction n generalizing s with
  | zero => exact h
  | succ n ih =>
    cases s with
    | nil => rfl
    | cons c rest => exact ih rest (hasJoint_tail c rest h)

theorem hasJoint_head (p : Char) (rest : List Char) (hp : p ≠ '}')
    (h : hasJoint (p :: '}' :: '{' :: '{' :: rest) = false) : False := by
  simp [hasJoint, hp] at h

/-- Without a joint in the text, the final pass cannot complete a pending run: if no
`}}` closes the run before the pass, none closes it afterwards. The character `p` is the
one before the text, a character of the run. -/
theorem closeLen_stripTokens (p : Char) (hp : p ≠ '}') (r : List Char)
    (hbad : hasJoint (p :: r) = false)
    (h : closeLen r = none) : closeLen (stripTokens r) = none := by
  induction r generalizing p with
  | nil => rfl
  | cons x r1 ih =>
    rcases htl : tokenLen (x :: r1) with _ | n
    · rw [stripTokens_miss _ _ htl]
      by_cases hx : x = '}'
      · subst hx
        cases r1 with
        | nil => rfl
        | cons d r2 =>
          have hd : d ≠ '}' := by
            intro hd
            subst hd
            simp [closeLen] at h
          rcases htl2 : tokenLen (d :: r2) with _ | n2
          · rw [stripTokens_miss _ _ htl2]
            simp [closeLen, hd]
          · exfalso
            obtain ⟨c, rest, m, e, _⟩ := (tokenLen_some_iff _ _).mp htl2
            rw [e] at hbad
            exact hasJoint_head p _ hp hbad
      · have h1 : closeLen r1 = none := by
          simp only [closeLen, hx, if_false, Option.map_eq_none'] at h
          exact h
        simp [closeLen, hx, ih x hx (hasJoint_tail _ _ hbad) h1]
    · obtain ⟨m, hm⟩ := closeLen_of_tokenLen _ _ htl
      rw [hm] at h
      exact absurd h (by simp)

theorem stripTokens_eq_cons (r : List Char) (x : Char) (w : List Char)
    (htl : tokenLen r = none) (h : stripTokens r = x :: w) :
    ∃ r1, r = x :: r1 ∧ stripTokens r1 = w := by
  cases r with
  | nil => simp [stripTokens_nil] at h
  | cons y r1 =>
    rw [stripTokens_miss _ _ htl] at h
    simp only [List.cons.injEq] at h
    exact ⟨r1, by rw [h.1], h.2⟩

/-- Without a joint in the text, the output of the final pass does not start with a
placeholder. -/
theorem tokenLen_stripTokens (s : List Char) (hbad : hasJoint s = false) :
    tokenLen (stripTokens s) = none := by
  generalize hlen : s.length = len
  induction len using Nat.strong_induction_on generalizing s with
  | _ len ih =>
    cases s with
    | nil => rfl
    | cons c rest =>
      rcases htl : tokenLen (c :: rest) with _ | n
      · rw [stripTokens_miss _ _ htl]
        rcases hout : tokenLen (c :: stripTokens rest) with _ | k
        · rfl
        · exfalso
          obtain ⟨c3, u, m, e, hc3, hcl, _⟩ := (tokenLen_some_iff _ _).mp hout
          simp only [List.cons.injEq] at e
          obtain ⟨hc, e⟩ := e
          subst hc
          rcases htl1 : tokenLen rest with _ | n1
          · obtain ⟨rest1, hr, e1⟩ := stripTokens_eq_cons rest _ _ htl1 e
            subst hr
            rcases htl2 : tokenLen rest1 with _ | n2
            · obtain ⟨rest2, hr2, e2⟩ := stripTokens_eq_cons rest1 _ _ htl2 e1
              subst hr2
              have hcl2 : closeLen rest2 = none := by
                simp only [tokenLen, hc3, ne_eq, not_false_eq_true, and_self, if_true,
                  Option.map_eq_none'] at htl
                exact htl
              have := closeLen_stripTokens c3 hc3 rest2
                (hasJoint_tail _ _ (hasJoint_tail _ _ hbad)) hcl2
              rw [e2, hcl] at this
              exact absurd this (by simp)
            · obtain ⟨k2, hk2⟩ := tokenLen_open_open_cons _ _ htl2
              rw [hk2] at htl
              exact absurd htl (by simp)
          · obtain ⟨k1, hk1⟩ := tokenLen_open_cons _ _ htl1
            rw [hk1] at htl
            exact absurd htl (by simp)
      · rw [stripTokens_hit _ _ htl]
        obtain ⟨c2, r, m, _, _, _, hn⟩ := (tokenLen_some_iff _ _).mp htl
        refine ih ((c :: rest).drop n).length ?_ _ (hasJoint_drop _ _ hbad) rfl
        rw [← hlen, List.length_drop]
        simp only [List.length_cons]
        omega

/-- Without a joint in the text, the output of the final pass contains no
placeholder. -/
theorem hasToken_stripTokens (s : List Char) (hbad : hasJoint s = false) :
    hasToken (stripTokens s) = false := by
  generalize hlen : s.length = len
  induction len using Nat.strong_induction_on generalizing s with
  | _ len ih =>
    cases s with
    | nil => rfl
    | cons c rest =>
      rcases htl : tokenLen (c :: rest) with _ | n
      · have hhead := tokenLen_stripTokens (c :: rest) hbad
        rw [stripTokens_miss _ _ htl] at hhead ⊢
        have htail := ih rest.length (by rw [← hlen]; simp) rest
          (hasJoint_tail _ _ hbad) rfl
        simp [hasToken, tokenAtHead, hhead, htail]
      · rw [stripTokens_hit _ _ htl]
        obtain ⟨c2, r, m, _, _, _, hn⟩ := (tokenLen_some_iff _ _).mp htl
        refine ih ((c :: rest).drop n).length ?_ _ (hasJoint_drop _ _ hbad) rfl
        rw [← hlen, List.length_drop]
        simp only [List.length_cons]
        omega

/-! ### Texts without placeholder -/

theorem hasToken_cons (c : Char) (rest : List Char) (h : hasToken (c :: rest) = false) :
    tokenLen (c :: rest) = none ∧ hasToken rest = false := by
  simp only [hasToken, tokenAtHead, Bool.or_eq_false_iff] at h
  refine ⟨?_, h.2⟩
  rcases ht : tokenLen (c :: rest) with _ | n
  · rfl
  · rw [ht] at h
    simp at h

/-- The final pass leaves a text without placeholder as it is. -/
theorem stripTokens_noToken (s : List Char) (h : hasToken s = false) : stripTokens s = s := by
  induction s with
  | nil => rfl
  | cons c rest ih =>
    obtain ⟨h1, h2⟩ := hasToken_cons c rest h
    rw [stripTokens_miss c rest h1, ih h2]

/-- The global replace for a plain, non-empty key leaves a text without placeholder as
it is. -/
theorem replaceLiteralGo_noToken (key repl : List Char) (hkey : plainKey key = true)
    (hne : key ≠ []) (s before : List Char) (h : hasToken s = false) :
    replaceLiteralGo (placeholderToken key) repl 0 before s = s := by
  induction s generalizing before with
  | nil => rfl
  | cons c rest ih =>
    obtain ⟨h1, h2⟩ := hasToken_cons c rest h
    have hpre : (placeholderToken key).isPrefixOf (c :: rest) = false := by
      rcases hp : (placeholderToken key).isPrefixOf (c :: rest) with _ | _
      · rfl
      · exfalso
        obtain ⟨tail, htail⟩ := List.isPrefixOf_iff_prefix.mp hp
        rw [← htail, tokenLen_placeholderToken key tail hne (plainKey_close key hkey)] at h1
        cases h1
    rw [replaceLiteralGo_miss _ _ _ _ _ hpre, ih _ h2]

/-- The loop, for plain non-empty keys, leaves a text without placeholder as it is. -/
theorem substituteEntries_noToken
    (regexReplace : List Char → List Char → List Char → Except String (List Char))
    (s : List Char) (data : List (String × JSValue))
    (hkeys : ∀ e ∈ data, plainKey e.1.data = true ∧ e.1.data ≠ [])
    (h : hasToken s = false) : substituteEntries regexReplace s data = .ok s := by
  induction data with
  | nil => rfl
  | cons e rest ih =>
    obtain ⟨k, v⟩ := e
    obtain ⟨hk, hne⟩ := hkeys (k, v) (List.mem_cons_self _ _)
    simp only [substituteEntries, hk, if_true, replaceLiteral,
      replaceLiteralGo_noToken k.data (replacementText v) hk hne s [] h]
    exact ih (fun e he => hkeys e (List.mem_cons_of_mem _ he))

/-- Rendering, with plain non-empty keys, leaves a text without placeholder as it
is. -/
theorem fillPlaceholders_fixed
    (regexReplace : List Char → List Char → List Char → Except String (List Char))
    (s : List Char) (data : List (String × JSValue))
    (hkeys : ∀ e ∈ data, plainKey e.1.data = true ∧ e.1.data ≠ [])
    (h : hasToken s = false) :
    fillPlaceholders regexReplace (String.mk s) data = .ok (String.mk s) := by
  unfold fillPlaceholders
  rw [substituteEntries_noToken regexReplace s data hkeys h]
  simp only [stripTokens_noToken s h]

/-! ### Claims about the placeholder renderer -/

/-- C1, as stated, fails: the value is not inserted verbatim. With the map
`{name: "$$"}` the template `Hello {{name}}` renders to `Hello $`, because `replace`
reads `$$` in its replacement argument as one dollar sign; inserting the value verbatim
would give `Hello $$`. -/
theorem fillPlaceholders_verbatim_counterexample :
    fillPlaceholders sampleRegexReplace "Hello {{name}}" [("name", .str "$$")]
        = .ok "Hello $" ∧
      fillPlaceholders sampleRegexReplace "Hello {{name}}" [("name", .str "$$")]
        ≠ .ok "Hello $$" := by
  refine ⟨rfl, ?_⟩
  intro h
  have h2 : ("Hello $" : String) = "Hello $$" := Except.ok.inj h
  revert h2
  decide

/-- C1, amended: for every template text and every map whose keys contain no
regular-expression syntax character and whose values' string forms contain none of the
four sequences that `replace` expands (`$$`, `$&`, dollar-backtick, dollar-apostrophe),
the known substitutions replace, for each entry of the map in turn, every occurrence of
`{{key}}` by the string form of the value (the empty string for `null` and `undefined`)
and change nothing else; the text so described is the only one, the final pass is
applied to it, and when it holds no placeholder it is the result. In particular, when
the template is made of placeholders with non-empty brace-free keys and of text that
opens no placeholder (single braces are allowed), and the values' string forms open no
placeholder either, the result is the template with every placeholder replaced by the
string form of the value of its key (by nothing for a key that the map does not have),
and `Hello {{name}}` with `{name: "Ann"}` gives `Hello Ann`. -/
theorem fillPlaceholders_verbatim
    (regexReplace : List Char → List Char → List Char → Except String (List Char))
    (html : String) (data : JSObject)
    (hkeys : ∀ e ∈ data, plainKey e.1.data = true)
    (hvals : ∀ e ∈ data, dollarSafe (stringForm e.2) = true) :
    (∃ r, Substituted html.data data r ∧ (∀ r2, Substituted html.data data r2 → r2 = r) ∧
        substituteEntries regexReplace html.data data = .ok r ∧
        fillPlaceholders regexReplace html data = .ok (String.mk (stripTokens r)) ∧
        (hasToken r = false → fillPlaceholders regexReplace html data = .ok (String.mk r))) ∧
      (∀ segs, html.data = renderSegs segs → (∀ seg ∈ segs, seg.wellFormed = true) →
        (∀ e ∈ data, plainText (stringForm e.2) = true) →
        fillPlaceholders regexReplace html data
          = .ok (String.mk (instantiateSegs data segs))) ∧
      fillPlaceholders regexReplace "Hello {{name}}" [("name", .str "Ann")]
        = .ok "Hello Ann" := by
  refine ⟨?_, ?_, rfl⟩
  · obtain ⟨r, hr, hsub⟩ := substituteEntries_substituted regexReplace html.data data
      hkeys hvals
    refine ⟨r, hsub, fun r2 h2 => substituted_unique data hkeys html.data r2 r h2 hsub, hr,
      ?_, ?_⟩
    · unfold fillPlaceholders
      rw [hr]
    · intro hno
      unfold fillPlaceholders
      rw [hr]
      simp only [stripTokens_noToken r hno]
  · intro segs hsegs hwf hplain
    obtain ⟨r, hr, hstrip⟩ := substituteEntries_segs regexReplace data segs hwf hkeys hvals
      hplain
    unfold fillPlaceholders
    rw [hsegs, hr]
    simp only [hstrip]

/-- C1, amended, at a template with a style rule, a known placeholder (twice), a
placeholder whose value is `undefined`, one whose value is `null`, an unknown
placeholder and a price. -/
theorem fillPlaceholders_verbatim_witness :
    fillPlaceholders sampleRegexReplace
        "<style>p { margin: 0 }</style>{{name}}, {{name}}{{title}}{{note}}{{other}}: {{fee}}!"
        [("name", .str "Ann"), ("title", .undefined), ("note", .null), ("fee", .str "$5"),
          ("year", .num 2024)]
      = .ok "<style>p { margin: 0 }</style>Ann, Ann: $5!" :=
  (fillPlaceholders_verbatim sampleRegexReplace
    "<style>p { margin: 0 }</style>{{name}}, {{name}}{{title}}{{note}}{{other}}: {{fee}}!"
    [("name", .str "Ann"), ("title", .undefined), ("note", .null), ("fee", .str "$5"),
      ("year", .num 2024)]
    (by decide) (by decide)).2.1
    [.text "<style>p { margin: 0 }</style>".data, .hole "name".data, .text ", ".data,
      .hole "name".data, .hole "title".data, .hole "note".data, .hole "other".data,
      .text ": ".data, .hole "fee".data, .text "!".data]
    rfl (by decide) (by decide)

/-- C2, as stated, fails: the final pass runs once, and removing a placeholder can
bring the text around it together into a new one. The template `{{a}{{b}}}` with the
empty map renders to `{{a}}`, which is a placeholder token. -/
theorem fillPlaceholders_remaining_counterexample :
    fillPlaceholders sampleRegexReplace "{{a}{{b}}}" [] = .ok "{{a}}" ∧
      hasToken "{{a}}".data = true :=
  ⟨rfl, by decide⟩

/-- C2, amended: for every template text and every map, whatever its keys, when the
known substitutions return (they throw only when a key does not compile as a regular
expression) and the text that they hand to the final pass has no joint, that is no `}`
that directly follows a character other than `}` and is directly followed by `{{`,
`fillPlaceholders` returns a text that contains no placeholder token; in particular
`Hello {{name}}` with the empty map gives `Hello `. -/
theorem fillPlaceholders_noToken
    (regexReplace : List Char → List Char → List Char → Except String (List Char))
    (html : String) (data : JSObject) (s : List Char)
    (hs : substituteEntries regexReplace html.data data = .ok s)
    (hclean : hasJoint s = false) :
    (∃ r, fillPlaceholders regexReplace html data = .ok r ∧ hasToken r.data = false) ∧
      fillPlaceholders regexReplace "Hello {{name}}" [] = .ok "Hello " := by
  refine ⟨⟨String.mk (stripTokens s), ?_, hasToken_stripTokens s hclean⟩, rfl⟩
  unfold fillPlaceholders
  rw [hs]

/-- C2, amended, at a template with a style rule and two unknown placeholders in a row,
with the map `{a: "x", "b.c": "y"}`, whose second key is not plain: the engine is asked
for the second replace, here one that finds no match. -/
theorem fillPlaceholders_noToken_witness :
    substituteEntries sampleRegexReplace "<style>p { margin: 0 }</style>{{a}} and {{b}}{{c}}".data
        [("a", .str "x"), ("b.c", .str "y")]
        = .ok "<style>p { margin: 0 }</style>x and {{b}}{{c}}".data ∧
      hasJoint "<style>p { margin: 0 }</style>x and {{b}}{{c}}".data = false ∧
      ∃ r, fillPlaceholders sampleRegexReplace
          "<style>p { margin: 0 }</style>{{a}} and {{b}}{{c}}"
          [("a", .str "x"), ("b.c", .str "y")] = .ok r ∧
        hasToken r.data = false :=
  ⟨rfl, by decide,
    (fillPlaceholders_noToken sampleRegexReplace
      "<style>p { margin: 0 }</style>{{a}} and {{b}}{{c}}"
      [("a", .str "x"), ("b.c", .str "y")]
      "<style>p { margin: 0 }</style>x and {{b}}{{c}}".data rfl (by decide)).1⟩

/-! ## Properties of the id allocator -/

theorem candidate_eq (today : JSDate) (rand : Nat → Nat) (eventDate : Option JSDate)
    (seq : Option Nat) (pos i : Nat) :
    candidate today rand eventDate seq pos i
      = generateCertificateId today rand eventDate seq "CERT"
          (candidateStart today rand eventDate seq pos i) := by
  cases i <;> rfl

theorem uniqueIdLoop_free {σ : Type} (today : JSDate) (rand : Nat → Nat)
    (findOne : σ → String → Bool × σ) (eventDate : Option JSDate) (seq : Option Nat)
    (fuel a pos : Nat) (st : σ)
    (h : (findOne st (generateCertificateId today rand eventDate seq "CERT" pos).1).1 = false) :
    uniqueIdLoop today rand findOne eventDate seq (fuel + 1) a pos st
      = some ⟨(generateCertificateId today rand eventDate seq "CERT" pos).1,
          (generateCertificateId today rand eventDate seq "CERT" pos).2,
          (findOne st (generateCertificateId today rand eventDate seq "CERT" pos).1).2,
          a + 1⟩ := by
  simp only [uniqueIdLoop, h]
  rfl

theorem uniqueIdLoop_last {σ : Type} (today : JSDate) (rand : Nat → Nat)
    (findOne : σ → String → Bool × σ) (eventDate : Option JSDate) (seq : Option Nat)
    (fuel a pos : Nat) (st : σ)
    (h : (findOne st (generateCertificateId today rand eventDate seq "CERT" pos).1).1 = true)
    (ha : ¬ a + 1 < 10) :
    uniqueIdLoop today rand findOne eventDate seq (fuel + 1) a pos st
      = some ⟨(generateCertificateId today rand eventDate seq "CERT" pos).1,
          (generateCertificateId today rand eventDate seq "CERT" pos).2,
          (findOne st (generateCertificateId today rand eventDate seq "CERT" pos).1).2,
          a + 1⟩ := by
  simp only [uniqueIdLoop, h, ha]
  rfl

theorem uniqueIdLoop_again {σ : Type} (today : JSDate) (rand : Nat → Nat)
    (findOne : σ → String → Bool × σ) (eventDate : Option JSDate) (seq : Option Nat)
    (fuel a pos : Nat) (st : σ)
    (h : (findOne st (generateCertificateId today rand eventDate seq "CERT" pos).1).1 = true)
    (ha : a + 1 < 10) :
    uniqueIdLoop today rand findOne eventDate seq (fuel + 1) a pos st
      = uniqueIdLoop today rand findOne eventDate seq fuel (a + 1)
          (generateCertificateId today rand eventDate seq "CERT" pos).2
          (findOne st (generateCertificateId today rand eventDate seq "CERT" pos).1).2 := by
  rw [uniqueIdLoop]
  simp only [h, ha]
  rfl

/-- The loop, entered for the `a`-th time after `a` collisions, stops within the ten
iterations at the first candidate reported free, or at the tenth candidate. -/
theorem uniqueIdLoop_spec {σ : Type} (today : JSDate) (rand : Nat → Nat)
    (findOne : σ → String → Bool × σ) (eventDate : Option JSDate) (seq : Option Nat)
    (pos : Nat) (st : σ) (fuel a : Nat) (ha : a < 10) (hfuel : 10 ≤ a + fuel)
    (hprev : ∀ i, i < a → callbackAnswer today rand findOne eventDate seq pos st i = true) :
    ∃ r, uniqueIdLoop today rand findOne eventDate seq fuel a
          (candidateStart today rand eventDate seq pos a)
          (callbackState today rand findOne eventDate seq pos st a) = some r ∧
      a + 1 ≤ r.checks ∧ r.checks ≤ 10 ∧
      r.id = (candidate today rand eventDate seq pos (r.checks - 1)).1 ∧
      (∀ i, i + 1 < r.checks →
        callbackAnswer today rand findOne eventDate seq pos st i = true) ∧
      (callbackAnswer today rand findOne eventDate seq pos st (r.checks - 1) = false ∨
        (r.checks = 10 ∧
          ∀ i, i < 10 → callbackAnswer today rand findOne eventDate seq pos st i = true)) := by
  induction fuel generalizing a with
  | zero => omega
  | succ fuel ih =>
    have hcand := candidate_eq today rand eventDate seq pos a
    rcases hans : callbackAnswer today rand findOne eventDate seq pos st a with _ | _
    · have hans2 := hans
      simp only [callbackAnswer, hcand] at hans2
      rw [uniqueIdLoop_free _ _ _ _ _ _ _ _ _ hans2, ← hcand]
      refine ⟨_, rfl, ?_, ?_, ?_, ?_, ?_⟩
      · exact Nat.le_refl _
      · show a + 1 ≤ 10
        omega
      · show _ = (candidate today rand eventDate seq pos (a + 1 - 1)).1
        rfl
      · intro i hi
        exact hprev i (Nat.lt_of_succ_lt_succ hi)
      · left
        exact hans
    · have hans2 := hans
      simp only [callbackAnswer, hcand] at hans2
      by_cases hlt : a + 1 < 10
      · have hprev2 : ∀ i, i < a + 1 →
            callbackAnswer today rand findOne eventDate seq pos st i = true := by
          intro i hi
          rcases Nat.lt_succ_iff_lt_or_eq.mp hi with h | h
          · exact hprev i h
          · rw [h]; exact hans
        obtain ⟨r, hr, h1, h2, h3, h4, h5⟩ := ih (a + 1) hlt (by omega) hprev2
        refine ⟨r, ?_, by omega, h2, h3, h4, h5⟩
        rw [uniqueIdLoop_again _ _ _ _ _ _ _ _ _ hans2 hlt, ← hcand]
        exact hr
      · have ha9 : a = 9 := by omega
        subst ha9
        rw [uniqueIdLoop_last _ _ _ _ _ _ _ _ _ hans2 hlt, ← hcand]
        refine ⟨_, rfl, ?_, ?_, ?_, ?_, ?_⟩
        · exact Nat.le_refl _
        · exact Nat.le_refl _
        · rfl
        · intro i hi
          exact hprev i (Nat.lt_of_succ_lt_succ hi)
        · right
          refine ⟨rfl, ?_⟩
          intro i hi
          rcases Nat.lt_succ_iff_lt_or_eq.mp hi with h | h
          · exact hprev i h
          · rw [h]; exact hans

/-- C6: `generateUniqueCertificateId` always returns, after at least one and at most ten
existence checks; the id returned is the candidate of the last check; every earlier
candidate was reported as existing; and either the last candidate was reported free, or
ten checks were made, all ten candidates collide, and the tenth is returned all the
same. -/
theorem generateUniqueCertificateId_spec {σ : Type} (today : JSDate) (rand : Nat → Nat)
    (findOne : σ → String → Bool × σ) (eventDate : Option JSDate) (seq : Option Nat)
    (pos : Nat) (st : σ) :
    ∃ r, generateUniqueCertificateId today rand findOne eventDate seq pos st = some r ∧
      1 ≤ r.checks ∧ r.checks ≤ 10 ∧
      r.id = (candidate today rand eventDate seq pos (r.checks - 1)).1 ∧
      (∀ i, i + 1 < r.checks →
        callbackAnswer today rand findOne eventDate seq pos st i = true) ∧
      (callbackAnswer today rand findOne eventDate seq pos st (r.checks - 1) = false ∨
        (r.checks = 10 ∧
          ∀ i, i < 10 → callbackAnswer today rand findOne eventDate seq pos st i = true)) := by
  have h := uniqueIdLoop_spec today rand findOne eventDate seq pos st 10 0 (by decide)
    (by decide) (fun i hi => absurd hi (Nat.not_lt_zero i))
  simpa [generateUniqueCertificateId, candidateStart, callbackState] using h

/-! ### Format of a generated id -/

theorem decimalDigits_small (fuel n : Nat) (h : n < 10) :
    decimalDigits (fuel + 1) n = [digitChar n] := by
  simp [decimalDigits, h]

theorem decimalDigits_step (fuel n : Nat) (h : 10 ≤ n) :
    decimalDigits (fuel + 1) n = decimalDigits fuel (n / 10) ++ [digitChar (n % 10)] := by
  have h2 : ¬ n < 10 := by omega
  simp [decimalDigits, h2]

/-- A number below 100, padded to two places, is its tens digit and its units digit. -/
theorem padStart2_natToJSString (n : Nat) (h : n < 100) :
    padStart2 (natToJSString n) = [digitChar (n / 10), digitChar (n % 10)] := by
  by_cases h10 : n < 10
  · have e1 : n / 10 = 0 := by omega
    have e2 : n % 10 = n := by omega
    rw [natToJSString, decimalDigits_small n n h10, e1, e2]
    rfl
  · obtain ⟨m, rfl⟩ : ∃ m, n = m + 1 := ⟨n - 1, by omega⟩
    rw [natToJSString, decimalDigits_step _ _ (by omega),
      decimalDigits_small m _ (by omega)]
    rfl

/-- A number from 1000 to 9999 is written with its four decimal digits. -/
theorem natToJSString_fourDigits (n : Nat) (h1 : 1000 ≤ n) (h2 : n < 10000) :
    natToJSString n
      = [digitChar (n / 1000), digitChar (n / 100 % 10), digitChar (n / 10 % 10),
          digitChar (n % 10)] := by
  obtain ⟨m, rfl⟩ : ∃ m, n = m + 3 := ⟨n - 3, by omega⟩
  have e1 : (m + 3) / 10 / 10 = (m + 3) / 100 := by omega
  have e2 : (m + 3) / 10 / 10 / 10 = (m + 3) / 1000 := by omega
  rw [natToJSString, decimalDigits_step _ _ (by omega), decimalDigits_step _ _ (by omega),
    decimalDigits_step _ _ (by omega), decimalDigits_small m _ (by omega), e2, e1]
  rfl

theorem bitLengthFuel_le (fuel n b : Nat) (h : n < 2 ^ b) : bitLengthFuel fuel n ≤ b := by
  induction fuel generalizing n b with
  | zero => simp [bitLengthFuel]
  | succ fuel ih =>
    by_cases hn : n = 0
    · simp [bitLengthFuel, hn]
    · cases b with
      | zero =>
        rw [Nat.pow_zero] at h
        omega
      | succ b =>
        have h2 : n / 2 < 2 ^ b := by
          rw [Nat.pow_succ] at h
          omega
        simp only [bitLengthFuel, hn, if_false]
        exact Nat.succ_le_succ (ih _ _ h2)

/-- Rounding to 53 bits adds at most half a unit of the last place. -/
theorem roundToDouble_le (p : Nat) : roundToDouble p ≤ p + 2 ^ (bitLength p - 53 - 1) := by
  unfold roundToDouble
  by_cases hb : bitLength p ≤ 53
  · simp [hb]
  · simp only [hb, if_false]
    have hs : bitLength p - 53 = (bitLength p - 53 - 1) + 1 := by omega
    generalize bitLength p - 53 - 1 = t at hs ⊢
    rw [hs]
    have hpow : 2 ^ (t + 1) = 2 * 2 ^ t := by rw [Nat.pow_succ]; omega
    have hdm := Nat.div_add_mod p (2 ^ (t + 1))
    have hmul : ∀ x : Nat, (x + 1) * 2 ^ (t + 1) = x * 2 ^ (t + 1) + 2 ^ (t + 1) := by
      intro x
      rw [Nat.add_mul, Nat.one_mul]
    have hcomm : p / 2 ^ (t + 1) * 2 ^ (t + 1) = 2 ^ (t + 1) * (p / 2 ^ (t + 1)) :=
      Nat.mul_comm _ _
    split_ifs <;> first | omega | (rw [hmul]; omega)

theorem floorRandomTimes_99 (k : Nat) (hk : k < 2 ^ 53) : floorRandomTimes k 99 ≤ 98 := by
  have hp : k * 99 < 2 ^ 60 := by omega
  have hb : bitLength (k * 99) ≤ 60 := bitLengthFuel_le _ _ _ hp
  have hr := roundToDouble_le (k * 99)
  have hpow : 2 ^ (bitLength (k * 99) - 53 - 1) ≤ 2 ^ 6 :=
    Nat.pow_le_pow_right (by decide) (by omega)
  have hlt : roundToDouble (k * 99) < 99 * 2 ^ 53 := by omega
  have : floorRandomTimes k 99 < 99 := by
    unfold floorRandomTimes
    exact (Nat.div_lt_iff_lt_mul (by decide)).mpr hlt
  omega

theorem floorRandomTimes_9000 (k : Nat) (hk : k < 2 ^ 53) :
    floorRandomTimes k 9000 ≤ 8999 := by
  have hp : k * 9000 < 2 ^ 67 := by omega
  have hb : bitLength (k * 9000) ≤ 67 := bitLengthFuel_le _ _ _ hp
  have hr := roundToDouble_le (k * 9000)
  have hpow : 2 ^ (bitLength (k * 9000) - 53 - 1) ≤ 2 ^ 13 :=
    Nat.pow_le_pow_right (by decide) (by omega)
  have hlt : roundToDouble (k * 9000) < 9000 * 2 ^ 53 := by omega
  have : floorRandomTimes k 9000 < 9000 := by
    unfold floorRandomTimes
    exact (Nat.div_lt_iff_lt_mul (by decide)).mpr hlt
  omega

/-- C7: for a valid event date and two random draws in `[0, 1)` (numerators below
`2^53`), `generateCertificateId` without an explicit sequence returns
`CERT-<year><MM><DD>-<SS>-<RRRR>`: the date's year, its month and day each on two
digits, the two digits of a number `ss` from 1 to 99 and the four digits of a number
`rrrr` from 1000 to 9999; it uses exactly two draws. -/
theorem generateCertificateId_format (today : JSDate) (rand : Nat → Nat) (d : JSDate)
    (pos : Nat) (hd : d.valid) (h1 : rand pos < 2 ^ 53) (h2 : rand (pos + 1) < 2 ^ 53) :
    ∃ ss rrrr, 1 ≤ ss ∧ ss ≤ 99 ∧ 1000 ≤ rrrr ∧ rrrr ≤ 9999 ∧
      generateCertificateId today rand (some d) none "CERT" pos
        = (String.mk ("CERT-".data ++ intToJSString d.fullYear
            ++ [digitChar ((d.month + 1) / 10), digitChar ((d.month + 1) % 10),
                digitChar (d.date / 10), digitChar (d.date % 10), '-',
                digitChar (ss / 10), digitChar (ss % 10), '-',
                digitChar (rrrr / 1000), digitChar (rrrr / 100 % 10),
                digitChar (rrrr / 10 % 10), digitChar (rrrr % 10)]), pos + 2) := by
  obtain ⟨hm, hd1, hd2⟩ := hd
  have hs := floorRandomTimes_99 (rand pos) h1
  have hr := floorRandomTimes_9000 (rand (pos + 1)) h2
  refine ⟨floorRandomTimes (rand pos) 99 + 1, floorRandomTimes (rand (pos + 1)) 9000 + 1000,
    by omega, by omega, by omega, by omega, ?_⟩
  simp only [generateCertificateId]
  rw [padStart2_natToJSString _ (by omega : d.month + 1 < 100),
    padStart2_natToJSString _ (by omega : d.date < 100),
    padStart2_natToJSString _ (by omega : floorRandomTimes (rand pos) 99 + 1 < 100),
    natToJSString_fourDigits _ (by omega) (by omega)]
  simp

/-- C7 at the date 12 February 2024 with the draws `1/2` and `1/4`. -/
theorem generateCertificateId_format_witness :
    (⟨2024, 1, 12⟩ : JSDate).valid ∧
      ∃ ss rrrr, 1 ≤ ss ∧ ss ≤ 99 ∧ 1000 ≤ rrrr ∧ rrrr ≤ 9999 ∧
        generateCertificateId ⟨2024, 1, 12⟩ (drawsOf [2 ^ 52, 2 ^ 51]) (some ⟨2024, 1, 12⟩)
            none "CERT" 0
          = (String.mk ("CERT-".data ++ intToJSString 2024
              ++ [digitChar ((1 + 1) / 10), digitChar ((1 + 1) % 10),
                  digitChar (12 / 10), digitChar (12 % 10), '-',
                  digitChar (ss / 10), digitChar (ss % 10), '-',
                  digitChar (rrrr / 1000), digitChar (rrrr / 100 % 10),
                  digitChar (rrrr / 10 % 10), digitChar (rrrr % 10)]), 0 + 2) :=
  ⟨by decide,
    generateCertificateId_format ⟨2024, 1, 12⟩ (drawsOf [2 ^ 52, 2 ^ 51]) ⟨2024, 1, 12⟩ 0
      (by decide) (by decide) (by decide)⟩

/-! ### Two sequential allocations -/

/-- C8, as stated, fails: nothing ties the ids of two calls together. With the sixteen
draws below, each of two sequential calls meets three reported collisions and returns
its fourth candidate, and both return `CERT-20240212-50-3250`. -/
theorem generateUniqueCertificateId_repeat_counterexample :
    (generateUniqueCertificateId ⟨2024, 1, 12⟩
        (drawsOf [1, 2, 3, 4, 5, 6, 2 ^ 52, 2 ^ 51, 7, 8, 9, 10, 11, 12, 2 ^ 52, 2 ^ 51])
        busyThenFree (some ⟨2024, 1, 12⟩) none 0 0).map (fun r => (r.id, r.pos, r.checks))
      = some ("CERT-20240212-50-3250", 8, 4) ∧
    (generateUniqueCertificateId ⟨2024, 1, 12⟩
        (drawsOf [1, 2, 3, 4, 5, 6, 2 ^ 52, 2 ^ 51, 7, 8, 9, 10, 11, 12, 2 ^ 52, 2 ^ 51])
        busyThenFree (some ⟨2024, 1, 12⟩) none 8 0).map (fun r => (r.id, r.pos, r.checks))
      = some ("CERT-20240212-50-3250", 16, 4) := by
  constructor <;> decide

/-- C8, amended: against a callback that reports a collision for its first three checks
and a free id on the fourth, each of two sequential calls makes exactly four checks and
returns the fourth candidate it generated; the two ids differ exactly when these two
fourth candidates differ. -/
theorem generateUniqueCertificateId_busyThenFree (today : JSDate) (rand : Nat → Nat)
    (eventDate : Option JSDate) (seq : Option Nat) (pos : Nat) :
    ∃ r1 r2,
      generateUniqueCertificateId today rand busyThenFree eventDate seq pos 0 = some r1 ∧
      generateUniqueCertificateId today rand busyThenFree eventDate seq r1.pos 0 = some r2 ∧
      r1.checks = 4 ∧ r2.checks = 4 ∧
      r1.id = (candidate today rand eventDate seq pos 3).1 ∧
      r2.id = (candidate today rand eventDate seq r1.pos 3).1 ∧
      (r1.id ≠ r2.id ↔
        (candidate today rand eventDate seq pos 3).1
          ≠ (candidate today rand eventDate seq r1.pos 3).1) := by
  have key : ∀ p, ∃ r,
      generateUniqueCertificateId today rand busyThenFree eventDate seq p 0 = some r ∧
      r.checks = 4 ∧ r.id = (candidate today rand eventDate seq p 3).1 := by
    intro p
    have hrun : generateUniqueCertificateId today rand busyThenFree eventDate seq p 0
        = some ⟨(candidate today rand eventDate seq p 3).1,
            (candidate today rand eventDate seq p 3).2, 4, 4⟩ := by
      unfold generateUniqueCertificateId
      rw [uniqueIdLoop_again _ _ _ _ _ _ _ _ _ rfl (by decide),
        uniqueIdLoop_again _ _ _ _ _ _ _ _ _ rfl (by decide),
        uniqueIdLoop_again _ _ _ _ _ _ _ _ _ rfl (by decide),
        uniqueIdLoop_free _ _ _ _ _ _ _ _ _ rfl]
      rfl
    exact ⟨_, hrun, rfl, rfl⟩
  obtain ⟨r1, e1, c1, i1⟩ := key pos
  obtain ⟨r2, e2, c2, i2⟩ := key r1.pos
  exact ⟨r1, r2, e1, e2, c1, c2, i1, i2, by rw [i1, i2]⟩

/-! ## Properties of the settings resolver -/

theorem JSObject.get_cons (k : String) (v : JSValue) (rest : JSObject) (key : String) :
    JSObject.get ((k, v) :: rest) key = if k = key then v else JSObject.get rest key := by
  by_cases h : k = key
  · simp [JSObject.get, List.find?, h]
  · have hb : (k == key) = false := by simpa using h
    simp [JSObject.get, List.find?, h, hb]

theorem JSObject.get_set_eq (o : JSObject) (key : String) (value : JSValue) :
    (o.set key value).get key = value := by
  induction o with
  | nil => simp [JSObject.set, JSObject.get_cons]
  | cons e rest ih =>
    obtain ⟨k, v⟩ := e
    by_cases h : k = key
    · simp [JSObject.set, h, JSObject.get_cons]
    · simp [JSObject.set, h, JSObject.get_cons, ih]

theorem JSObject.get_set_ne (o : JSObject) (key k : String) (value : JSValue)
    (h : key ≠ k) : (o.set key value).get k = o.get k := by
  induction o with
  | nil => simp [JSObject.set, JSObject.get_cons, h, JSObject.get]
  | cons e rest ih =>
    obtain ⟨k2, v⟩ := e
    by_cases h2 : k2 = key
    · subst h2
      simp [JSObject.set, JSObject.get_cons, h]
    · simp [JSObject.set, h2, JSObject.get_cons, ih]

theorem setIfTruthy_get_ne (config : JSObject) (key k : String) (value : JSValue)
    (h : key ≠ k) : (setIfTruthy config key value).get k = config.get k := by
  unfold setIfTruthy
  split
  · exact JSObject.get_set_ne _ _ _ _ h
  · rfl

theorem setIfTruthy_falsy (config : JSObject) (key : String) (value : JSValue)
    (h : value.truthy = false) : setIfTruthy config key value = config := by
  simp [setIfTruthy, h]

/-- A key that is not the name of a signature property. -/
theorem applySignature_get (config : JSObject) (sig : SignatureDoc) (index : Nat)
    (k : String) (hk : ∀ n s, sigKey n s ≠ k) :
    (applySignature config sig index).get k = config.get k := by
  unfold applySignature
  simp only
  split
  · rfl
  · rw [setIfTruthy_get_ne _ _ _ _ (hk _ _), setIfTruthy_get_ne _ _ _ _ (hk _ _),
      setIfTruthy_get_ne _ _ _ _ (hk _ _)]

theorem applySignatures_get (config : JSObject) (sigs : List SignatureDoc) (index : Nat)
    (k : String) (hk : ∀ n s, sigKey n s ≠ k) :
    (applySignatures config sigs index).get k = config.get k := by
  induction sigs generalizing config index with
  | nil => rfl
  | cons sig rest ih =>
    rw [applySignatures, ih, applySignature_get _ _ _ _ hk]

theorem sigKey_ne (n : Nat) (s k : String) (h : k.data.head? ≠ some 's') :
    sigKey n s ≠ k := by
  intro e
  apply h
  rw [← e]
  rfl

/-- The block for a stored document leaves a property alone unless it is one of those
it assigns. -/
theorem applySettings_get (config : JSObject) (settings : CertificateSettingsDoc)
    (k : String) (hk : k.data.head? ≠ some 's') (h1 : "templateId" ≠ k)
    (h2 : "logoLeft" ≠ k) (h3 : "logoRight" ≠ k) (h4 : "customFields" ≠ k) :
    (applySettings config settings).get k = config.get k := by
  have hsig : ∀ n s, sigKey n s ≠ k := fun n s => sigKey_ne n s k hk
  have hc3 : (setIfTruthy (setIfTruthy (setIfTruthy config "templateId" settings.templateId)
      "logoLeft" settings.logoLeft) "logoRight" settings.logoRight).get k = config.get k := by
    rw [setIfTruthy_get_ne _ _ _ _ h3, setIfTruthy_get_ne _ _ _ _ h2,
      setIfTruthy_get_ne _ _ _ _ h1]
  unfold applySettings
  simp only
  rcases settings.customFields with _ | fields <;> rcases settings.signatures with _ | sigs
  · exact hc3
  · simp only
    split
    · rw [applySignatures_get _ _ _ _ hsig, hc3]
    · exact hc3
  · simp only
    rw [JSObject.get_set_ne _ _ _ _ h4, hc3]
  · simp only
    rw [JSObject.get_set_ne _ _ _ _ h4]
    split
    · rw [applySignatures_get _ _ _ _ hsig, hc3]
    · exact hc3

/-- C9: when no settings document is stored for the event, `getEffectiveSettings`
returns the opening object literal unchanged: each branding and signature property
holds the `DEFAULT_CONFIG` value of the same name, `templateId` is 1, `customFields` is
the empty map, and there is no other property. The function has no failing path. -/
theorem getEffectiveSettings_noSettings (env : ProcessEnv)
    (store : List CertificateSettingsDoc) (eventId : String)
    (h : findSettings store eventId = none) :
    (getEffectiveSettings env store eventId).map Prod.fst
        = ["collegeName", "collegeTagline", "logoLeft", "logoRight",
            "sig1Name", "sig1Title", "sig1Url", "sig2Name", "sig2Title", "sig2Url",
            "sig3Name", "sig3Title", "sig3Url", "sig4Name", "sig4Title", "sig4Url",
            "templateId", "customFields"] ∧
      (getEffectiveSettings env store eventId).get "collegeName"
        = .str (DEFAULT_CONFIG env).collegeName ∧
      (getEffectiveSettings env store eventId).get "collegeTagline"
        = .str (DEFAULT_CONFIG env).collegeTagline ∧
      (getEffectiveSettings env store eventId).get "logoLeft"
        = .str (DEFAULT_CONFIG env).logoLeft ∧
      (getEffectiveSettings env store eventId).get "logoRight"
        = .str (DEFAULT_CONFIG env).logoRight ∧
      (getEffectiveSettings env store eventId).get "sig1Name"
        = .str (DEFAULT_CONFIG env).sig1Name ∧
      (getEffectiveSettings env store eventId).get "sig1Title"
        = .str (DEFAULT_CONFIG env).sig1Title ∧
      (getEffectiveSettings env store eventId).get "sig1Url"
        = .str (DEFAULT_CONFIG env).sig1Url ∧
      (getEffectiveSettings env store eventId).get "sig2Name"
        = .str (DEFAULT_CONFIG env).sig2Name ∧
      (getEffectiveSettings env store eventId).get "sig2Title"
        = .str (DEFAULT_CONFIG env).sig2Title ∧
      (getEffectiveSettings env store eventId).get "sig2Url"
        = .str (DEFAULT_CONFIG env).sig2Url ∧
      (getEffectiveSettings env store eventId).get "sig3Name"
        = .str (DEFAULT_CONFIG env).sig3Name ∧
      (getEffectiveSettings env store eventId).get "sig3Title"
        = .str (DEFAULT_CONFIG env).sig3Title ∧
      (getEffectiveSettings env store eventId).get "sig3Url"
        = .str (DEFAULT_CONFIG env).sig3Url ∧
      (getEffectiveSettings env store eventId).get "sig4Name"
        = .str (DEFAULT_CONFIG env).sig4Name ∧
      (getEffectiveSettings env store eventId).get "sig4Title"
        = .str (DEFAULT_CONFIG env).sig4Title ∧
      (getEffectiveSettings env store eventId).get "sig4Url"
        = .str (DEFAULT_CONFIG env).sig4Url ∧
      (getEffectiveSettings env store eventId).get "templateId" = .num 1 ∧
      (getEffectiveSettings env store eventId).get "customFields" = .obj [] := by
  have e : getEffectiveSettings env store eventId = defaultSettings (DEFAULT_CONFIG env) := by
    simp [getEffectiveSettings, h]
  rw [e]
  refine ⟨rfl, rfl, rfl, rfl, rfl, rfl, rfl, rfl, rfl, rfl, rfl, rfl, rfl, rfl, rfl, rfl,
    rfl, rfl, rfl⟩

/-- C9 for a store that holds a settings document of another event only, in an
environment without variables. -/
theorem getEffectiveSettings_noSettings_witness :
    findSettings [⟨"e2", .num 5, .str "L", .undefined, none, none, false⟩] "e1" = none ∧
      (getEffectiveSettings emptyEnv
          [⟨"e2", .num 5, .str "L", .undefined, none, none, false⟩] "e1").get "templateId"
        = .num 1 ∧
      (getEffectiveSettings emptyEnv
          [⟨"e2", .num 5, .str "L", .undefined, none, none, false⟩] "e1").get "logoLeft"
        = .str (DEFAULT_CONFIG emptyEnv).logoLeft :=
  have h := getEffectiveSettings_noSettings emptyEnv
    [⟨"e2", .num 5, .str "L", .undefined, none, none, false⟩] "e1" (by decide)
  ⟨by decide, h.2.2.2.2.2.2.2.2.2.2.2.2.2.2.2.2.2.1, h.2.2.2.1⟩

/-- C10: for a stored document that sets only `templateId = 3` (falsy logos, no or an
empty signature list, no or an empty custom-field map) the effective settings have
`templateId = 3` and every other property as in the defaults; and for any stored
document, a falsy `templateId`, `logoLeft` or `logoRight` leaves the default in place
(1, respectively the default logo). -/
theorem getEffectiveSettings_templateOnly (env : ProcessEnv)
    (store : List CertificateSettingsDoc) (eventId : String) (doc : CertificateSettingsDoc)
    (hfind : findSettings store eventId = some doc) :
    (doc.templateId = .num 3 → doc.logoLeft.truthy = false → doc.logoRight.truthy = false →
        (doc.signatures = none ∨ doc.signatures = some []) →
        (doc.customFields = none ∨ doc.customFields = some []) →
        (getEffectiveSettings env store eventId).get "templateId" = .num 3 ∧
        ∀ key, key ≠ "templateId" →
          (getEffectiveSettings env store eventId).get key
            = (defaultSettings (DEFAULT_CONFIG env)).get key) ∧
      (doc.templateId.truthy = false →
        (getEffectiveSettings env store eventId).get "templateId" = .num 1) ∧
      (doc.logoLeft.truthy = false →
        (getEffectiveSettings env store eventId).get "logoLeft"
          = .str (DEFAULT_CONFIG env).logoLeft) ∧
      (doc.logoRight.truthy = false →
        (getEffectiveSettings env store eventId).get "logoRight"
          = .str (DEFAULT_CONFIG env).logoRight) := by
  have e : getEffectiveSettings env store eventId
      = applySettings (defaultSettings (DEFAULT_CONFIG env)) doc := by
    simp [getEffectiveSettings, hfind]
  have hsig : ∀ (k : String), k.data.head? ≠ some 's' → ∀ n s, sigKey n s ≠ k :=
    fun k hk n s => sigKey_ne n s k hk
  have hstage : ∀ (c3 : JSObject) (k : String), k.data.head? ≠ some 's' →
      "customFields" ≠ k →
      (match doc.customFields with
        | some fields =>
          JSObject.set (match doc.signatures with
            | some sigs => if sigs.length > 0 then applySignatures c3 sigs 0 else c3
            | none => c3) "customFields" (.obj fields)
        | none =>
          (match doc.signatures with
            | some sigs => if sigs.length > 0 then applySignatures c3 sigs 0 else c3
            | none => c3)).get k = c3.get k := by
    intro c3 k hk h4
    rcases doc.customFields with _ | fields <;> rcases doc.signatures with _ | sigs
    · rfl
    · simp only
      split
      · rw [applySignatures_get _ _ _ _ (hsig k hk)]
      · rfl
    · simp only
      rw [JSObject.get_set_ne _ _ _ _ h4]
    · simp only
      rw [JSObject.get_set_ne _ _ _ _ h4]
      split
      · rw [applySignatures_get _ _ _ _ (hsig k hk)]
      · rfl
  rw [e]
  refine ⟨?_, ?_, ?_, ?_⟩
  · intro ht hl hr hs hc
    have eq2 : applySettings (defaultSettings (DEFAULT_CONFIG env)) doc
        = (defaultSettings (DEFAULT_CONFIG env)).set "templateId" (.num 3) := by
      unfold applySettings
      dsimp only
      rw [ht, setIfTruthy_falsy _ "logoLeft" _ hl, setIfTruthy_falsy _ "logoRight" _ hr]
      rcases hs with hs | hs <;> rcases hc with hc | hc <;> rw [hs, hc] <;> rfl
    rw [eq2]
    refine ⟨JSObject.get_set_eq _ _ _, ?_⟩
    intro key hkey
    exact JSObject.get_set_ne _ _ _ _ (fun h => hkey h.symm)
  · intro ht
    unfold applySettings
    dsimp only
    rw [hstage _ _ (by decide) (by decide), setIfTruthy_get_ne _ _ _ _ (by decide),
      setIfTruthy_get_ne _ _ _ _ (by decide), setIfTruthy_falsy _ _ _ ht]
    rfl
  · intro hl
    unfold applySettings
    dsimp only
    rw [hstage _ _ (by decide) (by decide), setIfTruthy_get_ne _ _ _ _ (by decide),
      setIfTruthy_falsy _ _ _ hl, setIfTruthy_get_ne _ _ _ _ (by decide)]
    rfl
  · intro hr
    unfold applySettings
    dsimp only
    rw [hstage _ _ (by decide) (by decide), setIfTruthy_falsy _ _ _ hr,
      setIfTruthy_get_ne _ _ _ _ (by decide), setIfTruthy_get_ne _ _ _ _ (by decide)]
    rfl

/-- C10 at a store whose document for the event sets only `templateId = 3`. -/
theorem getEffectiveSettings_templateOnly_witness :
    findSettings [⟨"e1", .num 3, .undefined, .undefined, some [], some [], false⟩] "e1"
        = some ⟨"e1", .num 3, .undefined, .undefined, some [], some [], false⟩ ∧
      (getEffectiveSettings emptyEnv
          [⟨"e1", .num 3, .undefined, .undefined, some [], some [], false⟩] "e1").get
          "templateId" = .num 3 ∧
      (getEffectiveSettings emptyEnv
          [⟨"e1", .num 3, .undefined, .undefined, some [], some [], false⟩] "e1").get
          "logoRight" = .str (DEFAULT_CONFIG emptyEnv).logoRight :=
  have h := getEffectiveSettings_templateOnly emptyEnv
    [⟨"e1", .num 3, .undefined, .undefined, some [], some [], false⟩] "e1"
    ⟨"e1", .num 3, .undefined, .undefined, some [], some [], false⟩ (by decide)
  ⟨by decide, (h.1 rfl rfl rfl (Or.inr rfl) (Or.inr rfl)).1, h.2.2.2 rfl⟩

/-! ## Properties of the orchestrator -/

theorem SameDoc.docRefl (eventId userId : String) (c : Certificate) :
    SameDoc eventId userId c c := ⟨rfl, rfl, rfl, fun _ => rfl⟩

theorem SameDoc.docTrans {eventId userId : String} {c1 c2 c3 : Certificate}
    (h12 : SameDoc eventId userId c1 c2) (h23 : SameDoc eventId userId c2 c3) :
    SameDoc eventId userId c1 c3 := by
  obtain ⟨e1, u1, i1, k1⟩ := h12
  obtain ⟨e2, u2, i2, k2⟩ := h23
  refine ⟨e2.trans e1, u2.trans u1, i2.trans i1, fun hk => ?_⟩
  have h := k1 hk
  subst h
  exact k2 hk

theorem CertsStep.stepRefl (eventId userId : String) (cs : List Certificate) :
    CertsStep eventId userId cs cs := by
  induction cs with
  | nil => intro c hc; cases hc
  | cons c cs ih => exact ⟨SameDoc.docRefl _ _ c, ih⟩

theorem CertsStep.nil_left {eventId userId : String} {cs : List Certificate}
    (h : CertsStep eventId userId [] cs) : ∀ c ∈ cs, c.event = eventId ∧ c.user = userId := by
  cases cs with
  | nil => intro c hc; cases hc
  | cons d ds => exact h

theorem CertsStep.all_key {eventId userId : String} (cs2 : List Certificate) :
    ∀ cs3 : List Certificate, (∀ c ∈ cs2, c.event = eventId ∧ c.user = userId) →
      CertsStep eventId userId cs2 cs3 → ∀ c ∈ cs3, c.event = eventId ∧ c.user = userId := by
  induction cs2 with
  | nil => intro cs3 _ h; exact CertsStep.nil_left h
  | cons c2 cs2 ih =>
    intro cs3 hall h
    cases cs3 with
    | nil => intro c hc; cases hc
    | cons c3 cs3 =>
      obtain ⟨hd, htl⟩ := h
      have hc2 := hall c2 (List.mem_cons_self _ _)
      have hrest := ih cs3 (fun c hc => hall c (List.mem_cons_of_mem _ hc)) htl
      intro c hc
      rcases List.mem_cons.mp hc with rfl | hc
      · exact ⟨hd.1.trans hc2.1, hd.2.1.trans hc2.2⟩
      · exact hrest c hc

theorem CertsStep.stepTrans {eventId userId : String} {cs1 cs2 cs3 : List Certificate}
    (h12 : CertsStep eventId userId cs1 cs2) (h23 : CertsStep eventId userId cs2 cs3) :
    CertsStep eventId userId cs1 cs3 := by
  induction cs1 generalizing cs2 cs3 with
  | nil =>
    have hall3 := CertsStep.all_key cs2 cs3 (CertsStep.nil_left h12) h23
    cases cs3 with
    | nil => intro c hc; cases hc
    | cons c3 cs3 => exact hall3
  | cons c1 cs1 ih =>
    cases cs2 with
    | nil => exact absurd h12 (by simp [CertsStep])
    | cons c2 cs2 =>
      cases cs3 with
      | nil => exact absurd h23 (by simp [CertsStep])
      | cons c3 cs3 => exact ⟨h12.1.docTrans h23.1, ih h12.2 h23.2⟩

theorem CertsStep.append (eventId userId : String) (cs : List Certificate) (d : Certificate)
    (hd : d.event = eventId ∧ d.user = userId) :
    CertsStep eventId userId cs (cs ++ [d]) := by
  induction cs with
  | nil =>
    intro c hc
    simp at hc
    subst hc
    exact hd
  | cons c cs ih => exact ⟨SameDoc.docRefl _ _ c, ih⟩

theorem CertsStep.set (eventId userId : String) (cs : List Certificate) (i : Nat)
    (d : Certificate) (h : ∀ c, cs.get? i = some c → SameDoc eventId userId c d) :
    CertsStep eventId userId cs (cs.set i d) := by
  induction cs generalizing i with
  | nil => intro c hc; cases hc
  | cons c cs ih =>
    cases i with
    | zero => exact ⟨h c rfl, CertsStep.stepRefl _ _ cs⟩
    | succ i => exact ⟨SameDoc.docRefl _ _ c, ih i (fun c2 hc2 => h c2 (by simpa using hc2))⟩

theorem findCertificateFrom_all_key {eventId userId : String} (cs : List Certificate)
    (hall : ∀ c ∈ cs, c.event = eventId ∧ c.user = userId) (e u : String)
    (hne : ¬ (e = eventId ∧ u = userId)) (start : Nat) :
    findCertificateFrom e u cs start = none := by
  induction cs generalizing start with
  | nil => rfl
  | cons c cs ih =>
    have hc := hall c (List.mem_cons_self _ _)
    have hno : ¬ (c.event = e ∧ c.user = u) := fun hk =>
      hne ⟨hk.1.symm.trans hc.1, hk.2.symm.trans hc.2⟩
    simp only [findCertificateFrom, hno, if_false]
    exact ih (fun c2 hc2 => hall c2 (List.mem_cons_of_mem _ hc2)) (start + 1)

/-- Work on one pair does not change what `findOne` returns for another pair. -/
theorem CertsStep.find {eventId userId : String} {cs1 cs2 : List Certificate}
    (h : CertsStep eventId userId cs1 cs2) (e u : String)
    (hne : ¬ (e = eventId ∧ u = userId)) (start : Nat) :
    findCertificateFrom e u cs2 start = findCertificateFrom e u cs1 start := by
  induction cs1 generalizing cs2 start with
  | nil =>
    rw [findCertificateFrom_all_key cs2 (CertsStep.nil_left h) e u hne start]
    rfl
  | cons c1 cs1 ih =>
    cases cs2 with
    | nil => exact absurd h (by simp [CertsStep])
    | cons c2 cs2 =>
      obtain ⟨hd, htl⟩ := h
      by_cases hk : c1.event = eventId ∧ c1.user = userId
      · have hno1 : ¬ (c1.event = e ∧ c1.user = u) := fun hk2 =>
          hne ⟨hk2.1.symm.trans hk.1, hk2.2.symm.trans hk.2⟩
        have hno2 : ¬ (c2.event = e ∧ c2.user = u) := by
          rw [hd.1, hd.2.1]
          exact hno1
        simp only [findCertificateFrom, hno1, hno2, if_false]
        exact ih htl (start + 1)
      · have hsame := hd.2.2.2 hk
        subst hsame
        simp only [findCertificateFrom]
        rw [ih htl (start + 1)]

theorem findCertificateFrom_spec (e u : String) (cs : List Certificate) (start i : Nat)
    (c : Certificate) (h : findCertificateFrom e u cs start = some (i, c)) :
    start ≤ i ∧ cs.get? (i - start) = some c ∧ c.event = e ∧ c.user = u := by
  induction cs generalizing start with
  | nil => simp [findCertificateFrom] at h
  | cons d cs ih =>
    by_cases hk : d.event = e ∧ d.user = u
    · simp only [findCertificateFrom, hk, and_self, if_true, Option.some.injEq,
        Prod.mk.injEq] at h
      obtain ⟨rfl, rfl⟩ := h
      simp [hk]
    · simp only [findCertificateFrom, hk, if_false] at h
      obtain ⟨h1, h2, h3⟩ := ih (start + 1) h
      refine ⟨by omega, ?_, h3⟩
      have : i - start = (i - (start + 1)) + 1 := by omega
      rw [this]
      simpa using h2

theorem findCertificate_spec (e u : String) (cs : List Certificate) (i : Nat)
    (c : Certificate) (h : findCertificate cs e u = some (i, c)) :
    cs.get? i = some c ∧ c.event = e ∧ c.user = u := by
  have := findCertificateFrom_spec e u cs 0 i c h
  simpa using this.2

/-! ### The footprint of one iteration -/

theorem Touches.worldRefl (eventId userId : String) (w : World) : Touches eventId userId w w :=
  ⟨⟨[], by simp, fun c hc => by cases hc⟩, CertsStep.stepRefl _ _ _, rfl, rfl, rfl,
    fun _ hf => hf⟩

theorem Touches.worldTrans {eventId userId : String} {w1 w2 w3 : World}
    (h12 : Touches eventId userId w1 w2) (h23 : Touches eventId userId w2 w3) :
    Touches eventId userId w1 w3 := by
  obtain ⟨⟨calls1, hl1, hc1⟩, hs1, he1, hu1, ha1, hf1⟩ := h12
  obtain ⟨⟨calls2, hl2, hc2⟩, hs2, he2, hu2, ha2, hf2⟩ := h23
  refine ⟨⟨calls1 ++ calls2, by rw [hl2, hl1, List.append_assoc], ?_⟩, hs1.stepTrans hs2,
    he2.trans he1, hu2.trans hu1, ha2.trans ha1, fun f hf => hf2 f (hf1 f hf)⟩
  intro c hc
  rcases List.mem_append.mp hc with h | h
  · exact hc1 c h
  · exact hc2 c h

theorem Touches.logCall (eventId userId : String) (w : World) (c : Call)
    (hc : c.forUser = userId) : Touches eventId userId w (w.logCall c) :=
  ⟨⟨[c], rfl, fun d hd => by simp at hd; rw [hd]; exact hc⟩, CertsStep.stepRefl _ _ _, rfl, rfl,
    rfl, fun _ hf => hf⟩

theorem Touches.saveCertificate (eventId userId : String) (w : World) (i : Nat)
    (d : Certificate) (h : ∀ c, w.certificates.get? i = some c → SameDoc eventId userId c d) :
    Touches eventId userId w (w.saveCertificate i d) :=
  ⟨⟨[], by simp [World.saveCertificate], fun c hc => by cases hc⟩,
    CertsStep.set _ _ _ _ _ h, rfl, rfl, rfl, fun _ hf => hf⟩

theorem sendCertificateEmail_touches (env : Env) (w : World) (eventId userId : String)
    (recipient participantName : Option String) (eventName pdfPath : String) :
    Touches eventId userId w
        (sendCertificateEmail env w userId recipient participantName eventName pdfPath).2 ∧
      (sendCertificateEmail env w userId recipient participantName eventName
        pdfPath).2.certificates = w.certificates := by
  unfold sendCertificateEmail
  dsimp only
  split
  · have h2 : Touches eventId userId w
        ((w.logCall (.sendCertificateEmail userId recipient pdfPath)).logCall
          (.transportSend userId recipient pdfPath)) :=
      (Touches.logCall eventId userId w (.sendCertificateEmail userId recipient pdfPath)
        rfl).worldTrans (Touches.logCall eventId userId _ (.transportSend userId recipient pdfPath)
        rfl)
    split
    · exact ⟨h2, rfl⟩
    · exact ⟨h2, rfl⟩
  · exact ⟨Touches.logCall eventId userId w (.sendCertificateEmail userId recipient pdfPath)
      rfl, rfl⟩

theorem renderPdfStep_touches (env : Env) (w : World) (savePdf : Bool) (eventId : String)
    (outputDir : String) (user : User) (r : HtmlResult) :
    Touches eventId user.id w (renderPdfStep env w savePdf outputDir user r).2 ∧
      (renderPdfStep env w savePdf outputDir user r).2.certificates = w.certificates := by
  unfold renderPdfStep
  split
  · dsimp only
    split
    · exact ⟨Touches.logCall eventId user.id _ _ rfl, rfl⟩
    · refine ⟨⟨⟨[.htmlToPdf user.id (pdfPathOf outputDir r.certificateId)], rfl, ?_⟩,
        CertsStep.stepRefl _ _ _, rfl, rfl, rfl, ?_⟩, rfl⟩
      · intro c hc
        simp at hc
        rw [hc]
        rfl
      · intro f hf
        exact List.mem_append_left _ hf
  · exact ⟨Touches.worldRefl _ _ _, rfl⟩

theorem createCertificate_ok (w : World) (validationMessage : Certificate → String)
    (d : Certificate) (i : Nat) (w1 : World)
    (h : w.createCertificate validationMessage d = .ok (i, w1)) :
    i = w.certificates.length ∧ w1 = { w with certificates := w.certificates ++ [d] } := by
  unfold World.createCertificate at h
  split at h
  · cases h
  · split at h
    · cases h
    · simp only [Except.ok.injEq, Prod.mk.injEq] at h
      exact ⟨h.1.symm, h.2.symm⟩

/-- The upsert step works on the pair only, and the record it returns is stored at the
position it returns. -/
theorem upsertStep_touches (env : Env) (w : World) (eventId : String) (user : User)
    (r : HtmlResult)
    (pdfPath : String) (now : Nat) (found : Option (Nat × Certificate))
    (hfound : ∀ i c, found = some (i, c) →
      w.certificates.get? i = some c ∧ c.event = eventId ∧ c.user = user.id) :
    Touches eventId user.id w (upsertStep env w eventId user r pdfPath now found).2 ∧
      ∀ i doc, (upsertStep env w eventId user r pdfPath now found).1 = .ok (i, doc) →
        (upsertStep env w eventId user r pdfPath now found).2.certificates.get? i = some doc ∧
        doc.event = eventId ∧ doc.user = user.id := by
  unfold upsertStep
  cases found with
  | none =>
    dsimp only
    rcases hcreate : w.createCertificate _ _ with message | ⟨j, w1⟩
    · exact ⟨Touches.worldRefl _ _ _, fun i doc h => by cases h⟩
    · obtain ⟨rfl, rfl⟩ := createCertificate_ok w _ _ j w1 hcreate
      dsimp only
      refine ⟨⟨⟨[], by simp, fun c hc => by cases hc⟩,
        CertsStep.append _ _ _ _ ⟨rfl, rfl⟩, rfl, rfl, rfl, fun _ hf => hf⟩, ?_⟩
      intro i doc h
      simp only [Except.ok.injEq, Prod.mk.injEq] at h
      obtain ⟨rfl, rfl⟩ := h
      simp
  | some p =>
    obtain ⟨i, c⟩ := p
    obtain ⟨hget, hev, hus⟩ := hfound i c rfl
    dsimp only
    split
    · refine ⟨Touches.saveCertificate _ _ _ _ _ ?_, ?_⟩
      · intro c2 hc2
        rw [hget] at hc2
        cases hc2
        exact ⟨rfl, rfl, rfl, fun hk => absurd ⟨hev, hus⟩ hk⟩
      · intro j doc h
        simp only [Except.ok.injEq, Prod.mk.injEq] at h
        obtain ⟨rfl, rfl⟩ := h
        have hlt : i < w.certificates.length := by
          rcases Nat.lt_or_ge i w.certificates.length with h | h
          · exact h
          · rw [List.get?_eq_none.mpr h] at hget
            cases hget
        refine ⟨?_, hev, hus⟩
        simp [World.saveCertificate, List.getElem?_set, hlt]
    · exact ⟨Touches.worldRefl _ _ _, fun i doc h => by cases h⟩

theorem emailStep_touches (env : Env) (w : World) (opts : Options) (eventId : String)
    (event : Event) (user : User) (i : Nat) (certRecord : Certificate) (pdfPath : String)
    (now : Nat) (hget : w.certificates.get? i = some certRecord)
    (hkey : certRecord.event = eventId ∧ certRecord.user = user.id) :
    Touches eventId user.id w
      (emailStep env w opts event user i certRecord pdfPath now).2 := by
  unfold emailStep
  split
  · dsimp only
    have hs := sendCertificateEmail_touches env w eventId user.id user.email
      (if truthyString user.fullName then user.fullName
        else some (String.mk ((templateString user.firstName).data ++ [' ']
          ++ (templateString user.lastName).data))) event.title pdfPath
    split
    · rename_i u w1 heq
      rw [heq] at hs
      refine hs.1.worldTrans (Touches.saveCertificate _ _ _ _ _ ?_)
      intro c hc
      rw [hs.2, hget] at hc
      cases hc
      exact ⟨rfl, rfl, rfl, fun hk => absurd hkey hk⟩
    · rename_i message w1 heq
      rw [heq] at hs
      refine hs.1.worldTrans (Touches.saveCertificate _ _ _ _ _ ?_)
      intro c hc
      rw [hs.2, hget] at hc
      cases hc
      exact ⟨rfl, rfl, rfl, fun hk => absurd hkey hk⟩
  · exact Touches.worldRefl _ _ _

/-- One iteration for a user works on the pair `(eventId, user)` only, and the entry it
pushes carries the user's id. -/
theorem processUser_touches (env : Env) (eventId : String) (event : Event) (opts : Options)
    (outputDir : String) (w : World) (user : User) :
    Touches eventId user.id w (processUser env eventId event opts outputDir w user).1 ∧
      (processUser env eventId event opts outputDir w user).2.userId = user.id := by
  unfold processUser
  dsimp only
  split
  · exact ⟨Touches.worldRefl _ _ _, rfl⟩
  · have hlog := Touches.logCall eventId user.id w
      (.generateCertificateHTML eventId user.id) rfl
    split
    · exact ⟨hlog, rfl⟩
    · rename_i r hgen
      have hpdf := renderPdfStep_touches env
        (w.logCall (.generateCertificateHTML eventId user.id)) opts.savePdf eventId
        outputDir user r
      split
      · rename_i message w2 heq
        rw [heq] at hpdf
        exact ⟨hlog.worldTrans hpdf.1, rfl⟩
      · rename_i pdfPath w2 heq
        rw [heq] at hpdf
        have hcerts : w2.certificates = w.certificates := hpdf.2
        have hfound : ∀ i c, findCertificate w.certificates eventId user.id = some (i, c) →
            w2.certificates.get? i = some c ∧ c.event = eventId ∧ c.user = user.id := by
          intro i c h
          rw [hcerts]
          exact findCertificate_spec _ _ _ _ _ h
        have hups := upsertStep_touches env w2 eventId user r pdfPath (env.now w2)
          (findCertificate w.certificates eventId user.id) hfound
        split
        · rename_i message w3 heq2
          rw [heq2] at hups
          exact ⟨hlog.worldTrans (hpdf.1.worldTrans hups.1), rfl⟩
        · rename_i i certRecord w3 heq2
          rw [heq2] at hups
          obtain ⟨hget, hkey⟩ := hups.2 i certRecord rfl
          have hmail := emailStep_touches env w3 opts eventId event user i certRecord pdfPath
            (env.now w2) hget hkey
          exact ⟨hlog.worldTrans (hpdf.1.worldTrans (hups.1.worldTrans hmail)), rfl⟩

/-- The skip rule of the loop body: a record with `status` `sent` and no forced
regeneration leave the world as it is and push the `skipped` entry. -/
theorem processUser_skip (env : Env) (eventId : String) (event : Event) (opts : Options)
    (outputDir : String) (w : World) (user : User) (i : Nat) (c : Certificate)
    (hfound : findCertificate w.certificates eventId user.id = some (i, c))
    (hsent : c.status = .sent) (hforce : opts.forceRegenerate = false) :
    processUser env eventId event opts outputDir w user = (w, skippedEntry user.id) := by
  unfold processUser
  simp [hfound, alreadySent, hsent, hforce]

/-! ### The skip rule over a whole run -/

theorem processAttendee_none (env : Env) (eventId : String) (event : Event) (opts : Options)
    (outputDir : String) (st : World × List ResultEntry) :
    processAttendee env eventId event opts outputDir st none = st := rfl

theorem processAttendee_some (env : Env) (eventId : String) (event : Event) (opts : Options)
    (outputDir : String) (st : World × List ResultEntry) (u : User) :
    processAttendee env eventId event opts outputDir st (some u)
      = ((processUser env eventId event opts outputDir st.1 u).1,
          st.2 ++ [(processUser env eventId event opts outputDir st.1 u).2]) := rfl

/-- The loop, started in a world where the user's record has `status` `sent`, without
forced regeneration: the record stays where and as it is, no call is made for the
user, and every entry pushed for the user is the `skipped` entry, one per attendance
of the user. -/
theorem attendeeLoop_skip (env : Env) (eventId : String) (event : Event) (opts : Options)
    (outputDir : String) (userId : String) (i : Nat) (c : Certificate)
    (hsent : c.status = .sent) (hforce : opts.forceRegenerate = false)
    (atts : List (Option User)) (w : World) (acc : List ResultEntry)
    (hfound : findCertificate w.certificates eventId userId = some (i, c)) :
    findCertificate
        (atts.foldl (processAttendee env eventId event opts outputDir) (w, acc)).1.certificates
        eventId userId = some (i, c) ∧
      (∃ calls,
        (atts.foldl (processAttendee env eventId event opts outputDir) (w, acc)).1.log
          = w.log ++ calls ∧ ∀ call ∈ calls, call.forUser ≠ userId) ∧
      ∃ entries,
        (atts.foldl (processAttendee env eventId event opts outputDir) (w, acc)).2
          = acc ++ entries ∧
        (∀ e ∈ entries, e.userId = userId → e = skippedEntry userId) ∧
        ∀ u, some u ∈ atts → u.id = userId → skippedEntry userId ∈ entries := by
  induction atts generalizing w acc with
  | nil =>
    exact ⟨hfound, ⟨[], (by simp), fun _ h => absurd h (List.not_mem_nil _)⟩, [], (by simp),
      fun _ h => absurd h (List.not_mem_nil _), fun _ h => absurd h (List.not_mem_nil _)⟩
  | cons a atts ih =>
    cases a with
    | none =>
      rw [List.foldl_cons, processAttendee_none]
      obtain ⟨h1, h2, entries, h3, h4, h5⟩ := ih w acc hfound
      refine ⟨h1, h2, entries, h3, h4, ?_⟩
      intro u hu hid
      rcases List.mem_cons.mp hu with h | h
      · cases h
      · exact h5 u h hid
    | some u =>
      rw [List.foldl_cons, processAttendee_some]
      by_cases hid : u.id = userId
      · have hstep : processUser env eventId event opts outputDir w u
            = (w, skippedEntry u.id) :=
          processUser_skip env eventId event opts outputDir w u i c (by rw [hid]; exact hfound)
            hsent hforce
        rw [hstep]
        obtain ⟨h1, h2, entries, h3, h4, h5⟩ := ih w (acc ++ [skippedEntry u.id]) hfound
        refine ⟨h1, h2, skippedEntry u.id :: entries, by rw [h3]; simp, ?_, ?_⟩
        · intro e he heid
          rcases List.mem_cons.mp he with h | h
          · rw [h, hid]
          · exact h4 e h heid
        · intro u2 _ _
          rw [← hid]
          exact List.mem_cons_self _ _
      · obtain ⟨htouch, hentry⟩ := processUser_touches env eventId event opts outputDir w u
        obtain ⟨⟨calls1, hlog1, hcalls1⟩, hstep, _⟩ := htouch
        have hfound1 : findCertificate
            (processUser env eventId event opts outputDir w u).1.certificates eventId userId
              = some (i, c) := by
          unfold findCertificate
          rw [hstep.find eventId userId (fun h => hid h.2.symm) 0]
          exact hfound
        obtain ⟨h1, ⟨calls2, hlog2, hcalls2⟩, entries, h3, h4, h5⟩ :=
          ih (processUser env eventId event opts outputDir w u).1
            (acc ++ [(processUser env eventId event opts outputDir w u).2]) hfound1
        refine ⟨h1, ⟨calls1 ++ calls2, by rw [hlog2, hlog1, List.append_assoc], ?_⟩,
          (processUser env eventId event opts outputDir w u).2 :: entries,
          by rw [h3]; simp, ?_, ?_⟩
        · intro call hcall
          rcases List.mem_append.mp hcall with h | h
          · rw [hcalls1 call h]
            exact hid
          · exact hcalls2 call h
        · intro e he heid
          rcases List.mem_cons.mp he with h | h
          · rw [h, hentry] at heid
            exact absurd heid hid
          · exact h4 e h heid
        · intro u2 hu2 hid2
          rcases List.mem_cons.mp hu2 with h | h
          · cases h
            exact absurd hid2 hid
          · exact List.mem_cons_of_mem _ (h5 u2 h hid2)

/-- A run for an existing event with present attendances: the loop, then the update of
the event. -/
theorem generateCertificatesForEvent_run (env : Env) (w : World) (eventId : String)
    (opts : Options) (event : Event) (hevent : findEvent w.events eventId = some event)
    (hne : ¬ (presentAttendees w eventId).length = 0) :
    generateCertificatesForEvent env w eventId opts
      = (.ok ⟨true, none, some (presentAttendees w eventId).length,
          ((presentAttendees w eventId).foldl
            (processAttendee env eventId event opts (outputDirOf eventId)) (w, [])).2⟩,
        (((presentAttendees w eventId).foldl
            (processAttendee env eventId event opts (outputDirOf eventId)) (w, [])).1
          ).markCertificatesSent eventId
          (env.now ((presentAttendees w eventId).foldl
            (processAttendee env eventId event opts (outputDirOf eventId)) (w, [])).1)) := by
  unfold generateCertificatesForEvent
  simp only [hevent, hne, if_false]

/-! ### Partial failure of the mail dispatch -/

theorem alreadySent_false (found : Option (Nat × Certificate)) (force : Bool)
    (h : force = true ∨ ∀ i c, found = some (i, c) → c.status ≠ .sent) :
    alreadySent found force = false := by
  cases found with
  | none => rfl
  | some p =>
    obtain ⟨i, c⟩ := p
    rcases h with h | h
    · simp [alreadySent, h]
    · have := h i c rfl
      simp [alreadySent, this]

theorem pdfPathOf_ne_empty (outputDir certificateId : String) :
    (pdfPathOf outputDir certificateId).data ≠ [] := by
  simp [pdfPathOf]

theorem createCertificate_fresh (w : World) (validationMessage : Certificate → String)
    (d : Certificate) (hvalid : d.valid = true)
    (h : ∀ c ∈ w.certificates, c.certificateId ≠ d.certificateId) :
    w.createCertificate validationMessage d
      = .ok (w.certificates.length, { w with certificates := w.certificates ++ [d] }) := by
  unfold World.createCertificate
  have hany : (w.certificates.any fun c => c.certificateId == d.certificateId) = false := by
    rw [List.any_eq_false]
    intro c hc
    simpa using h c hc
  simp [hany, hvalid]

/-- The dispatch of the mail when the attachment is on disk: the outcome is that of the
transport. -/
theorem sendCertificateEmail_attached (env : Env) (w : World) (forUser : String)
    (recipient participantName : Option String) (eventName pdfPath : String)
    (hpath : pdfPath.data ≠ []) (hfile : pdfPath ∈ w.files) :
    (sendCertificateEmail env w forUser recipient participantName eventName pdfPath).1
      = match env.sendMail (w.logCall (.sendCertificateEmail forUser recipient pdfPath))
          recipient participantName eventName pdfPath with
        | some message => .error message
        | none => .ok () := by
  unfold sendCertificateEmail
  have hfile2 : pdfPath ∈ (w.logCall (.sendCertificateEmail forUser recipient pdfPath)).files :=
    hfile
  simp only [hpath, hfile2, ne_eq, not_false_eq_true, and_self, if_true]
  split <;> rfl

/-- One iteration for a user who is not skipped, when HTML generation succeeds with a
template id that the schema accepts and, for a user without record, with a non-empty
certificate id that no record has, rendering succeeds, and mails are sent with saved
PDFs: the entry is `failed` when the transport throws for the user and `success`
otherwise. -/
theorem processUser_dispatch (env : Env) (eventId : String) (event : Event) (opts : Options)
    (outputDir : String) (w : World) (user : User) (throws : Bool) (r : HtmlResult)
    (hsend : opts.sendEmail = true) (hsave : opts.savePdf = true)
    (hemail : truthyString user.email = true)
    (hnoskip : alreadySent (findCertificate w.certificates eventId user.id)
      opts.forceRegenerate = false)
    (hr : env.generateCertificateHTML w eventId user event = .ok r)
    (hvalid : validTemplateId r.templateId = true)
    (hnew : findCertificate w.certificates eventId user.id = none →
      r.certificateId.data ≠ [] ∧ ∀ d ∈ w.certificates, d.certificateId ≠ r.certificateId)
    (hpdf : ∀ w2 html path, env.htmlToPdf w2 html path = none)
    (hmail : ∀ w2 name title path,
      (env.sendMail w2 user.email name title path).isSome = throws) :
    (processUser env eventId event opts outputDir w user).2
      = doneEntry user (if throws then .failed else .sent) := by
  unfold processUser
  simp only [hnoskip, hr, Bool.false_eq_true, if_false]
  have hrender : renderPdfStep env (w.logCall (.generateCertificateHTML eventId user.id))
      opts.savePdf outputDir user r
      = (.ok (pdfPathOf outputDir r.certificateId),
          { (w.logCall (.generateCertificateHTML eventId user.id)).logCall
              (.htmlToPdf user.id (pdfPathOf outputDir r.certificateId)) with
            files := w.files ++ [pdfPathOf outputDir r.certificateId] }) := by
    unfold renderPdfStep
    simp only [hsave, if_true, hpdf]
    rfl
  rw [hrender]
  dsimp only
  -- the upsert step succeeds
  have hups : ∀ w2 : World, w2.certificates = w.certificates →
      ∃ i doc w3, upsertStep env w2 eventId user r (pdfPathOf outputDir r.certificateId)
          (env.now w2) (findCertificate w.certificates eventId user.id) = (.ok (i, doc), w3) ∧
        w3.files = w2.files := by
    intro w2 hw2
    unfold upsertStep
    rcases hfound : findCertificate w.certificates eventId user.id with _ | p
    · obtain ⟨hid, hfresh⟩ := hnew hfound
      dsimp only
      rw [createCertificate_fresh w2 _ _ (by simp [Certificate.valid, hid, hvalid])
        (by rw [hw2]; exact hfresh)]
      exact ⟨_, _, _, rfl, rfl⟩
    · dsimp only
      rw [if_pos hvalid]
      exact ⟨_, _, _, rfl, rfl⟩
  obtain ⟨i, doc, w3, hw3, hfiles⟩ := hups
    { (w.logCall (.generateCertificateHTML eventId user.id)).logCall
        (.htmlToPdf user.id (pdfPathOf outputDir r.certificateId)) with
      files := w.files ++ [pdfPathOf outputDir r.certificateId] } rfl
  rw [hw3]
  dsimp only
  -- the mail step
  have hfile : pdfPathOf outputDir r.certificateId ∈ w3.files := by
    rw [hfiles]
    exact List.mem_append_right _ (List.mem_singleton_self _)
  unfold emailStep
  simp only [hsend, hemail, and_self, if_true]
  generalize (if truthyString user.fullName then user.fullName
      else some (String.mk ((templateString user.firstName).data ++ [' ']
        ++ (templateString user.lastName).data))) = pname
  have hsent := sendCertificateEmail_attached env w3 user.id user.email pname event.title
    (pdfPathOf outputDir r.certificateId) (pdfPathOf_ne_empty _ _) hfile
  have hm := hmail (w3.logCall (.sendCertificateEmail user.id user.email
    (pdfPathOf outputDir r.certificateId))) pname event.title
    (pdfPathOf outputDir r.certificateId)
  rcases hs : sendCertificateEmail env w3 user.id user.email pname event.title
    (pdfPathOf outputDir r.certificateId) with ⟨res, w4⟩
  rw [hs] at hsent
  dsimp only at hsent
  cases hmm : env.sendMail (w3.logCall (.sendCertificateEmail user.id user.email
    (pdfPathOf outputDir r.certificateId))) user.email pname event.title
    (pdfPathOf outputDir r.certificateId) with
  | none =>
    rw [hmm] at hsent hm
    subst hsent
    have ht : throws = false := by simpa using hm.symm
    simp [ht]
  | some message =>
    rw [hmm] at hsent hm
    subst hsent
    have ht : throws = true := by simpa using hm.symm
    simp [ht]

/-- The world left by the loop does not depend on the entries collected so far. -/
theorem attendeeLoop_world (env : Env) (eventId : String) (event : Event) (opts : Options)
    (outputDir : String) (atts : List (Option User)) (w : World) (acc : List ResultEntry) :
    (atts.foldl (processAttendee env eventId event opts outputDir) (w, acc)).1
      = (atts.foldl (processAttendee env eventId event opts outputDir) (w, [])).1 := by
  induction atts generalizing w acc with
  | nil => rfl
  | cons a atts ih =>
    rw [List.foldl_cons, List.foldl_cons]
    cases a with
    | none =>
      rw [processAttendee_none, processAttendee_none]
      exact ih w acc
    | some u =>
      rw [processAttendee_some, processAttendee_some]
      rw [ih _ (acc ++ _), ih _ ([] ++ _)]

/-- The turn of the attendee at position `k + 1` in a loop is the turn of the attendee
at position `k` in the loop over the rest, started after the first iteration. -/
theorem worldAtTurn_succ (env : Env) (eventId : String) (event : Event) (opts : Options)
    (outputDir : String) (w : World) (u : User) (atts : List (Option User)) (k : Nat) :
    worldAtTurn env eventId event opts outputDir w (some u :: atts) (k + 1)
      = worldAtTurn env eventId event opts outputDir
          (processUser env eventId event opts outputDir w u).1 atts k := by
  unfold worldAtTurn
  rw [List.take_succ_cons, List.foldl_cons, processAttendee_some, attendeeLoop_world]
/-- The loop over attendees who all resolve, under the conditions of
`processUser_dispatch` for each of them at the turn of each: one entry per attendee, in
order, `failed` exactly for those whose dispatch throws; the events are not touched. -/
theorem attendeeLoop_dispatch (env : Env) (eventId : String) (event : Event) (opts : Options)
    (outputDir : String) (throws : User → Bool)
    (hsend : opts.sendEmail = true) (hsave : opts.savePdf = true)
    (hpdf : ∀ w2 html path, env.htmlToPdf w2 html path = none)
    (users : List User) (w : World) (acc : List ResultEntry)
    (hnodup : (users.map (fun u => u.id)).Nodup)
    (hnoskip : opts.forceRegenerate = true ∨ ∀ u ∈ users, ∀ i c,
      findCertificate w.certificates eventId u.id = some (i, c) → c.status ≠ .sent)
    (hemail : ∀ u ∈ users, truthyString u.email = true)
    (hgen : ∀ k u, users.get? k = some u →
      ∃ r, env.generateCertificateHTML
          (worldAtTurn env eventId event opts outputDir w (users.map some) k) eventId u event
          = .ok r ∧
        validTemplateId r.templateId = true ∧
        (findCertificate
            (worldAtTurn env eventId event opts outputDir w (users.map some) k).certificates
            eventId u.id = none →
          r.certificateId.data ≠ [] ∧
          ∀ d ∈ (worldAtTurn env eventId event opts outputDir w (users.map some)
            k).certificates, d.certificateId ≠ r.certificateId))
    (hmail : ∀ u ∈ users, ∀ w2 name title path,
      (env.sendMail w2 u.email name title path).isSome = throws u) :
    ((users.map some).foldl (processAttendee env eventId event opts outputDir) (w, acc)).2
        = acc ++ users.map (fun u => doneEntry u (if throws u then .failed else .sent)) ∧
      ((users.map some).foldl (processAttendee env eventId event opts outputDir)
        (w, acc)).1.events = w.events := by
  induction users generalizing w acc with
  | nil => simp
  | cons u us ih =>
    rw [List.map_cons, List.foldl_cons, processAttendee_some]
    have hmem : u ∈ u :: us := List.mem_cons_self _ _
    have hskip : alreadySent (findCertificate w.certificates eventId u.id)
        opts.forceRegenerate = false := by
      apply alreadySent_false
      rcases hnoskip with h | h
      · exact Or.inl h
      · exact Or.inr (h u hmem)
    obtain ⟨r, hr, hvalid, hnew⟩ := hgen 0 u rfl
    have hentry := processUser_dispatch env eventId event opts outputDir w u (throws u) r
      hsend hsave (hemail u hmem) hskip hr hvalid hnew hpdf (hmail u hmem)
    obtain ⟨⟨_, hstep, hevents, _⟩, _⟩ :=
      processUser_touches env eventId event opts outputDir w u
    rw [List.map_cons, List.nodup_cons] at hnodup
    have hnoskip2 : opts.forceRegenerate = true ∨ ∀ u2 ∈ us, ∀ i c,
        findCertificate (processUser env eventId event opts outputDir w u).1.certificates
          eventId u2.id = some (i, c) → c.status ≠ .sent := by
      rcases hnoskip with h | h
      · exact Or.inl h
      · refine Or.inr (fun u2 hu2 i c hf => h u2 (List.mem_cons_of_mem _ hu2) i c ?_)
        have hne : ¬ (eventId = eventId ∧ u2.id = u.id) := by
          rintro ⟨_, hid⟩
          exact hnodup.1 (hid ▸ List.mem_map_of_mem (fun u => u.id) hu2)
        unfold findCertificate at hf ⊢
        rw [← hstep.find eventId u2.id hne 0]
        exact hf
    obtain ⟨h1, h2⟩ := ih (processUser env eventId event opts outputDir w u).1
      (acc ++ [(processUser env eventId event opts outputDir w u).2]) hnodup.2 hnoskip2
      (fun u2 hu2 => hemail u2 (List.mem_cons_of_mem _ hu2))
      (fun k u2 hk => by
        have := hgen (k + 1) u2 hk
        rw [List.map_cons, worldAtTurn_succ] at this
        exact this)
      (fun u2 hu2 => hmail u2 (List.mem_cons_of_mem _ hu2))
    refine ⟨?_, h2.trans hevents⟩
    rw [h1, hentry]
    simp

theorem find_map_markSent (events : List Event) (eventId : String) (now : Nat)
    (event : Event) (h : events.find? (fun e => e.id == eventId) = some event) :
    (events.map (fun e =>
        if e.id = eventId then
          { e with certificatesSent := true, certificatesSentAt := some now }
        else e)).find? (fun e => e.id == eventId)
      = some { event with certificatesSent := true, certificatesSentAt := some now } := by
  induction events with
  | nil => cases h
  | cons e es ih =>
    by_cases he : e.id = eventId
    · have hb : (e.id == eventId) = true := by simpa using he
      rw [List.find?_cons, hb] at h
      cases h
      rw [List.map_cons, List.find?_cons]
      simp [he]
    · have hb : (e.id == eventId) = false := by simpa using he
      rw [List.find?_cons, hb] at h
      rw [List.map_cons, List.find?_cons]
      simp only [he, if_false, hb]
      exact ih h

theorem findEvent_markCertificatesSent (w : World) (eventId : String) (now : Nat)
    (event : Event) (h : findEvent w.events eventId = some event) :
    findEvent (w.markCertificatesSent eventId now).events eventId
      = some { event with certificatesSent := true, certificatesSentAt := some now } :=
  find_map_markSent w.events eventId now event h

theorem countP_doneEntry_failed (throws : User → Bool) (users : List User) :
    ((users.map (fun u => doneEntry u (if throws u then .failed else .sent))).countP
        (fun e => e.status == .failed)) = users.countP throws := by
  rw [List.countP_map]
  congr 1
  funext u
  cases h : throws u <;> simp [doneEntry, h]

theorem countP_doneEntry_success (throws : User → Bool) (users : List User) :
    ((users.map (fun u => doneEntry u (if throws u then .failed else .sent))).countP
        (fun e => e.status == .success)) = users.countP (fun u => !throws u) := by
  rw [List.countP_map]
  congr 1
  funext u
  cases h : throws u <;> simp [doneEntry, h]

/-- C4, as stated, fails: an attendee whose record already has `status` `sent` is skipped
when regeneration is not forced, so with no dispatch throwing the entries are not all
`success`: here the first of three attendees gets `skipped`. -/
theorem generateCertificatesForEvent_partial_counterexample :
    (generateCertificatesForEvent (exampleEnv [])
        (exampleWorld [exampleCertificate "u1" .sent .sent 0]) "e1"
        { sendEmail := true, savePdf := true }).1
      = .ok ⟨true, none, some 3,
          [⟨"u1", none, .skipped, none, some "Already sent"⟩,
            ⟨"u2", some "Bob Ray", .success, some .sent, none⟩,
            ⟨"u3", some "Cy Moss", .success, some .sent, none⟩]⟩ := by
  rfl

/-- C4, amended: let the event exist and its present attendances resolve to the users
`users`, pairwise distinct and each with an e-mail address; let `sendEmail` and `savePdf`
be set; let no attendee be skipped (regeneration is forced, or no attendee has a record
with `status` `sent`); at the turn of each attendee let HTML generation succeed with a
template id that the Certificate schema accepts (from 1 to 7) and, when the attendee has
no record, with a non-empty certificate id that no record has at that time; and let
rendering succeed. Then, whichever attendees' mail dispatch throws, the run returns
normally with exactly one entry per attendee, in order, `failed` for exactly the
attendees whose dispatch threw and `success` for the others, and the event's
`certificatesSent` flag is true afterwards. -/
theorem generateCertificatesForEvent_partialFailure (env : Env) (w : World)
    (eventId : String) (opts : Options) (event : Event) (users : List User)
    (throws : User → Bool)
    (hevent : findEvent w.events eventId = some event)
    (hatt : presentAttendees w eventId = users.map some) (hne : users ≠ [])
    (hemail : ∀ u ∈ users, truthyString u.email = true)
    (hsend : opts.sendEmail = true) (hsave : opts.savePdf = true)
    (hnodup : (users.map (fun u => u.id)).Nodup)
    (hnoskip : opts.forceRegenerate = true ∨ ∀ u ∈ users, ∀ i c,
      findCertificate w.certificates eventId u.id = some (i, c) → c.status ≠ .sent)
    (hgen : ∀ k u, users.get? k = some u →
      ∃ r, env.generateCertificateHTML
          (worldAtTurn env eventId event opts (outputDirOf eventId) w (users.map some) k)
          eventId u event = .ok r ∧
        validTemplateId r.templateId = true ∧
        (findCertificate
            (worldAtTurn env eventId event opts (outputDirOf eventId) w (users.map some)
              k).certificates eventId u.id = none →
          r.certificateId.data ≠ [] ∧
          ∀ d ∈ (worldAtTurn env eventId event opts (outputDirOf eventId) w
            (users.map some) k).certificates, d.certificateId ≠ r.certificateId))
    (hpdf : ∀ w2 html path, env.htmlToPdf w2 html path = none)
    (hmail : ∀ u ∈ users, ∀ w2 name title path,
      (env.sendMail w2 u.email name title path).isSome = throws u) :
    ∃ r w2, generateCertificatesForEvent env w eventId opts = (.ok r, w2) ∧
      r.success = true ∧
      r.results.length = users.length ∧
      r.results.map (fun e => e.userId) = users.map (fun u => u.id) ∧
      r.results.map (fun e => e.status)
        = users.map (fun u => if throws u then .failed else .success) ∧
      r.results.countP (fun e => e.status == .failed) = users.countP throws ∧
      r.results.countP (fun e => e.status == .success) = users.countP (fun u => !throws u) ∧
      ∃ e, findEvent w2.events eventId = some e ∧ e.certificatesSent = true := by
  have hlen : ¬ (presentAttendees w eventId).length = 0 := by
    rw [hatt, List.length_map]
    intro h
    exact hne (List.length_eq_zero.mp h)
  have hrun := generateCertificatesForEvent_run env w eventId opts event hevent hlen
  obtain ⟨h1, h2⟩ := attendeeLoop_dispatch env eventId event opts (outputDirOf eventId)
    throws hsend hsave hpdf users w [] hnodup hnoskip hemail hgen hmail
  rw [hatt] at hrun
  rw [h1] at hrun
  refine ⟨_, _, hrun, rfl, by simp, ?_, ?_, ?_, ?_, ?_⟩
  · simp only [List.nil_append, List.map_map]
    apply List.map_congr_left
    intro u _
    rfl
  · simp only [List.nil_append, List.map_map]
    apply List.map_congr_left
    intro u _
    cases h : throws u <;> simp [doneEntry, h]
  · simp only [List.nil_append]
    exact countP_doneEntry_failed throws users
  · simp only [List.nil_append]
    exact countP_doneEntry_success throws users
  · have hev : findEvent ((users.map some).foldl
        (processAttendee env eventId event opts (outputDirOf eventId)) (w, [])).1.events
        eventId = some event := by
      rw [h2]
      exact hevent
    exact ⟨_, findEvent_markCertificatesSent _ eventId _ event hev, rfl⟩

/-- C4, amended, for three attendees of whom only the second has a failing dispatch, with
certificate ids from a bounded supply: the run returns one `failed` and two `success`
entries and sets the flag of the event. -/
theorem generateCertificatesForEvent_partialFailure_witness :
    ∃ r w2,
      generateCertificatesForEvent (perUserEnv ["bob@example.org"]) (exampleWorld []) "e1" {}
        = (.ok r, w2) ∧
      r.results.map (fun e => e.userId) = ["u1", "u2", "u3"] ∧
      r.results.map (fun e => e.status) = [.success, .failed, .success] ∧
      r.results.countP (fun e => e.status == .failed) = 1 ∧
      r.results.countP (fun e => e.status == .success) = 2 ∧
      ∃ e, findEvent w2.events "e1" = some e ∧ e.certificatesSent = true := by
  obtain ⟨r, w2, hrun, _, _, hids, hstatus, hfailed, hsuccess, hflag⟩ :=
    generateCertificatesForEvent_partialFailure (perUserEnv ["bob@example.org"])
      (exampleWorld []) "e1" {} ⟨"e1", "Summit", 1, true, false, none⟩ exampleUsers
      (fun u => u.id == "u2") (by decide) (by decide) (by decide) (by decide) rfl rfl
      (by decide) (Or.inr (fun u _ i c h => by cases h))
      (by
        intro k u hk
        match k, hk with
        | 0, hk =>
          cases hk
          exact ⟨_, rfl, by decide, fun _ => ⟨by decide, by decide⟩⟩
        | 1, hk =>
          cases hk
          exact ⟨_, rfl, by decide, fun _ => ⟨by decide, by decide⟩⟩
        | 2, hk =>
          cases hk
          exact ⟨_, rfl, by decide, fun _ => ⟨by decide, by decide⟩⟩
        | k + 3, hk => cases hk)
      (fun _ _ _ => rfl)
      (by
        intro u hu w2 name title path
        simp only [exampleUsers, List.mem_cons, List.mem_singleton, List.not_mem_nil,
          or_false] at hu
        rcases hu with rfl | rfl | rfl <;> rfl)
  exact ⟨r, w2, hrun, hids, hstatus, hfailed, hsuccess, hflag⟩

/-- A template id of 7.5, which `loadTemplate` reads as 7, is rejected by the Certificate
schema: the iteration for the attendee ends in the `catch` block after rendering, the
entry is `failed` with the message of the validation error, no record is written and no
mail is dispatched. -/
theorem processUser_rejectedTemplate :
    processUser
        { exampleEnv [] with
          generateCertificateHTML := fun _ _ _ _ => .ok ⟨"<html></html>", "CERT-1", Rat.divInt 15 2⟩ }
        "e1" ⟨"e1", "Summit", 1, true, false, none⟩ {} "generated_certificates/e1"
        (exampleWorld []) ⟨"u1", some "ann@example.org", some "Ann Lee", none, none⟩
      = ({ exampleWorld [] with
            files := ["generated_certificates/e1/CERT-1.pdf"],
            log := [.generateCertificateHTML "e1" "u1",
              .htmlToPdf "u1" "generated_certificates/e1/CERT-1.pdf"] },
          ⟨"u1", none, .failed, none, some "Certificate validation failed"⟩) := by
  rfl

theorem failedCertificatesFrom_spec (users : List User) (eventId : String)
    (certs : List Certificate) (start : Nat) :
    ∀ it ∈ failedCertificatesFrom users eventId certs start,
      start ≤ it.1 ∧ certs.get? (it.1 - start) = some it.2.1 ∧
        isResendCandidate eventId it.2.1 = true ∧ it.2.2 = findUser users it.2.1.user := by
  induction certs generalizing start with
  | nil => intro it h; cases h
  | cons c rest ih =>
    intro it h
    have hrest : ∀ it2 ∈ failedCertificatesFrom users eventId rest (start + 1),
        start ≤ it2.1 ∧ (c :: rest).get? (it2.1 - start) = some it2.2.1 ∧
          isResendCandidate eventId it2.2.1 = true ∧
          it2.2.2 = findUser users it2.2.1.user := by
      intro it2 h2
      obtain ⟨h1, h3, h4, h5⟩ := ih (start + 1) it2 h2
      refine ⟨by omega, ?_, h4, h5⟩
      have : it2.1 - start = (it2.1 - (start + 1)) + 1 := by omega
      rw [this]
      simpa using h3
    by_cases hc : isResendCandidate eventId c = true
    · simp only [failedCertificatesFrom, hc, if_true, List.mem_cons] at h
      rcases h with h | h
      · subst h
        simp [hc]
      · exact hrest it h
    · simp only [failedCertificatesFrom, hc, if_false] at h
      exact hrest it h

theorem resendAttempt_certificates (env : Env) (w : World) (event : Option Event)
    (cert : Certificate) (user : Option User) :
    (resendAttempt env w event cert user).2.certificates = w.certificates := by
  unfold resendAttempt
  cases user with
  | none => rfl
  | some u =>
    cases event with
    | none => rfl
    | some e => exact (sendCertificateEmail_touches env w e.id u.id _ _ _ _).2

/-- The loop of `resendFailedCertificates` writes only at the positions of the documents
it is given. -/
theorem resendLoop_frame (env : Env) (event : Option Event)
    (items : List (Nat × Certificate × Option User)) (w : World) (results : List ResultEntry)
    (j : Nat) (hj : ∀ it ∈ items, it.1 ≠ j) :
    (resendLoop env event w results items).2.certificates.get? j = w.certificates.get? j := by
  induction items generalizing w results with
  | nil => rfl
  | cons it rest ih =>
    obtain ⟨i, cert, user⟩ := it
    have hij : i ≠ j := hj (i, cert, user) (List.mem_cons_self _ _)
    have hrest : ∀ it ∈ rest, it.1 ≠ j := fun it h => hj it (List.mem_cons_of_mem _ h)
    have hatt := resendAttempt_certificates env w event cert user
    have hset : ∀ (w1 : World) (d : Certificate), w1.certificates = w.certificates →
        (w1.saveCertificate i d).certificates.get? j = w.certificates.get? j := by
      intro w1 d h1
      simp [World.saveCertificate, h1, List.getElem?_set_ne hij]
    unfold resendLoop
    rcases hres : resendAttempt env w event cert user with ⟨res, w1⟩
    rw [hres] at hatt
    cases res with
    | error message =>
      cases user with
      | none => exact hset w1 _ hatt
      | some u =>
        dsimp only
        rw [ih _ _ hrest]
        exact hset w1 _ hatt
    | ok v =>
      cases user with
      | none => exact hset w1 _ hatt
      | some u =>
        dsimp only
        rw [ih _ _ hrest]
        exact hset w1 _ hatt

/-- What holds of `resendFailedCertificates` on every input, also when it throws: a
certificate that is not a candidate of the query (another event, a `deliveryStatus`
other than `failed`, or three retries or more) is left unchanged. -/
theorem resendFailedCertificates_others_unchanged (env : Env) (w : World) (eventId : String)
    (j : Nat) (c : Certificate) (hget : w.certificates.get? j = some c)
    (hc : isResendCandidate eventId c = false) :
    (resendFailedCertificates env w eventId).2.certificates.get? j = some c := by
  have hj : ∀ it ∈ failedCertificatesFrom w.users eventId w.certificates 0, it.1 ≠ j := by
    intro it hit hij
    obtain ⟨_, h2, h3, _⟩ := failedCertificatesFrom_spec w.users eventId w.certificates 0 it hit
    rw [hij, Nat.sub_zero, hget] at h2
    cases h2
    rw [hc] at h3
    cases h3
  have hframe := resendLoop_frame env (findEvent w.events eventId)
    (failedCertificatesFrom w.users eventId w.certificates 0) w [] j hj
  unfold resendFailedCertificates
  dsimp only
  rcases hloop : resendLoop env (findEvent w.events eventId) w []
    (failedCertificatesFrom w.users eventId w.certificates 0) with ⟨res, w1⟩
  rw [hloop] at hframe
  cases res with
  | error message => exact hframe.trans hget
  | ok results => exact hframe.trans hget

/-- When the user of every document it is given resolves, the loop of
`resendFailedCertificates` returns, with one entry per document, in order. -/
theorem resendLoop_resolved (env : Env) (event : Option Event)
    (items : List (Nat × Certificate × Option User)) (w : World) (results : List ResultEntry)
    (hres : ∀ it ∈ items, ∃ u, it.2.2 = some u) :
    ∃ out, (resendLoop env event w results items).1 = .ok out ∧
      out.map (fun e => e.userId)
        = results.map (fun e => e.userId)
          ++ items.filterMap (fun it => it.2.2.map (fun u => u.id)) ∧
      out.length = results.length + items.length := by
  induction items generalizing w results with
  | nil => exact ⟨results, rfl, by simp, by simp⟩
  | cons it rest ih =>
    obtain ⟨i, cert, user⟩ := it
    obtain ⟨u, hu⟩ := hres (i, cert, user) (List.mem_cons_self _ _)
    dsimp only at hu
    subst hu
    have hrest : ∀ it ∈ rest, ∃ u, it.2.2 = some u :=
      fun it h => hres it (List.mem_cons_of_mem _ h)
    unfold resendLoop
    rcases hatt : resendAttempt env w event cert (some u) with ⟨res, w1⟩
    cases res with
    | error message =>
      dsimp only
      obtain ⟨out, h1, h2, h3⟩ := ih (w1.saveCertificate i _)
        (results ++ [⟨u.id, none, .failed, none, some message⟩]) hrest
      exact ⟨out, h1, by rw [h2]; simp, by rw [h3]; simp; omega⟩
    | ok v =>
      dsimp only
      obtain ⟨out, h1, h2, h3⟩ := ih (w1.saveCertificate i _)
        (results ++ [⟨u.id, none, .success, none, none⟩]) hrest
      exact ⟨out, h1, by rw [h2]; simp, by rw [h3]; simp; omega⟩

/-- When the user of every candidate resolves, `resendFailedCertificates` returns
normally, and its results hold exactly one entry per candidate of the query, in
order. -/
theorem resendFailedCertificates_resolved (env : Env) (w : World) (eventId : String)
    (hres : ∀ it ∈ failedCertificatesFrom w.users eventId w.certificates 0,
      ∃ u, it.2.2 = some u) :
    ∃ r, (resendFailedCertificates env w eventId).1 = .ok r ∧
      r.total = (failedCertificatesFrom w.users eventId w.certificates 0).length ∧
      r.results.length = (failedCertificatesFrom w.users eventId w.certificates 0).length ∧
      r.results.map (fun e => e.userId)
        = (failedCertificatesFrom w.users eventId w.certificates 0).filterMap
            (fun it => it.2.2.map (fun u => u.id)) := by
  obtain ⟨out, h1, h2, h3⟩ := resendLoop_resolved env (findEvent w.events eventId)
    (failedCertificatesFrom w.users eventId w.certificates 0) w [] hres
  unfold resendFailedCertificates
  dsimp only
  rcases hloop : resendLoop env (findEvent w.events eventId) w []
    (failedCertificatesFrom w.users eventId w.certificates 0) with ⟨res, w1⟩
  rw [hloop] at h1
  dsimp only at h1
  subst h1
  exact ⟨_, rfl, rfl, by simpa using h3, by simpa using h2⟩

/-! ### Resending failed certificates -/

/-- C5: the code at a failing input. Two certificates of the event are candidates
(`deliveryStatus` `failed`, retry counts 0 and 1); the user of the first no longer
exists. The `try` block throws on `cert.user.email`, the `catch` block records the
attempt and then throws itself on `cert.user._id`: the call fails with that
`TypeError`, and the second candidate is never attempted (it is unchanged and no mail
call is logged). -/
theorem resendFailedCertificates_missingUser :
    resendFailedCertificates (exampleEnv [])
        { exampleWorld [exampleCertificate "u9" .generated .failed 0,
            exampleCertificate "u2" .generated .failed 1] with
          files := ["generated_certificates/e1/CERT-20240212-01-u2.pdf"] }
        "e1"
      = (.error "Cannot read properties of null (reading '_id')",
          { exampleWorld [{ exampleCertificate "u9" .generated .failed 1 with
              lastAttemptAt := some 0,
              failureReason := some "Cannot read properties of null (reading 'email')" },
            exampleCertificate "u2" .generated .failed 1] with
          files := ["generated_certificates/e1/CERT-20240212-01-u2.pdf"] }) := by
  rfl

/-! ## Signature slots of the settings resolver -/

theorem setIfTruthy_get (config : JSObject) (key k : String) (value : JSValue) :
    (setIfTruthy config key value).get k
      = if key = k then (if value.truthy then value else config.get k) else config.get k := by
  unfold setIfTruthy
  by_cases hk : key = k
  · subst hk
    by_cases hv : value.truthy = true
    · simp [hv, JSObject.get_set_eq]
    · simp [hv]
  · by_cases hv : value.truthy = true
    · simp [hv, hk, JSObject.get_set_ne _ _ _ _ hk]
    · simp [hv, hk]

/-- The twelve names of the signature properties are pairwise distinct. -/
theorem sigKey_inj : ∀ n < 5, ∀ m < 5, ∀ s ∈ ["Name", "Title", "Url"],
    ∀ t ∈ ["Name", "Title", "Url"], sigKey n s = sigKey m t → n = m ∧ s = t := by
  decide

/-- One step of the `forEach` over the signatures, seen from the three properties of
slot `i + 1`: the entry of index `i` sets those of its sub-fields that are truthy, any
other entry leaves them alone. -/
theorem applySignature_slot (config : JSObject) (sig : SignatureDoc) (index i : Nat)
    (hi : i < 4) :
    (applySignature config sig index).get (sigKey (i + 1) "Name")
        = (if index = i then slotValue (config.get (sigKey (i + 1) "Name")) (some sig.name)
            else config.get (sigKey (i + 1) "Name")) ∧
      (applySignature config sig index).get (sigKey (i + 1) "Title")
        = (if index = i then slotValue (config.get (sigKey (i + 1) "Title")) (some sig.title)
            else config.get (sigKey (i + 1) "Title")) ∧
      (applySignature config sig index).get (sigKey (i + 1) "Url")
        = (if index = i then slotValue (config.get (sigKey (i + 1) "Url")) (some sig.imageUrl)
            else config.get (sigKey (i + 1) "Url")) := by
  unfold applySignature
  dsimp only
  by_cases hbig : index + 1 > 4
  · have hne : ¬ index = i := by omega
    simp [hbig, hne]
  · have hkey : ∀ s ∈ ["Name", "Title", "Url"], ∀ t ∈ ["Name", "Title", "Url"],
        (sigKey (index + 1) s = sigKey (i + 1) t) ↔ (index = i ∧ s = t) := by
      intro s hs t ht
      constructor
      · intro h
        have := sigKey_inj (index + 1) (by omega) (i + 1) (by omega) s hs t ht h
        exact ⟨by omega, this.2⟩
      · rintro ⟨rfl, rfl⟩
        rfl
    have hNN := hkey "Name" (by decide) "Name" (by decide)
    have hNT := hkey "Name" (by decide) "Title" (by decide)
    have hNU := hkey "Name" (by decide) "Url" (by decide)
    have hTN := hkey "Title" (by decide) "Name" (by decide)
    have hTT := hkey "Title" (by decide) "Title" (by decide)
    have hTU := hkey "Title" (by decide) "Url" (by decide)
    have hUN := hkey "Url" (by decide) "Name" (by decide)
    have hUT := hkey "Url" (by decide) "Title" (by decide)
    have hUU := hkey "Url" (by decide) "Url" (by decide)
    simp only [hbig, if_false, setIfTruthy_get, hNN, hNT, hNU, hTN, hTT, hTU, hUN, hUT, hUU,
      slotValue]
    by_cases hidx : index = i
    · simp [hidx]
    · simp [hidx]

/-- The whole `forEach`, started at index `start`, seen from one property `k` that the
entry of index `i` alone may set. -/
theorem applySignatures_key (k : String) (proj : SignatureDoc → JSValue) (i : Nat)
    (hstep : ∀ config sig index, (applySignature config sig index).get k
      = if index = i then slotValue (config.get k) (some (proj sig)) else config.get k)
    (sigs : List SignatureDoc) (config : JSObject) (start : Nat) :
    (applySignatures config sigs start).get k
      = if start ≤ i then slotValue (config.get k) ((sigs.get? (i - start)).map proj)
        else config.get k := by
  induction sigs generalizing config start with
  | nil => simp [applySignatures, slotValue]
  | cons sig rest ih =>
    rw [applySignatures, ih, hstep]
    rcases Nat.lt_trichotomy start i with hlt | heq | hgt
    · have h1 : start + 1 ≤ i := hlt
      have h2 : ¬ start = i := by omega
      have h3 : start ≤ i := by omega
      have h4 : i - start = (i - (start + 1)) + 1 := by omega
      simp only [h1, h2, h3, if_true, if_false]
      rw [h4, List.get?_cons_succ]
    · subst heq
      simp [slotValue]
    · have h1 : ¬ start + 1 ≤ i := by omega
      have h2 : ¬ start = i := by omega
      have h3 : ¬ start ≤ i := by omega
      simp only [h1, h2, h3, if_false]

/-- Entries of index 4 and beyond are passed over by the `forEach`. -/
theorem applySignatures_take (sigs : List SignatureDoc) (config : JSObject) (start : Nat) :
    applySignatures config sigs start = applySignatures config (sigs.take (4 - start)) start := by
  induction sigs generalizing config start with
  | nil => simp [applySignatures]
  | cons sig rest ih =>
    by_cases h : start < 4
    · have e : 4 - start = (4 - (start + 1)) + 1 := by omega
      rw [e, List.take_succ_cons, applySignatures, applySignatures, ih]
    · have e : 4 - start = 0 := by omega
      have e2 : 4 - (start + 1) = 0 := by omega
      have hbig : start + 1 > 4 := by omega
      rw [e, List.take_zero]
      show applySignatures (applySignature config sig start) rest (start + 1)
        = applySignatures config [] start
      rw [ih, e2, List.take_zero]
      simp [applySignatures, applySignature, hbig]

/-- The block for a stored document with a signature list, seen from a signature
property `k` that the entry of index `i` alone may set. -/
theorem applySettings_slot (config : JSObject) (settings : CertificateSettingsDoc)
    (sigs : List SignatureDoc) (hsigs : settings.signatures = some sigs) (n : Nat)
    (s : String) (proj : SignatureDoc → JSValue) (i : Nat)
    (hstep : ∀ config sig index, (applySignature config sig index).get (sigKey n s)
      = if index = i then slotValue (config.get (sigKey n s)) (some (proj sig))
        else config.get (sigKey n s)) :
    (applySettings config settings).get (sigKey n s)
      = slotValue (config.get (sigKey n s)) ((sigs.get? i).map proj) := by
  have h1 : "templateId" ≠ sigKey n s := fun e => sigKey_ne n s "templateId" (by decide) e.symm
  have h2 : "logoLeft" ≠ sigKey n s := fun e => sigKey_ne n s "logoLeft" (by decide) e.symm
  have h3 : "logoRight" ≠ sigKey n s := fun e => sigKey_ne n s "logoRight" (by decide) e.symm
  have h4 : "customFields" ≠ sigKey n s :=
    fun e => sigKey_ne n s "customFields" (by decide) e.symm
  have hc3 : (setIfTruthy (setIfTruthy (setIfTruthy config "templateId" settings.templateId)
      "logoLeft" settings.logoLeft) "logoRight" settings.logoRight).get (sigKey n s)
        = config.get (sigKey n s) := by
    rw [setIfTruthy_get_ne _ _ _ _ h3, setIfTruthy_get_ne _ _ _ _ h2,
      setIfTruthy_get_ne _ _ _ _ h1]
  have hloop : (if sigs.length > 0 then
      applySignatures (setIfTruthy (setIfTruthy (setIfTruthy config "templateId"
        settings.templateId) "logoLeft" settings.logoLeft) "logoRight" settings.logoRight)
        sigs 0
      else (setIfTruthy (setIfTruthy (setIfTruthy config "templateId"
        settings.templateId) "logoLeft" settings.logoLeft) "logoRight"
        settings.logoRight)).get (sigKey n s)
        = slotValue (config.get (sigKey n s)) ((sigs.get? i).map proj) := by
    split
    · rw [applySignatures_key (sigKey n s) proj i hstep, hc3]
      simp
    · have hnil : sigs = [] := by
        cases sigs with
        | nil => rfl
        | cons a l => simp at *
      subst hnil
      simp [slotValue, hc3]
  unfold applySettings
  simp only [hsigs]
  rcases settings.customFields with _ | fields
  · exact hloop
  · simp only
    rw [JSObject.get_set_ne _ _ _ _ h4]
    exact hloop

/-- C11: for every stored signatures array `sigs`, `getEffectiveSettings` applies the
entry of index `i` to slot `i + 1` only, for `i` in 0..3: each of `sig<i+1>Name`,
`sig<i+1>Title` and `sig<i+1>Url` is the entry's `name`, `title`, `imageUrl` when there
is such an entry and that sub-field is truthy (a non-empty string), and the default
otherwise; so a slot without an entry keeps its defaults. Entries of index 4 and beyond
change nothing: the result is that for the first four entries alone. -/
theorem getEffectiveSettings_signatures (env : ProcessEnv)
    (store : List CertificateSettingsDoc) (eventId : String) (doc : CertificateSettingsDoc)
    (sigs : List SignatureDoc) (hfind : findSettings store eventId = some doc)
    (hsigs : doc.signatures = some sigs) :
    (∀ i, i < 4 →
      (getEffectiveSettings env store eventId).get (sigKey (i + 1) "Name")
          = slotValue ((defaultSettings (DEFAULT_CONFIG env)).get (sigKey (i + 1) "Name"))
              ((sigs.get? i).map SignatureDoc.name) ∧
        (getEffectiveSettings env store eventId).get (sigKey (i + 1) "Title")
          = slotValue ((defaultSettings (DEFAULT_CONFIG env)).get (sigKey (i + 1) "Title"))
              ((sigs.get? i).map SignatureDoc.title) ∧
        (getEffectiveSettings env store eventId).get (sigKey (i + 1) "Url")
          = slotValue ((defaultSettings (DEFAULT_CONFIG env)).get (sigKey (i + 1) "Url"))
              ((sigs.get? i).map SignatureDoc.imageUrl)) ∧
      getEffectiveSettings env store eventId
        = applySettings (defaultSettings (DEFAULT_CONFIG env))
            { doc with signatures := some (sigs.take 4) } := by
  have e : getEffectiveSettings env store eventId
      = applySettings (defaultSettings (DEFAULT_CONFIG env)) doc := by
    simp [getEffectiveSettings, hfind]
  rw [e]
  refine ⟨fun i hi => ⟨?_, ?_, ?_⟩, ?_⟩
  · exact applySettings_slot _ doc sigs hsigs _ _ SignatureDoc.name i
      (fun config sig index => (applySignature_slot config sig index i hi).1)
  · exact applySettings_slot _ doc sigs hsigs _ _ SignatureDoc.title i
      (fun config sig index => (applySignature_slot config sig index i hi).2.1)
  · exact applySettings_slot _ doc sigs hsigs _ _ SignatureDoc.imageUrl i
      (fun config sig index => (applySignature_slot config sig index i hi).2.2)
  · unfold applySettings
    simp only [hsigs]
    have hloop : ∀ c : JSObject,
        (if sigs.length > 0 then applySignatures c sigs 0 else c)
          = (if (sigs.take 4).length > 0 then applySignatures c (sigs.take 4) 0 else c) := by
      intro c
      cases sigs with
      | nil => rfl
      | cons a l =>
        have h := applySignatures_take (a :: l) c 0
        simp only [Nat.sub_zero] at h
        simp [h]
    rw [hloop]

/-- C11 for a stored document of five entries: the first sets the name of slot 1 only,
the second sets all of slot 2, the third and fourth are empty, and the fifth, which has
no slot, is ignored. -/
theorem getEffectiveSettings_signatures_witness :
    findSettings [⟨"e1", .undefined, .undefined, .undefined,
        some [⟨.str "Dr. A", .str "", .undefined⟩, ⟨.str "Dr. B", .str "Dean", .str "b.png"⟩,
          ⟨.undefined, .undefined, .undefined⟩, ⟨.str "", .str "", .str ""⟩,
          ⟨.str "Dr. E", .str "Guest", .str "e.png"⟩], none, false⟩] "e1"
      = some ⟨"e1", .undefined, .undefined, .undefined,
        some [⟨.str "Dr. A", .str "", .undefined⟩, ⟨.str "Dr. B", .str "Dean", .str "b.png"⟩,
          ⟨.undefined, .undefined, .undefined⟩, ⟨.str "", .str "", .str ""⟩,
          ⟨.str "Dr. E", .str "Guest", .str "e.png"⟩], none, false⟩ ∧
      (getEffectiveSettings emptyEnv [⟨"e1", .undefined, .undefined, .undefined,
        some [⟨.str "Dr. A", .str "", .undefined⟩, ⟨.str "Dr. B", .str "Dean", .str "b.png"⟩,
          ⟨.undefined, .undefined, .undefined⟩, ⟨.str "", .str "", .str ""⟩,
          ⟨.str "Dr. E", .str "Guest", .str "e.png"⟩], none, false⟩] "e1").get "sig1Name"
        = .str "Dr. A" ∧
      (getEffectiveSettings emptyEnv [⟨"e1", .undefined, .undefined, .undefined,
        some [⟨.str "Dr. A", .str "", .undefined⟩, ⟨.str "Dr. B", .str "Dean", .str "b.png"⟩,
          ⟨.undefined, .undefined, .undefined⟩, ⟨.str "", .str "", .str ""⟩,
          ⟨.str "Dr. E", .str "Guest", .str "e.png"⟩], none, false⟩] "e1").get "sig1Title"
        = .str (DEFAULT_CONFIG emptyEnv).sig1Title ∧
      (getEffectiveSettings emptyEnv [⟨"e1", .undefined, .undefined, .undefined,
        some [⟨.str "Dr. A", .str "", .undefined⟩, ⟨.str "Dr. B", .str "Dean", .str "b.png"⟩,
          ⟨.undefined, .undefined, .undefined⟩, ⟨.str "", .str "", .str ""⟩,
          ⟨.str "Dr. E", .str "Guest", .str "e.png"⟩], none, false⟩] "e1").get "sig2Url"
        = .str "b.png" ∧
      (getEffectiveSettings emptyEnv [⟨"e1", .undefined, .undefined, .undefined,
        some [⟨.str "Dr. A", .str "", .undefined⟩, ⟨.str "Dr. B", .str "Dean", .str "b.png"⟩,
          ⟨.undefined, .undefined, .undefined⟩, ⟨.str "", .str "", .str ""⟩,
          ⟨.str "Dr. E", .str "Guest", .str "e.png"⟩], none, false⟩] "e1").get "sig4Name"
        = .str (DEFAULT_CONFIG emptyEnv).sig4Name :=
  have h := getEffectiveSettings_signatures emptyEnv [⟨"e1", .undefined, .undefined, .undefined,
        some [⟨.str "Dr. A", .str "", .undefined⟩, ⟨.str "Dr. B", .str "Dean", .str "b.png"⟩,
          ⟨.undefined, .undefined, .undefined⟩, ⟨.str "", .str "", .str ""⟩,
          ⟨.str "Dr. E", .str "Guest", .str "e.png"⟩], none, false⟩] "e1" _ _ rfl rfl
  ⟨rfl, (h.1 0 (by decide)).1, (h.1 0 (by decide)).2.1, (h.1 1 (by decide)).2.2,
    (h.1 3 (by decide)).1⟩

/-! ## Properties of the placeholder map -/

theorem JSObject.get_set (o : JSObject) (key k : String) (value : JSValue) :
    (o.set key value).get k = if key = k then value else o.get k := by
  by_cases h : key = k
  · subst h
    simp [JSObject.get_set_eq]
  · simp [h, JSObject.get_set_ne _ _ _ _ h]

theorem JSObject.has_cons (k : String) (v : JSValue) (rest : JSObject) (key : String) :
    JSObject.has ((k, v) :: rest) key = (decide (k = key) || JSObject.has rest key) := by
  by_cases h : k = key
  · simp [JSObject.has, h]
  · have hb : (k == key) = false := by simpa using h
    simp [JSObject.has, h, hb]

theorem JSObject.has_iff (o : JSObject) (key : String) :
    o.has key = true ↔ key ∈ o.map Prod.fst := by
  induction o with
  | nil => simp [JSObject.has]
  | cons e rest ih =>
    obtain ⟨k, v⟩ := e
    rw [JSObject.has_cons]
    simp only [Bool.or_eq_true, decide_eq_true_eq, ih, List.map_cons, List.mem_cons]
    constructor
    · rintro (h | h)
      · exact Or.inl h.symm
      · exact Or.inr h
    · rintro (h | h)
      · exact Or.inl h.symm
      · exact Or.inr h

theorem JSObject.get_of_not_has (o : JSObject) (key : String) (h : o.has key = false) :
    o.get key = .undefined := by
  induction o with
  | nil => rfl
  | cons e rest ih =>
    obtain ⟨k, v⟩ := e
    rw [JSObject.has_cons] at h
    simp only [Bool.or_eq_false_iff, decide_eq_false_iff_not] at h
    rw [JSObject.get_cons, if_neg h.1, ih h.2]

/-- A spread into an object under construction, read at one key: the property of the
source when it has one of that name, the previous value otherwise. -/
theorem JSObject.get_assign (source target : JSObject) (key : String)
    (hnodup : (source.map Prod.fst).Nodup) :
    (target.assign source).get key
      = if source.has key then source.get key else target.get key := by
  induction source generalizing target with
  | nil => simp [JSObject.assign, JSObject.has]
  | cons e rest ih =>
    obtain ⟨k, v⟩ := e
    have hnd : (rest.map Prod.fst).Nodup := (List.nodup_cons.mp hnodup).2
    have hk : k ∉ rest.map Prod.fst := (List.nodup_cons.mp hnodup).1
    have hstep : JSObject.assign target ((k, v) :: rest)
        = JSObject.assign (target.set k v) rest := rfl
    rw [hstep, ih _ hnd, JSObject.has_cons, JSObject.get_cons, JSObject.get_set]
    by_cases h : k = key
    · subst h
      have hno : JSObject.has rest k = false := by
        rw [Bool.eq_false_iff]
        intro hc
        exact hk ((JSObject.has_iff rest k).mp hc)
      simp [hno]
    · simp [h]

/-- In an object without repeated names, a listed property is the one that is read. -/
theorem JSObject.get_of_mem (o : JSObject) (key : String) (value : JSValue)
    (hnodup : (o.map Prod.fst).Nodup) (hmem : (key, value) ∈ o) : o.get key = value := by
  induction o with
  | nil => exact absurd hmem (List.not_mem_nil _)
  | cons e rest ih =>
    obtain ⟨k, v⟩ := e
    have hnd : (rest.map Prod.fst).Nodup := (List.nodup_cons.mp hnodup).2
    have hk : k ∉ rest.map Prod.fst := (List.nodup_cons.mp hnodup).1
    rw [JSObject.get_cons]
    rcases List.mem_cons.mp hmem with h | h
    · have h1 : key = k := congrArg Prod.fst h
      have h2 : value = v := congrArg Prod.snd h
      simp [h1, h2]
    · have hne : ¬ k = key := by
        intro e
        apply hk
        rw [e]
        exact List.mem_map_of_mem Prod.fst h
      rw [if_neg hne]
      exact ih hnd h

/-- The names of the `Url` and `Display` properties of the four slots are pairwise
distinct. -/
theorem sigKey_display_inj : ∀ n ∈ [1, 2, 3, 4], ∀ m ∈ [1, 2, 3, 4],
    ∀ s ∈ ["Url", "Display"], ∀ t ∈ ["Url", "Display"],
    (sigKey n s = sigKey m t) ↔ (n = m ∧ s = t) := by
  decide

/-- The loop of step 7 changes the four `Display` properties only. -/
theorem signatureDisplayLoop_get_other (p : JSObject) (key : String)
    (hkey : key ∉ displayKeys) : (signatureDisplayLoop p).get key = p.get key := by
  have h1 : ¬ sigKey 1 "Display" = key := fun e => hkey (by simp [displayKeys, ← e])
  have h2 : ¬ sigKey 2 "Display" = key := fun e => hkey (by simp [displayKeys, ← e])
  have h3 : ¬ sigKey 3 "Display" = key := fun e => hkey (by simp [displayKeys, ← e])
  have h4 : ¬ sigKey 4 "Display" = key := fun e => hkey (by simp [displayKeys, ← e])
  simp only [signatureDisplayLoop, setSignatureDisplay, JSObject.get_set, h1, h2, h3, h4,
    if_false]

/-- The loop of step 7, read at the `Display` property of one slot. -/
theorem signatureDisplayLoop_get_display (p : JSObject) (i : Nat) (h1 : 1 ≤ i) (h4 : i ≤ 4) :
    (signatureDisplayLoop p).get (sigKey i "Display")
      = if (p.get (sigKey i "Url")).truthy then .str "block" else .str "none" := by
  have hk := sigKey_display_inj
  interval_cases i <;>
    simp [signatureDisplayLoop, setSignatureDisplay, JSObject.get_set, hk]

/-- Two objects under construction that agree at a key still agree at it after the same
spread. -/
theorem JSObject.assign_get_congr (source o1 o2 : JSObject) (key : String)
    (h : o1.get key = o2.get key) :
    (o1.assign source).get key = (o2.assign source).get key := by
  induction source generalizing o1 o2 with
  | nil => exact h
  | cons e rest ih =>
    obtain ⟨k, v⟩ := e
    show (JSObject.assign (o1.set k v) rest).get key = (JSObject.assign (o2.set k v) rest).get key
    apply ih
    rw [JSObject.get_set, JSObject.get_set, h]

/-- Writing the property `k` of the source of a spread does not change what the result
holds at another key. -/
theorem JSObject.assign_set_get (source o1 o2 : JSObject) (k key : String) (value : JSValue)
    (hne : k ≠ key) (h : o1.get key = o2.get key) :
    (o1.assign source).get key = (o2.assign (source.set k value)).get key := by
  induction source generalizing o1 o2 with
  | nil =>
    show o1.get key = (o2.set k value).get key
    rw [JSObject.get_set_ne _ _ _ _ hne, h]
  | cons e rest ih =>
    obtain ⟨a, b⟩ := e
    by_cases ha : a = k
    · have hset : JSObject.set ((a, b) :: rest) k value = (a, value) :: rest := by
        simp [JSObject.set, ha]
      rw [hset]
      show (JSObject.assign (o1.set a b) rest).get key
        = (JSObject.assign (o2.set a value) rest).get key
      apply JSObject.assign_get_congr
      rw [JSObject.get_set_ne _ _ _ _ (ha ▸ hne), JSObject.get_set_ne _ _ _ _ (ha ▸ hne), h]
    · have hset : JSObject.set ((a, b) :: rest) k value = (a, b) :: JSObject.set rest k value := by
        simp [JSObject.set, ha]
      rw [hset]
      show (JSObject.assign (o1.set a b) rest).get key
        = (JSObject.assign (o2.set a b) (JSObject.set rest k value)).get key
      apply ih
      rw [JSObject.get_set, JSObject.get_set, h]

/-- C12 as stated fails: a request map that supplies `sig1Display` does not decide the
value of that key. With the default settings (no signature image) and the request map
`{ sig1Display: "inline" }` the placeholder map holds `sig1Display = "none"`. -/
theorem placeholderMap_precedence_counterexample :
    JSObject.has [("sig1Display", JSValue.str "inline")] "sig1Display" = true ∧
      (placeholderMap (getEffectiveSettings emptyEnv [] "e1") sampleUser sampleEvent
          "12 February 2024" "13 February 2024" "CERT-1"
          [("sig1Display", .str "inline")]).get "sig1Display" = .str "none" ∧
      JSObject.get [("sig1Display", JSValue.str "inline")] "sig1Display" = .str "inline" := by
  refine ⟨by decide, rfl, rfl⟩

/-- C12, amended: in the placeholder map built by `generateCertificateHTML`, for every
key other than `sig1Display` .. `sig4Display`, a property of the request map decides
the value (over the settings custom field, the event or user field and the default of
the same name), and a key that the request map lacks and the settings custom-field map
has takes the settings value. The maps are objects: no name occurs twice. -/
theorem placeholderMap_precedence (config : JSObject) (userData : UserData)
    (eventData : EventData) (formattedEventDate issuedDate certificateId : String)
    (customFields : JSObject) (fields : List (String × String)) (key : String)
    (hrequest : (customFields.map Prod.fst).Nodup)
    (hsettings : config.get "customFields" = .obj fields)
    (hfields : (fields.map Prod.fst).Nodup) (hkey : key ∉ displayKeys) :
    (customFields.has key = true →
        (placeholderMap config userData eventData formattedEventDate issuedDate certificateId
          customFields).get key = customFields.get key) ∧
      (customFields.has key = false → ∀ value, (key, value) ∈ fields →
        (placeholderMap config userData eventData formattedEventDate issuedDate certificateId
          customFields).get key = .str value) := by
  unfold placeholderMap
  rw [signatureDisplayLoop_get_other _ _ hkey]
  unfold buildPlaceholders
  dsimp only
  rw [JSObject.get_assign _ _ _ hrequest]
  constructor
  · intro h
    simp [h]
  · intro h value hmem
    have hnd : ((spreadEntries (.obj fields)).map Prod.fst).Nodup := by
      simpa [spreadEntries, List.map_map, Function.comp_def] using hfields
    have hin : (key, JSValue.str value) ∈ spreadEntries (.obj fields) := by
      simp only [spreadEntries, List.mem_map]
      exact ⟨(key, value), hmem, rfl⟩
    have hhas : JSObject.has (spreadEntries (.obj fields)) key = true :=
      (JSObject.has_iff _ _).mpr (List.mem_map_of_mem Prod.fst hin)
    rw [hsettings, JSObject.get_assign _ _ _ hnd]
    simp [h, hhas, JSObject.get_of_mem _ _ _ hnd hin]

/-- C12, amended, for a request map that sets `venue` and settings that carry the custom
fields `venue` and `motto`: `venue` is the request's, `motto` the settings' value. -/
theorem placeholderMap_precedence_witness :
    (placeholderMap [("sig4Name", .str "P"), ("customFields", .obj [("venue", "Hall 2"),
        ("motto", "Learn")])] sampleUser sampleEvent "12 February 2024" "13 February 2024"
        "CERT-1" [("venue", .str "Lab")]).get "venue" = .str "Lab" ∧
      (placeholderMap [("sig4Name", .str "P"), ("customFields", .obj [("venue", "Hall 2"),
        ("motto", "Learn")])] sampleUser sampleEvent "12 February 2024" "13 February 2024"
        "CERT-1" [("venue", .str "Lab")]).get "motto" = .str "Learn" :=
  ⟨(placeholderMap_precedence [("sig4Name", .str "P"), ("customFields", .obj [("venue", "Hall 2"),
        ("motto", "Learn")])] sampleUser sampleEvent "12 February 2024" "13 February 2024"
        "CERT-1" [("venue", .str "Lab")] [("venue", "Hall 2"), ("motto", "Learn")] "venue"
        (by decide) rfl (by decide) (by decide)).1 (by decide),
    (placeholderMap_precedence [("sig4Name", .str "P"), ("customFields", .obj [("venue", "Hall 2"),
        ("motto", "Learn")])] sampleUser sampleEvent "12 February 2024" "13 February 2024"
        "CERT-1" [("venue", .str "Lab")] [("venue", "Hall 2"), ("motto", "Learn")] "motto"
        (by decide) rfl (by decide) (by decide)).2 (by decide) "Learn" (by decide)⟩

/-- C20: for each slot `i` in 1..4 the placeholder map holds `sig<i>Display = "block"`
when the `sig<i>Url` of the merged object (settings, settings custom fields, request
custom fields) is truthy, that is a non-empty string, and `"none"` otherwise; the loop
leaves `sig<i>Url` as merged; and whatever value the request map supplies for
`sig<i>Display` itself, the flag in the placeholder map is the same. -/
theorem placeholderMap_display (config : JSObject) (userData : UserData)
    (eventData : EventData) (formattedEventDate issuedDate certificateId : String)
    (customFields : JSObject) (i : Nat) (h1 : 1 ≤ i) (h4 : i ≤ 4) :
    (placeholderMap config userData eventData formattedEventDate issuedDate certificateId
        customFields).get (sigKey i "Display")
        = (if ((buildPlaceholders config userData eventData formattedEventDate issuedDate
              certificateId customFields).get (sigKey i "Url")).truthy
            then .str "block" else .str "none") ∧
      (placeholderMap config userData eventData formattedEventDate issuedDate certificateId
        customFields).get (sigKey i "Url")
        = (buildPlaceholders config userData eventData formattedEventDate issuedDate
            certificateId customFields).get (sigKey i "Url") ∧
      ∀ value, (placeholderMap config userData eventData formattedEventDate issuedDate
          certificateId (customFields.set (sigKey i "Display") value)).get (sigKey i "Display")
        = (placeholderMap config userData eventData formattedEventDate issuedDate
            certificateId customFields).get (sigKey i "Display") := by
  have hi : i ∈ [1, 2, 3, 4] := by
    interval_cases i <;> decide
  have hne : sigKey i "Display" ≠ sigKey i "Url" := by
    intro e
    have := (sigKey_display_inj i hi i hi "Display" (by decide) "Url" (by decide)).mp e
    exact absurd this.2 (by decide)
  have hurl : sigKey i "Url" ∉ displayKeys := by
    intro hmem
    simp only [displayKeys, List.mem_cons, List.mem_singleton, List.not_mem_nil, or_false]
      at hmem
    rcases hmem with e | e | e | e
    · exact absurd ((sigKey_display_inj i hi 1 (by decide) "Url" (by decide) "Display"
        (by decide)).mp e).2 (by decide)
    · exact absurd ((sigKey_display_inj i hi 2 (by decide) "Url" (by decide) "Display"
        (by decide)).mp e).2 (by decide)
    · exact absurd ((sigKey_display_inj i hi 3 (by decide) "Url" (by decide) "Display"
        (by decide)).mp e).2 (by decide)
    · exact absurd ((sigKey_display_inj i hi 4 (by decide) "Url" (by decide) "Display"
        (by decide)).mp e).2 (by decide)
  refine ⟨signatureDisplayLoop_get_display _ i h1 h4, signatureDisplayLoop_get_other _ _ hurl,
    fun value => ?_⟩
  unfold placeholderMap
  rw [signatureDisplayLoop_get_display _ i h1 h4, signatureDisplayLoop_get_display _ i h1 h4]
  have hsame : (buildPlaceholders config userData eventData formattedEventDate issuedDate
      certificateId (customFields.set (sigKey i "Display") value)).get (sigKey i "Url")
      = (buildPlaceholders config userData eventData formattedEventDate issuedDate
          certificateId customFields).get (sigKey i "Url") := by
    unfold buildPlaceholders
    dsimp only
    exact (JSObject.assign_set_get customFields _ _ (sigKey i "Display") (sigKey i "Url") value
      hne rfl).symm
  rw [hsame]

/-- C20 for slot 1, with a request map that supplies a signature image and asks for
`sig1Display = "none"`: the flag is `"block"`. -/
theorem placeholderMap_display_witness :
    1 ≤ 1 ∧ 1 ≤ 4 ∧
      (placeholderMap (getEffectiveSettings emptyEnv [] "e1") sampleUser sampleEvent
        "12 February 2024" "13 February 2024" "CERT-1"
        [("sig1Url", .str "s.png"), ("sig1Display", .str "none")]).get "sig1Display"
        = .str "block" :=
  ⟨by decide, by decide,
    (placeholderMap_display (getEffectiveSettings emptyEnv [] "e1") sampleUser sampleEvent
      "12 February 2024" "13 February 2024" "CERT-1"
      [("sig1Url", .str "s.png"), ("sig1Display", .str "none")] 1 (by decide) (by decide)).1⟩

/-! ## Properties of the template loader -/

/-- What `parseInt` needs to know of a decimal digit character. -/
theorem digitChar_facts (d : Nat) (h : d < 10) :
    radixDigit 10 (digitChar d) = some d ∧ isJSWhiteSpace (digitChar d) = false ∧
      digitChar d ≠ '-' ∧ digitChar d ≠ '+' ∧ digitChar d ≠ 'x' ∧ digitChar d ≠ 'X' := by
  interval_cases d <;> decide

theorem decimalDigits_digits (fuel n : Nat) :
    ∀ c ∈ decimalDigits fuel n, ∃ d, d < 10 ∧ c = digitChar d := by
  induction fuel generalizing n with
  | zero =>
    intro c hc
    simp [decimalDigits] at hc
  | succ fuel ih =>
    intro c hc
    by_cases h : n < 10
    · rw [decimalDigits_small fuel n h] at hc
      exact ⟨n, h, by simpa using hc⟩
    · rw [decimalDigits_step fuel n (by omega)] at hc
      rcases List.mem_append.mp hc with h1 | h1
      · exact ih _ c h1
      · exact ⟨n % 10, Nat.mod_lt _ (by decide), by simpa using h1⟩

theorem parseDigits_append (xs ys : List Char) (acc : Option Nat)
    (hxs : ∀ c ∈ xs, ∃ d, d < 10 ∧ c = digitChar d) :
    parseDigits 10 (xs ++ ys) acc = parseDigits 10 ys (parseDigits 10 xs acc) := by
  induction xs generalizing acc with
  | nil => rfl
  | cons c rest ih =>
    obtain ⟨d, hd, hc⟩ := hxs c (List.mem_cons_self _ _)
    have hr := (digitChar_facts d hd).1
    subst hc
    simp only [List.cons_append, parseDigits, hr]
    exact ih _ (fun c hc => hxs c (List.mem_cons_of_mem _ hc))

theorem parseDigits_decimalDigits (fuel n : Nat) (h : n < 10 ^ (fuel + 1)) :
    parseDigits 10 (decimalDigits (fuel + 1) n) none = some n := by
  induction fuel generalizing n with
  | zero =>
    have h10 : n < 10 := by simpa using h
    rw [decimalDigits_small 0 n h10]
    simp [parseDigits, (digitChar_facts n h10).1]
  | succ fuel ih =>
    by_cases h10 : n < 10
    · rw [decimalDigits_small _ n h10]
      simp [parseDigits, (digitChar_facts n h10).1]
    · rw [decimalDigits_step _ n (by omega),
        parseDigits_append _ _ _ (decimalDigits_digits _ _), ih (n / 10)]
      · have hm : n % 10 < 10 := Nat.mod_lt _ (by decide)
        simp only [parseDigits, (digitChar_facts (n % 10) hm).1, Option.getD_some]
        congr 1
        omega
      · rw [Nat.div_lt_iff_lt_mul (by decide)]
        calc n < 10 ^ (fuel + 1 + 1) := h
          _ = 10 ^ (fuel + 1) * 10 := by ring

/-- The decimal form of a natural number as `parseInt` sees it: no white space, no
sign, no `0x`, and digits whose value is the number. -/
theorem natToJSString_parse (n : Nat) :
    (natToJSString n).dropWhile isJSWhiteSpace = natToJSString n ∧
      stripSign (natToJSString n) = (false, natToJSString n) ∧
      stripHexPrefix (natToJSString n) = (10, natToJSString n) ∧
      parseDigits 10 (natToJSString n) none = some n := by
  have hlt : n < 10 ^ (n + 1) :=
    lt_of_lt_of_le (Nat.lt_pow_self (by decide) n) (Nat.pow_le_pow_right (by decide) (by omega))
  have hparse := parseDigits_decimalDigits n n hlt
  have hdig := decimalDigits_digits (n + 1) n
  unfold natToJSString
  rcases hs : decimalDigits (n + 1) n with _ | ⟨c, rest⟩
  · rw [hs] at hparse
    simp [parseDigits] at hparse
  · rw [hs] at hparse hdig
    obtain ⟨d, hd, hc⟩ := hdig c (List.mem_cons_self _ _)
    have hf := digitChar_facts d hd
    rw [← hc] at hf
    refine ⟨?_, ?_, ?_, hparse⟩
    · simp [List.dropWhile, hf.2.1]
    · simp [stripSign, hf.2.2.1, hf.2.2.2.1]
    · cases rest with
      | nil => rfl
      | cons e rest2 =>
        obtain ⟨d2, hd2, he⟩ := hdig e (by simp)
        have hf2 := digitChar_facts d2 hd2
        rw [← he] at hf2
        simp [stripHexPrefix, hf2.2.2.2.2.1, hf2.2.2.2.2.2]

/-- The function `parseInt` reads back the decimal form of an integer. -/
theorem parseIntJS_intToJSString (k : Int) : parseIntJS (intToJSString k) = some k := by
  obtain ⟨hdrop, hsign, hhex, hparse⟩ := natToJSString_parse k.natAbs
  unfold intToJSString
  by_cases hneg : k < 0
  · have hdrop2 : ('-' :: natToJSString k.natAbs).dropWhile isJSWhiteSpace
        = '-' :: natToJSString k.natAbs := by
      have : isJSWhiteSpace '-' = false := by decide
      simp [List.dropWhile, this]
    have hsign2 : stripSign ('-' :: natToJSString k.natAbs) = (true, natToJSString k.natAbs) := by
      simp [stripSign]
    rw [if_pos hneg]
    simp only [parseIntJS, hdrop2, hsign2, hhex, hparse]
    simp only [if_true, Option.some.injEq]
    omega
  · rw [if_neg hneg]
    simp only [parseIntJS, hdrop, hsign, hhex, hparse]
    simp only [Bool.false_eq_true, if_false, Option.some.injEq]
    omega

/-- C13 as stated fails: `"3abc"` and `"2.5"` (the string form under which `parseInt`
reads the number 2.5) are not integers in 1..7, yet `loadTemplate` does not reject
them: it reads them as 3 and 2 and returns the text of those templates. -/
theorem loadTemplate_lenient_counterexample :
    loadTemplate sampleTemplates (.str "3abc") = .ok "<h3>{{participantName}}</h3>" ∧
      loadTemplate sampleTemplates (.str "2.5") = .ok "<h2>{{participantName}}</h2>" :=
  ⟨rfl, rfl⟩

/-- C13, amended: `loadTemplate(id)` fails with the invalid-template-id error exactly
when `parseInt(id)` is `NaN` or lies outside 1..7; when `parseInt(id)` is `n` in 1..7 it
fails with the template-not-found error exactly when `template<n>.html` is absent and
returns the text of that file otherwise; and for an integer number `id` (of magnitude
below 10^21, where its string form is its decimal form) `parseInt(id)` is `id`, so that
the first failure occurs exactly when `id` is not in 1..7. -/
theorem loadTemplate_spec (templates : Nat → Option String) (templateId : JSValue) :
    (loadTemplate templates templateId = .error (invalidTemplateError templateId) ↔
        ∀ n, parseIntJS templateId.toJSString = some n → n < 1 ∨ 7 < n) ∧
      (∀ n, parseIntJS templateId.toJSString = some n → 1 ≤ n → n ≤ 7 →
        (templates n.toNat = none →
          loadTemplate templates templateId = .error (templateNotFoundError n.toNat)) ∧
        (∀ text, templates n.toNat = some text →
          loadTemplate templates templateId = .ok text)) ∧
      (∀ k : Int, templateId = .num k → k.natAbs < 10 ^ 21 →
        (loadTemplate templates templateId = .error (invalidTemplateError templateId) ↔
          k < 1 ∨ 7 < k)) := by
  have hmsg : ∀ m : Nat, templateNotFoundError m ≠ invalidTemplateError templateId := by
    intro m e
    have h := congrArg (fun s : String => s.data.head?) e
    simp [templateNotFoundError, invalidTemplateError] at h
  have hfirst : loadTemplate templates templateId = .error (invalidTemplateError templateId) ↔
      ∀ n, parseIntJS templateId.toJSString = some n → n < 1 ∨ 7 < n := by
    unfold loadTemplate
    rcases hp : parseIntJS templateId.toJSString with _ | n
    · simp
    · by_cases hr : n < 1 ∨ n > 7
      · simp only [hr, if_true, true_iff]
        intro m hm
        cases hm
        exact hr
      · simp only [hr, if_false]
        constructor
        · intro h
          rcases ht : templates n.toNat with _ | text
          · rw [ht] at h
            simp only [Except.error.injEq] at h
            exact absurd h (hmsg _)
          · rw [ht] at h
            cases h
        · intro h
          exact absurd (h n rfl) hr
  refine ⟨hfirst, ?_, ?_⟩
  · intro n hp h1 h7
    have hr : ¬ (n < 1 ∨ n > 7) := by omega
    unfold loadTemplate
    rw [hp]
    simp only [hr, if_false]
    constructor
    · intro ht
      rw [ht]
    · intro text ht
      rw [ht]
  · intro k hk _
    rw [hfirst]
    subst hk
    have hp : parseIntJS (JSValue.num k).toJSString = some k := parseIntJS_intToJSString k
    rw [hp]
    constructor
    · intro h
      exact h k rfl
    · intro h n hn
      cases hn
      exact h

/-- C13, amended, at the ids 0, 8, 3 and 5 of a directory that holds templates 1 to 3:
0 and 8 are rejected, 3 is loaded, 5 is not found. -/
theorem loadTemplate_spec_witness :
    loadTemplate sampleTemplates (.num 0) = .error (invalidTemplateError (.num 0)) ∧
      loadTemplate sampleTemplates (.num 8) = .error (invalidTemplateError (.num 8)) ∧
      loadTemplate sampleTemplates (.num 3) = .ok "<h3>{{participantName}}</h3>" ∧
      loadTemplate sampleTemplates (.num 5) = .error (templateNotFoundError 5) :=
  ⟨((loadTemplate_spec sampleTemplates (.num 0)).2.2 0 rfl (by decide)).mpr (Or.inl (by decide)),
    ((loadTemplate_spec sampleTemplates (.num 8)).2.2 8 rfl (by decide)).mpr (Or.inr (by decide)),
    ((loadTemplate_spec sampleTemplates (.num 3)).2.1 3 rfl (by decide) (by decide)).2 _ rfl,
    ((loadTemplate_spec sampleTemplates (.num 5)).2.1 5 rfl (by decide) (by decide)).1 rfl⟩

/-! ## Outcome of the dispatch in `generateCertificatesForEvent` -/

theorem findCertificateFrom_set (e u : String) (cs : List Certificate) (start i : Nat)
    (c0 c1 : Certificate) (h : findCertificateFrom e u cs start = some (i, c0))
    (hev : c1.event = e) (hus : c1.user = u) :
    findCertificateFrom e u (cs.set (i - start) c1) start = some (i, c1) := by
  induction cs generalizing start with
  | nil => simp [findCertificateFrom] at h
  | cons d cs ih =>
    by_cases hk : d.event = e ∧ d.user = u
    · simp only [findCertificateFrom, hk, and_self, if_true, Option.some.injEq,
        Prod.mk.injEq] at h
      obtain ⟨rfl, rfl⟩ := h
      simp [findCertificateFrom, hev, hus]
    · simp only [findCertificateFrom, hk, if_false] at h
      have hle := (findCertificateFrom_spec e u cs (start + 1) i c0 h).1
      have e1 : i - start = (i - (start + 1)) + 1 := by omega
      rw [e1, List.set_cons_succ]
      simp only [findCertificateFrom, hk, if_false]
      exact ih (start + 1) h

theorem findCertificateFrom_append (e u : String) (cs : List Certificate) (start : Nat)
    (d : Certificate) (h : findCertificateFrom e u cs start = none)
    (hev : d.event = e) (hus : d.user = u) :
    findCertificateFrom e u (cs ++ [d]) start = some (start + cs.length, d) := by
  induction cs generalizing start with
  | nil => simp [findCertificateFrom, hev, hus]
  | cons c cs ih =>
    by_cases hk : c.event = e ∧ c.user = u
    · simp [findCertificateFrom, hk] at h
    · simp only [findCertificateFrom, hk, if_false] at h
      rw [List.cons_append, findCertificateFrom, if_neg hk, ih (start + 1) h, List.length_cons]
      congr 2
      omega

/-- A record saved at the position where `findOne` found the record of the pair, and
belonging to the pair, is what `findOne` finds afterwards. -/
theorem findCertificate_save (w : World) (e u : String) (i : Nat) (c0 c1 : Certificate)
    (h : findCertificate w.certificates e u = some (i, c0))
    (hev : c1.event = e) (hus : c1.user = u) :
    findCertificate (w.saveCertificate i c1).certificates e u = some (i, c1) := by
  have := findCertificateFrom_set e u w.certificates 0 i c0 c1 h hev hus
  simpa [findCertificate, World.saveCertificate] using this

/-- The upsert step: the record it returns is the one `findOne` finds afterwards; it has
the identity and the retry count of the record found before, or a retry count of 0
when there was none. -/
theorem upsertStep_record (env : Env) (w : World) (eventId : String) (user : User) (r : HtmlResult)
    (pdfPath : String) (now : Nat) (i : Nat) (certRecord : Certificate) (w3 : World)
    (h : upsertStep env w eventId user r pdfPath now
      (findCertificate w.certificates eventId user.id) = (.ok (i, certRecord), w3)) :
    findCertificate w3.certificates eventId user.id = some (i, certRecord) ∧
      certRecord.pdfPath = pdfPath ∧
      (∀ j old, findCertificate w.certificates eventId user.id = some (j, old) →
        i = j ∧ certRecord.certificateId = old.certificateId ∧ certRecord.event = old.event ∧
        certRecord.user = old.user ∧ certRecord.retryCount = old.retryCount) ∧
      (findCertificate w.certificates eventId user.id = none →
        certRecord.retryCount = 0 ∧ certRecord.certificateId = r.certificateId) := by
  unfold upsertStep at h
  rcases hfound : findCertificate w.certificates eventId user.id with _ | ⟨j, old⟩
  · rw [hfound] at h
    dsimp only at h
    rcases hcreate : w.createCertificate _ _ with message | ⟨k, w1⟩
    · rw [hcreate] at h
      cases h
    · rw [hcreate] at h
      obtain ⟨rfl, rfl⟩ := createCertificate_ok w _ _ k w1 hcreate
      simp only [Prod.mk.injEq, Except.ok.injEq] at h
      obtain ⟨⟨hi, hdoc⟩, hw⟩ := h
      have hev : certRecord.event = eventId := by rw [← hdoc]
      have hus : certRecord.user = user.id := by rw [← hdoc]
      have hretry : certRecord.retryCount = 0 := by rw [← hdoc]
      have hid : certRecord.certificateId = r.certificateId := by rw [← hdoc]
      have hpath : certRecord.pdfPath = pdfPath := by rw [← hdoc]
      refine ⟨?_, hpath, fun j old hj => (by cases hj), fun _ => ⟨hretry, hid⟩⟩
      have := findCertificateFrom_append eventId user.id w.certificates 0 certRecord hfound
        hev hus
      rw [← hw, ← hi, ← hdoc]
      rw [← hdoc] at this
      simpa [findCertificate] using this
  · rw [hfound] at h
    dsimp only at h
    split at h
    · simp only [Prod.mk.injEq, Except.ok.injEq] at h
      obtain ⟨⟨rfl, rfl⟩, rfl⟩ := h
      obtain ⟨_, hev, hus⟩ := findCertificate_spec _ _ _ _ _ hfound
      refine ⟨findCertificate_save w eventId user.id _ old _ hfound hev hus, rfl, ?_,
        fun hn => (by cases hn)⟩
      intro j2 old2 hj
      cases hj
      exact ⟨rfl, rfl, rfl, rfl, rfl⟩
    · cases h

/-- The step "Send Email" when a mail is due, on the record that `findOne` finds: a
dispatch that throws leaves the record marked as failed with the message thrown, a
dispatch that returns leaves it marked as sent. -/
theorem emailStep_record (env : Env) (w3 : World) (opts : Options) (eventId : String)
    (event : Event) (user : User) (i : Nat) (certRecord : Certificate) (pdfPath : String)
    (now : Nat) (hfind : findCertificate w3.certificates eventId user.id = some (i, certRecord))
    (hsend : opts.sendEmail = true) (hemail : truthyString user.email = true) :
    (∀ message w4, sendCertificateEmail env w3 user.id user.email (mailParticipantName user)
        event.title pdfPath = (.error message, w4) →
      (emailStep env w3 opts event user i certRecord pdfPath now).1 = .failed ∧
      findCertificate (emailStep env w3 opts event user i certRecord pdfPath now).2.certificates
        eventId user.id = some (i, certRecord.markFailed message now)) ∧
      (∀ w4, sendCertificateEmail env w3 user.id user.email (mailParticipantName user)
        event.title pdfPath = (.ok (), w4) →
      (emailStep env w3 opts event user i certRecord pdfPath now).1 = .sent ∧
      findCertificate (emailStep env w3 opts event user i certRecord pdfPath now).2.certificates
        eventId user.id = some (i, certRecord.markSent now)) := by
  obtain ⟨_, hev, hus⟩ := findCertificate_spec _ _ _ _ _ hfind
  have hcerts := (sendCertificateEmail_touches env w3 eventId user.id user.email
    (mailParticipantName user) event.title pdfPath).2
  have hstep : emailStep env w3 opts event user i certRecord pdfPath now
      = match sendCertificateEmail env w3 user.id user.email (mailParticipantName user)
            event.title pdfPath with
        | (.ok _, w1) => (.sent, w1.saveCertificate i (certRecord.markSent now))
        | (.error message, w1) =>
          (.failed, w1.saveCertificate i (certRecord.markFailed message now)) := by
    unfold emailStep
    simp only [hsend, hemail, and_self, if_true]
    rfl
  constructor
  · intro message w4 h
    rw [h] at hcerts
    rw [hstep, h]
    refine ⟨rfl, findCertificate_save w4 eventId user.id i certRecord _ ?_ hev hus⟩
    rw [hcerts]
    exact hfind
  · intro w4 h
    rw [h] at hcerts
    rw [hstep, h]
    refine ⟨rfl, findCertificate_save w4 eventId user.id i certRecord _ ?_ hev hus⟩
    rw [hcerts]
    exact hfind

/-- An iteration that reaches the step "Send Email" is that step, followed by the push of
the entry. -/
theorem processUser_reach (env : Env) (eventId : String) (event : Event) (opts : Options)
    (outputDir : String) (w : World) (user : User) (r : HtmlResult) (pdfPath : String)
    (w2 : World) (i : Nat) (certRecord : Certificate) (w3 : World)
    (hnoskip : alreadySent (findCertificate w.certificates eventId user.id)
      opts.forceRegenerate = false)
    (hgen : env.generateCertificateHTML w eventId user event = .ok r)
    (hpdf : renderPdfStep env (w.logCall (.generateCertificateHTML eventId user.id))
      opts.savePdf outputDir user r = (.ok pdfPath, w2))
    (hups : upsertStep env w2 eventId user r pdfPath (env.now w2)
      (findCertificate w.certificates eventId user.id) = (.ok (i, certRecord), w3)) :
    processUser env eventId event opts outputDir w user
      = ((emailStep env w3 opts event user i certRecord pdfPath (env.now w2)).2,
          doneEntry user (emailStep env w3 opts event user i certRecord pdfPath (env.now w2)).1) := by
  unfold processUser
  simp only [hnoskip, hgen, hpdf, hups, Bool.false_eq_true, if_false]

/-- The loop over attendees other than a given user does not change what `findOne`
returns for that user. -/
theorem attendeeLoop_find_other (env : Env) (eventId : String) (event : Event)
    (opts : Options) (outputDir : String) (userId : String) (atts : List (Option User))
    (w : World) (acc : List ResultEntry) (hother : ∀ v, some v ∈ atts → v.id ≠ userId) :
    findCertificate
        (atts.foldl (processAttendee env eventId event opts outputDir) (w, acc)).1.certificates
        eventId userId = findCertificate w.certificates eventId userId := by
  induction atts generalizing w acc with
  | nil => rfl
  | cons a atts ih =>
    rw [List.foldl_cons]
    have hrest : ∀ v, some v ∈ atts → v.id ≠ userId :=
      fun v hv => hother v (List.mem_cons_of_mem _ hv)
    cases a with
    | none =>
      rw [processAttendee_none]
      exact ih w acc hrest
    | some v =>
      rw [processAttendee_some, ih _ _ hrest]
      obtain ⟨⟨_, hstep, _⟩, _⟩ := processUser_touches env eventId event opts outputDir w v
      have hne : ¬ (eventId = eventId ∧ userId = v.id) := by
        rintro ⟨_, hid⟩
        exact hother v (List.mem_cons_self _ _) hid.symm
      exact hstep.find eventId userId hne 0

/-- C15: in a run of `generateCertificatesForEvent`, take an attendee who occurs once
among the present attendees and whose iteration reaches the dispatch of the mail
(`certRecord` at position `i` being the record as the upsert step leaves it: the record
found before the run, with its certificate id, event, user and retry count, or a new
one with retry count 0). When the dispatch throws, the attendee's record at the end of
the run is `certRecord` with `deliveryStatus = failed`, `failureReason` the message
thrown, `retryCount` one more and `lastAttemptAt` set, everything else, the identity
included, as it was. When the dispatch returns, the record is `certRecord` with
`deliveryStatus = sent`, `status = sent`, `emailSent = true` and `emailSentAt` set, the
retry count as it was. -/
theorem generateCertificatesForEvent_dispatch_record (env : Env) (w : World)
    (eventId : String) (opts : Options) (event : Event) (pre post : List (Option User))
    (user : User) (r : HtmlResult) (pdfPath : String) (w2 : World) (i : Nat)
    (certRecord : Certificate) (w3 : World)
    (hevent : findEvent w.events eventId = some event)
    (hatt : presentAttendees w eventId = pre ++ some user :: post)
    (hpre : ∀ v, some v ∈ pre → v.id ≠ user.id)
    (hpost : ∀ v, some v ∈ post → v.id ≠ user.id)
    (hnoskip : alreadySent (findCertificate w.certificates eventId user.id)
      opts.forceRegenerate = false)
    (hgen : env.generateCertificateHTML
      (pre.foldl (processAttendee env eventId event opts (outputDirOf eventId)) (w, [])).1
      eventId user event = .ok r)
    (hpdf : renderPdfStep env
      ((pre.foldl (processAttendee env eventId event opts (outputDirOf eventId)) (w, [])).1.logCall
        (.generateCertificateHTML eventId user.id))
      opts.savePdf (outputDirOf eventId) user r = (.ok pdfPath, w2))
    (hups : upsertStep env w2 eventId user r pdfPath (env.now w2)
      (findCertificate w.certificates eventId user.id) = (.ok (i, certRecord), w3))
    (hsend : opts.sendEmail = true) (hemail : truthyString user.email = true) :
    (∀ j old, findCertificate w.certificates eventId user.id = some (j, old) →
        i = j ∧ certRecord.certificateId = old.certificateId ∧ certRecord.event = old.event ∧
        certRecord.user = old.user ∧ certRecord.retryCount = old.retryCount) ∧
      (findCertificate w.certificates eventId user.id = none → certRecord.retryCount = 0) ∧
      (∀ message w4, sendCertificateEmail env w3 user.id user.email (mailParticipantName user)
          event.title pdfPath = (.error message, w4) →
        findCertificate (generateCertificatesForEvent env w eventId opts).2.certificates
          eventId user.id = some (i, certRecord.markFailed message (env.now w2))) ∧
      (∀ w4, sendCertificateEmail env w3 user.id user.email (mailParticipantName user)
          event.title pdfPath = (.ok (), w4) →
        findCertificate (generateCertificatesForEvent env w eventId opts).2.certificates
          eventId user.id = some (i, certRecord.markSent (env.now w2))) := by
  have hlen : ¬ (presentAttendees w eventId).length = 0 := by
    rw [hatt]
    simp
  have hrun := generateCertificatesForEvent_run env w eventId opts event hevent hlen
  have hturn := attendeeLoop_find_other env eventId event opts (outputDirOf eventId) user.id
    pre w [] hpre
  have hw2 : w2.certificates
      = (pre.foldl (processAttendee env eventId event opts (outputDirOf eventId))
          (w, [])).1.certificates := by
    have h := (renderPdfStep_touches env
      ((pre.foldl (processAttendee env eventId event opts (outputDirOf eventId))
        (w, [])).1.logCall (.generateCertificateHTML eventId user.id))
      opts.savePdf eventId (outputDirOf eventId) user r).2
    rw [hpdf] at h
    exact h
  have hups2 : upsertStep env w2 eventId user r pdfPath (env.now w2)
      (findCertificate w2.certificates eventId user.id) = (.ok (i, certRecord), w3) := by
    rw [hw2, hturn]
    exact hups
  obtain ⟨hfind3, _, hold, hnew⟩ :=
    upsertStep_record env w2 eventId user r pdfPath (env.now w2) i certRecord w3 hups2
  rw [hw2, hturn] at hold hnew
  have hreach := processUser_reach env eventId event opts (outputDirOf eventId)
    (pre.foldl (processAttendee env eventId event opts (outputDirOf eventId)) (w, [])).1
    user r pdfPath w2 i certRecord w3 (by rw [hturn]; exact hnoskip) hgen hpdf
    (by rw [hturn]; exact hups)
  have hfinal : findCertificate
      (generateCertificatesForEvent env w eventId opts).2.certificates eventId user.id
      = findCertificate
          (emailStep env w3 opts event user i certRecord pdfPath (env.now w2)).2.certificates
          eventId user.id := by
    rw [hrun, hatt, List.foldl_append, List.foldl_cons, processAttendee_some, hreach]
    exact attendeeLoop_find_other env eventId event opts (outputDirOf eventId) user.id
      post _ _ hpost
  obtain ⟨hfail, hok⟩ := emailStep_record env w3 opts eventId event user i certRecord pdfPath
    (env.now w2) hfind3 hsend hemail
  refine ⟨hold, fun h => (hnew h).1, ?_, ?_⟩
  · intro message w4 h
    rw [hfinal]
    exact (hfail message w4 h).2
  · intro w4 h
    rw [hfinal]
    exact (hok w4 h).2

/-- C15 for the first of three attendees, whose record has a retry count of 1 and for
whom the transport throws: after the run the record is marked as failed with the
message of the transport and a retry count of 2, and keeps its certificate id. -/
theorem generateCertificatesForEvent_dispatch_record_witness :
    ∃ c, findCertificate (generateCertificatesForEvent (exampleEnv ["ann@example.org"])
          (exampleWorld [exampleCertificate "u1" .generated .failed 1]) "e1" {}).2.certificates
          "e1" "u1" = some (0, c) ∧
      c.deliveryStatus = .failed ∧ c.failureReason = some "Message failed: timeout" ∧
      c.retryCount = 2 ∧ c.lastAttemptAt = some 2 ∧
      c.certificateId = (exampleCertificate "u1" .generated .failed 1).certificateId := by
  have h := generateCertificatesForEvent_dispatch_record (exampleEnv ["ann@example.org"])
    (exampleWorld [exampleCertificate "u1" .generated .failed 1]) "e1" {}
    ⟨"e1", "Summit", 1, true, false, none⟩ []
    [some ⟨"u2", some "bob@example.org", some "Bob Ray", none, none⟩,
      some ⟨"u3", some "cy@example.org", some "Cy Moss", none, none⟩]
    ⟨"u1", some "ann@example.org", some "Ann Lee", none, none⟩ _ _ _ _ _ _ rfl rfl
    (fun v hv => absurd hv (List.not_mem_nil _))
    (fun v hv => by
      simp only [List.mem_cons, Option.some.injEq, List.mem_singleton, List.not_mem_nil,
        or_false] at hv
      rcases hv with rfl | rfl <;> decide)
    rfl rfl rfl rfl rfl rfl
  exact ⟨_, h.2.2.1 "Message failed: timeout" _ rfl, rfl, rfl, rfl, rfl, rfl⟩

/-! ## Properties of the scheduler -/

theorem callChain_append (w : World) (cs : List CronCall) (mid : World) (c : CronCall)
    (h : callChain w cs mid) (hc : c.before = mid) : callChain w (cs ++ [c]) c.after := by
  induction cs generalizing w with
  | nil =>
    simp only [callChain] at h
    subst h
    exact ⟨hc, rfl⟩
  | cons d cs ih => exact ⟨h.1, ih _ h.2⟩

/-- The loop of the scheduled job: one invocation per event of the list, in order, with
the fixed options, each started where the one before ended, whatever the invocations
return or throw. -/
theorem cronLoop_spec
    (generate : World → String → Options → Except String BatchResult × World)
    (events : List Event) (w : World) (calls : List CronCall) :
    ∃ new, (cronLoop generate events w calls).2 = calls ++ new ∧
      new.map (fun c => (c.eventId, c.options)) = events.map (fun e => (e.id, cronOptions)) ∧
      (∀ c ∈ new, (c.outcome, c.after) = generate c.before c.eventId c.options) ∧
      callChain w new (cronLoop generate events w calls).1 := by
  induction events generalizing w calls with
  | nil => exact ⟨[], by simp [cronLoop], rfl, fun c hc => absurd hc (List.not_mem_nil _), rfl⟩
  | cons event rest ih =>
    rcases hg : generate w event.id cronOptions with ⟨result | result, w1⟩
    · obtain ⟨new, h1, h2, h3, h4⟩ :=
        ih w1 (calls ++ [⟨event.id, cronOptions, w, .error result, w1⟩])
      refine ⟨⟨event.id, cronOptions, w, .error result, w1⟩ :: new, ?_, ?_, ?_, ?_⟩
      · simp only [cronLoop, hg, h1, List.append_assoc, List.singleton_append]
      · simp [h2]
      · intro c hc
        rcases List.mem_cons.mp hc with rfl | hc
        · exact hg.symm
        · exact h3 c hc
      · simp only [cronLoop, hg]
        exact ⟨rfl, h4⟩
    · obtain ⟨new, h1, h2, h3, h4⟩ :=
        ih w1 (calls ++ [⟨event.id, cronOptions, w, .ok result, w1⟩])
      refine ⟨⟨event.id, cronOptions, w, .ok result, w1⟩ :: new, ?_, ?_, ?_, ?_⟩
      · simp only [cronLoop, hg, h1, List.append_assoc, List.singleton_append]
      · simp [h2]
      · intro c hc
        rcases List.mem_cons.mp hc with rfl | hc
        · exact hg.symm
        · exact h3 c hc
      · simp only [cronLoop, hg]
        exact ⟨rfl, h4⟩

/-- In a collection without repeated ids, the ids selected by a test are those of the
documents that pass it, each once. -/
theorem count_filter_ids (events : List Event) (p : Event → Bool)
    (hnodup : (events.map (fun e => e.id)).Nodup) (e : Event) (he : e ∈ events) :
    ((events.filter p).map (fun e => e.id)).count e.id = if p e then 1 else 0 := by
  have hsub : ((events.filter p).map (fun e => e.id)).Nodup :=
    hnodup.sublist ((List.filter_sublist events).map _)
  have hinj := List.inj_on_of_nodup_map hnodup
  by_cases hp : p e = true
  · rw [if_pos hp]
    apply List.count_eq_one_of_mem hsub
    exact List.mem_map_of_mem _ (List.mem_filter.mpr ⟨he, hp⟩)
  · rw [if_neg hp]
    apply List.count_eq_zero_of_not_mem
    intro hmem
    obtain ⟨e2, he2, hid⟩ := List.mem_map.mp hmem
    obtain ⟨he2mem, hp2⟩ := List.mem_filter.mp he2
    have : e2 = e := hinj he2mem he hid
    subst this
    exact hp hp2

/-- C16: a firing of the scheduled job at time `now` invokes the generation function
once per stored event with `eventDate < now`, `autoSendAfterEventEnd = true` and
`certificatesSent = false`, in collection order, and for no other event; every
invocation gets `sendEmail = true`, `savePdf = true`, `forceRegenerate = false`; the
invocations run one after the other, each in the world left by the one before; and
this holds whatever the invocations return or throw, so an invocation that throws does
not prevent the later ones. When the stored events have distinct ids, the number of
invocations for an event is 1 if it passes the test and 0 otherwise. -/
theorem certificateCronJob_invocations
    (generate : World → String → Options → Except String BatchResult × World)
    (now : Nat) (w : World) :
    (certificateCronJob generate now w).2.map (fun c => (c.eventId, c.options))
        = (w.events.filter (isPendingEvent now)).map (fun e => (e.id, cronOptions)) ∧
      (∀ c ∈ (certificateCronJob generate now w).2,
        (c.outcome, c.after) = generate c.before c.eventId c.options) ∧
      callChain w (certificateCronJob generate now w).2 (certificateCronJob generate now w).1 ∧
      ((w.events.map (fun e => e.id)).Nodup → ∀ e ∈ w.events,
        ((certificateCronJob generate now w).2.map (fun c => c.eventId)).count e.id
          = if isPendingEvent now e then 1 else 0) ∧
      cronOptions.sendEmail = true ∧ cronOptions.savePdf = true ∧
      cronOptions.forceRegenerate = false ∧
      (∀ e, isPendingEvent now e = true ↔
        (e.eventDate < now ∧ e.autoSendAfterEventEnd = true ∧ e.certificatesSent = false)) := by
  have hmain : (certificateCronJob generate now w).2.map (fun c => (c.eventId, c.options))
        = (w.events.filter (isPendingEvent now)).map (fun e => (e.id, cronOptions)) ∧
      (∀ c ∈ (certificateCronJob generate now w).2,
        (c.outcome, c.after) = generate c.before c.eventId c.options) ∧
      callChain w (certificateCronJob generate now w).2
        (certificateCronJob generate now w).1 := by
    unfold certificateCronJob
    dsimp only
    by_cases hlen : (w.events.filter (isPendingEvent now)).length = 0
    · rw [if_pos hlen]
      have hnil := List.length_eq_zero.mp hlen
      rw [hnil]
      exact ⟨rfl, fun c hc => absurd hc (List.not_mem_nil _), rfl⟩
    · rw [if_neg hlen]
      obtain ⟨new, h1, h2, h3, h4⟩ :=
        cronLoop_spec generate (w.events.filter (isPendingEvent now)) w []
      rw [List.nil_append] at h1
      rw [h1]
      exact ⟨h2, h3, h4⟩
  refine ⟨hmain.1, hmain.2.1, hmain.2.2, ?_, rfl, rfl, rfl, ?_⟩
  · intro hnodup e he
    have hids : (certificateCronJob generate now w).2.map (fun c => c.eventId)
        = (w.events.filter (isPendingEvent now)).map (fun e => e.id) := by
      have := congrArg (List.map Prod.fst) hmain.1
      simpa [List.map_map, Function.comp_def] using this
    rw [hids]
    exact count_filter_ids w.events (isPendingEvent now) hnodup e he
  · intro e
    simp [isPendingEvent, and_assoc]

/-- C16 at time 10 for five stored events and a generation function that throws for the
first of them: the events `e1` and `e4` are processed, in that order, and no other. -/
theorem certificateCronJob_invocations_witness :
    (certificateCronJob
        (fun w eventId _ => if eventId = "e1" then (.error "Event not found", w)
          else (.ok ⟨true, none, some 0, []⟩, w))
        10 { exampleWorld [] with events := cronEvents }).2.map
        (fun c => (c.eventId, c.options))
      = [("e1", { sendEmail := true, savePdf := true, forceRegenerate := false }),
          ("e4", { sendEmail := true, savePdf := true, forceRegenerate := false })] :=
  (certificateCronJob_invocations
    (fun w eventId _ => if eventId = "e1" then (.error "Event not found", w)
      else (.ok ⟨true, none, some 0, []⟩, w))
    10 { exampleWorld [] with events := cronEvents }).1

/-! ## Path of a regenerated certificate -/

/-- C14: the code departs from the rule `pdfPath = generated_certificates/<eventId>/
<certificateId>.pdf` when a record is regenerated. For an attendee whose record exists
with certificate id `CERT-20240212-01-u1` and is not yet sent, the run renders the PDF
under the id newly produced by the HTML generation and stores that path, while the
record keeps its old certificate id. -/
theorem generateCertificatesForEvent_regenerated_path :
    ∃ c, findCertificate
        (generateCertificatesForEvent (exampleEnv [])
          { events := [⟨"e1", "Summit", 1, false, false, none⟩],
            users := [⟨"u1", some "ann@example.org", some "Ann Lee", none, none⟩],
            attendances := [⟨"e1", "u1", .present⟩],
            certificates := [exampleCertificate "u1" .generated .failed 1],
            files := [], log := [] }
          "e1" { savePdf := true }).2.certificates "e1" "u1" = some (0, c) ∧
      c.certificateId = "CERT-20240212-01-u1" ∧
      c.pdfPath = "generated_certificates/e1/XXXXXXXXXXXXXXXXXXXX.pdf" ∧
      pdfPathOf (outputDirOf "e1") c.certificateId
        = "generated_certificates/e1/CERT-20240212-01-u1.pdf" ∧
      c.pdfPath ≠ pdfPathOf (outputDirOf "e1") c.certificateId :=
  ⟨_, rfl, rfl, rfl, rfl, by decide⟩

/-! ## Properties of `resendSingleCertificate` -/

/-- Preparing the PDF does not write to the certificate collection. -/
theorem preparePdf_certificates (env : Env)
    (regenerate : World → String → User → Event → List (String × String) → String →
      Except String String)
    (w : World) (eventId : String) (user : User) (event : Event) (cert : Certificate) :
    (preparePdf env regenerate w eventId user event cert).2.certificates = w.certificates := by
  unfold preparePdf
  split
  · rfl
  · dsimp only
    split
    · rfl
    · split <;> rfl

/-- C17: `resendSingleCertificate` throws and leaves the world as it is when the pair has
no certificate, and when the user or the event does not resolve. Otherwise, with the
record `cert` found at position `i` (where the collection holds it): when regeneration
or rendering throws, or when the dispatch throws, the same message is thrown again and
the record is saved with `deliveryStatus = failed`, `failureReason` that message,
`retryCount` one more and `lastAttemptAt` the time of the save, `status` and `emailSent`
being as before; when the dispatch returns, the function returns and the record is
saved with `deliveryStatus = sent`, `status = sent`, `emailSent = true` and `emailSentAt`
the time of the save, the retry count being as before. Every other field of the
record, and every other record, is as before. -/
theorem resendSingleCertificate_spec (env : Env)
    (regenerate : World → String → User → Event → List (String × String) → String →
      Except String String)
    (w : World) (eventId userId : String) :
    (findCertificate w.certificates eventId userId = none →
        resendSingleCertificate env regenerate w eventId userId
          = (.error certificateNotFoundError, w)) ∧
      (∀ i cert, findCertificate w.certificates eventId userId = some (i, cert) →
        (findUser w.users userId = none ∨ findEvent w.events eventId = none) →
        resendSingleCertificate env regenerate w eventId userId
          = (.error userOrEventMissingError, w)) ∧
      (∀ i cert user event, findCertificate w.certificates eventId userId = some (i, cert) →
        findUser w.users userId = some user → findEvent w.events eventId = some event →
        w.certificates.get? i = some cert ∧
        (∀ message w1, preparePdf env regenerate w eventId user event cert
            = (.error message, w1) →
          (resendSingleCertificate env regenerate w eventId userId).1 = .error message ∧
          (resendSingleCertificate env regenerate w eventId userId).2.certificates
            = w.certificates.set i { cert with
                deliveryStatus := .failed, failureReason := some message,
                retryCount := cert.retryCount + 1, lastAttemptAt := some (env.now w1) } ∧
          ∃ d, (resendSingleCertificate env regenerate w eventId userId).2.certificates.get? i
              = some d ∧
            d.deliveryStatus = .failed ∧ d.failureReason = some message ∧
            d.retryCount = cert.retryCount + 1 ∧ d.lastAttemptAt = some (env.now w1) ∧
            d.status = cert.status ∧ d.emailSent = cert.emailSent) ∧
        (∀ pdfPath w1, preparePdf env regenerate w eventId user event cert
            = (.ok pdfPath, w1) →
          (∀ message w2, sendCertificateEmail env w1 user.id user.email user.fullName
              event.title pdfPath = (.error message, w2) →
            (resendSingleCertificate env regenerate w eventId userId).1 = .error message ∧
            (resendSingleCertificate env regenerate w eventId userId).2.certificates
              = w.certificates.set i { cert with
                  deliveryStatus := .failed, failureReason := some message,
                  retryCount := cert.retryCount + 1, lastAttemptAt := some (env.now w2) } ∧
            ∃ d, (resendSingleCertificate env regenerate w eventId userId).2.certificates.get? i
                = some d ∧
              d.deliveryStatus = .failed ∧ d.failureReason = some message ∧
              d.retryCount = cert.retryCount + 1 ∧ d.lastAttemptAt = some (env.now w2) ∧
              d.status = cert.status ∧ d.emailSent = cert.emailSent) ∧
          (∀ w2, sendCertificateEmail env w1 user.id user.email user.fullName
              event.title pdfPath = (.ok (), w2) →
            (resendSingleCertificate env regenerate w eventId userId).1 = .ok () ∧
            (resendSingleCertificate env regenerate w eventId userId).2.certificates
              = w.certificates.set i { cert with
                  deliveryStatus := .sent, emailSent := true,
                  emailSentAt := some (env.now w2), status := .sent } ∧
            ∃ d, (resendSingleCertificate env regenerate w eventId userId).2.certificates.get? i
                = some d ∧
              d.deliveryStatus = .sent ∧ d.status = .sent ∧ d.emailSent = true ∧
              d.emailSentAt = some (env.now w2) ∧ d.retryCount = cert.retryCount ∧
              d.failureReason = cert.failureReason))) := by
  refine ⟨?_, ?_, ?_⟩
  · intro h
    unfold resendSingleCertificate
    rw [h]
  · intro i cert hfound hmissing
    unfold resendSingleCertificate
    rw [hfound]
    dsimp only
    rcases hmissing with h | h
    · rw [h]
    · rw [h]
      cases findUser w.users userId <;> rfl
  · intro i cert user event hfound huser hevent
    have hprep := preparePdf_certificates env regenerate w eventId user event cert
    have hget := (findCertificate_spec eventId userId w.certificates i cert hfound).1
    have hlt : i < w.certificates.length := by
      rcases Nat.lt_or_ge i w.certificates.length with h | h
      · exact h
      · rw [List.get?_eq_none.mpr h] at hget
        cases hget
    have hset : ∀ d : Certificate, (w.certificates.set i d).get? i = some d := by
      intro d
      rw [List.get?_eq_getElem?, List.getElem?_set_self hlt]
    refine ⟨hget, ?_, ?_⟩
    · intro message w1 h
      rw [h] at hprep
      have hc : w1.certificates = w.certificates := hprep
      have hres : (resendSingleCertificate env regenerate w eventId userId)
          = (.error message, w1.saveCertificate i { cert with
              deliveryStatus := .failed, failureReason := some message,
              retryCount := cert.retryCount + 1, lastAttemptAt := some (env.now w1) }) := by
        unfold resendSingleCertificate
        rw [hfound]
        dsimp only
        rw [huser, hevent]
        dsimp only
        rw [h]
      rw [hres]
      refine ⟨rfl, by simp [World.saveCertificate, hc], { cert with
        deliveryStatus := .failed, failureReason := some message,
        retryCount := cert.retryCount + 1, lastAttemptAt := some (env.now w1) },
        ?_, rfl, rfl, rfl, rfl, rfl, rfl⟩
      simp only [World.saveCertificate, hc]
      exact hset _
    · intro pdfPath w1 h
      rw [h] at hprep
      have hsend := (sendCertificateEmail_touches env w1 eventId user.id user.email
        user.fullName event.title pdfPath).2
      constructor
      · intro message w2 hs
        rw [hs] at hsend
        have hc : w2.certificates = w.certificates := Eq.trans hsend hprep
        have hres : (resendSingleCertificate env regenerate w eventId userId)
            = (.error message, w2.saveCertificate i { cert with
                deliveryStatus := .failed, failureReason := some message,
                retryCount := cert.retryCount + 1, lastAttemptAt := some (env.now w2) }) := by
          unfold resendSingleCertificate
          rw [hfound]
          dsimp only
          rw [huser, hevent]
          dsimp only
          rw [h]
          dsimp only
          rw [hs]
        rw [hres]
        refine ⟨rfl, by simp [World.saveCertificate, hc], { cert with
          deliveryStatus := .failed, failureReason := some message,
          retryCount := cert.retryCount + 1, lastAttemptAt := some (env.now w2) },
          ?_, rfl, rfl, rfl, rfl, rfl, rfl⟩
        simp only [World.saveCertificate, hc]
        exact hset _
      · intro w2 hs
        rw [hs] at hsend
        have hc : w2.certificates = w.certificates := Eq.trans hsend hprep
        have hres : (resendSingleCertificate env regenerate w eventId userId)
            = (.ok (), w2.saveCertificate i { cert with
                deliveryStatus := .sent, emailSent := true,
                emailSentAt := some (env.now w2), status := .sent }) := by
          unfold resendSingleCertificate
          rw [hfound]
          dsimp only
          rw [huser, hevent]
          dsimp only
          rw [h]
          dsimp only
          rw [hs]
        rw [hres]
        refine ⟨rfl, by simp [World.saveCertificate, hc], { cert with
          deliveryStatus := .sent, emailSent := true,
          emailSentAt := some (env.now w2), status := .sent },
          ?_, rfl, rfl, rfl, rfl, rfl, rfl⟩
        simp only [World.saveCertificate, hc]
        exact hset _

/-- C17 on a world whose record for `u1` has a retry count of 1 and whose PDF is not on
disk. With a transport that delivers, the call returns and the record ends with
`deliveryStatus` and `status` `sent`, `emailSent` true and the same retry count; with a
transport that throws for the user, the message is thrown again and the record ends as
failed with a retry count of 2; and a call for a user without record changes nothing. -/
theorem resendSingleCertificate_spec_witness :
    ((resendSingleCertificate (exampleEnv []) sampleRegenerate
        (exampleWorld [exampleCertificate "u1" .generated .failed 1]) "e1" "u1").1 = .ok () ∧
      (resendSingleCertificate (exampleEnv []) sampleRegenerate
        (exampleWorld [exampleCertificate "u1" .generated .failed 1]) "e1" "u1").2.certificates
        = [{ exampleCertificate "u1" .sent .sent 1 with
              emailSent := true, emailSentAt := some 4 }]) ∧
      ((resendSingleCertificate (exampleEnv ["ann@example.org"]) sampleRegenerate
        (exampleWorld [exampleCertificate "u1" .generated .failed 1]) "e1" "u1").1
        = .error "Message failed: timeout" ∧
      (resendSingleCertificate (exampleEnv ["ann@example.org"]) sampleRegenerate
        (exampleWorld [exampleCertificate "u1" .generated .failed 1]) "e1" "u1").2.certificates
        = [{ exampleCertificate "u1" .generated .failed 2 with
              failureReason := some "Message failed: timeout", lastAttemptAt := some 4 }]) ∧
      resendSingleCertificate (exampleEnv []) sampleRegenerate
        (exampleWorld [exampleCertificate "u1" .generated .failed 1]) "e1" "u2"
        = (.error certificateNotFoundError,
            exampleWorld [exampleCertificate "u1" .generated .failed 1]) :=
  have hok := (((resendSingleCertificate_spec (exampleEnv []) sampleRegenerate
    (exampleWorld [exampleCertificate "u1" .generated .failed 1]) "e1" "u1").2.2 0 _ _ _
    rfl rfl rfl).2.2 _ _ rfl).2 _ rfl
  have h := (((resendSingleCertificate_spec (exampleEnv ["ann@example.org"]) sampleRegenerate
    (exampleWorld [exampleCertificate "u1" .generated .failed 1]) "e1" "u1").2.2 0 _ _ _
    rfl rfl rfl).2.2 _ _ rfl).1 "Message failed: timeout" _ rfl
  ⟨⟨hok.1, hok.2.1⟩, ⟨h.1, h.2.1⟩,
    (resendSingleCertificate_spec (exampleEnv []) sampleRegenerate
      (exampleWorld [exampleCertificate "u1" .generated .failed 1]) "e1" "u2").1 rfl⟩

/-! ## Properties of the mail sender -/

theorem replaceWhiteSpaceRuns_start (c : Char) (rest : List Char)
    (h : isJSWhiteSpace c = true) :
    replaceWhiteSpaceRuns false (c :: rest) = '_' :: replaceWhiteSpaceRuns true rest := by
  simp [replaceWhiteSpaceRuns, h]

theorem replaceWhiteSpaceRuns_more (c : Char) (rest : List Char)
    (h : isJSWhiteSpace c = true) :
    replaceWhiteSpaceRuns true (c :: rest) = replaceWhiteSpaceRuns true rest := by
  simp [replaceWhiteSpaceRuns, h]

theorem replaceWhiteSpaceRuns_other (inRun : Bool) (c : Char) (rest : List Char)
    (h : isJSWhiteSpace c = false) :
    replaceWhiteSpaceRuns inRun (c :: rest) = c :: replaceWhiteSpaceRuns false rest := by
  simp [replaceWhiteSpaceRuns, h]

theorem replaceWhiteSpaceRuns_clean (inRun : Bool) (s : List Char) :
    ∀ c ∈ replaceWhiteSpaceRuns inRun s, isJSWhiteSpace c = false := by
  induction s generalizing inRun with
  | nil =>
    intro c hc
    simp [replaceWhiteSpaceRuns] at hc
  | cons d rest ih =>
    intro c hc
    by_cases hd : isJSWhiteSpace d = true
    · cases inRun
      · rw [replaceWhiteSpaceRuns_start d rest hd] at hc
        rcases List.mem_cons.mp hc with h | h
        · rw [h]
          decide
        · exact ih true c h
      · rw [replaceWhiteSpaceRuns_more d rest hd] at hc
        exact ih true c hc
    · have hd2 : isJSWhiteSpace d = false := by simpa using hd
      rw [replaceWhiteSpaceRuns_other inRun d rest hd2] at hc
      rcases List.mem_cons.mp hc with h | h
      · rw [h]
        exact hd2
      · exact ih false c h

/-- After a run, a text that does not start with white space is treated as at the
start. -/
theorem replaceWhiteSpaceRuns_flag (s : List Char)
    (h : ∀ c, s.head? = some c → isJSWhiteSpace c = false) :
    replaceWhiteSpaceRuns true s = replaceWhiteSpaceRuns false s := by
  cases s with
  | nil => rfl
  | cons c rest =>
    have hc := h c rfl
    rw [replaceWhiteSpaceRuns_other true c rest hc, replaceWhiteSpaceRuns_other false c rest hc]

/-- A run of white space that continues a run already replaced adds nothing. -/
theorem replaceWhiteSpaceRuns_run (ws b : List Char)
    (hws : ∀ c ∈ ws, isJSWhiteSpace c = true) :
    replaceWhiteSpaceRuns true (ws ++ b) = replaceWhiteSpaceRuns true b := by
  induction ws with
  | nil => rfl
  | cons c rest ih =>
    have hc := hws c (List.mem_cons_self _ _)
    rw [List.cons_append, replaceWhiteSpaceRuns_more c _ hc]
    exact ih (fun d hd => hws d (List.mem_cons_of_mem _ hd))

/-- A text that ends outside a run is replaced independently of what follows. -/
theorem replaceWhiteSpaceRuns_append (a rest : List Char) (inRun : Bool) (ha : a ≠ [])
    (hlast : ∀ c, a.getLast? = some c → isJSWhiteSpace c = false) :
    replaceWhiteSpaceRuns inRun (a ++ rest)
      = replaceWhiteSpaceRuns inRun a ++ replaceWhiteSpaceRuns false rest := by
  induction a generalizing inRun with
  | nil => exact absurd rfl ha
  | cons c a ih =>
    cases a with
    | nil =>
      have hc := hlast c rfl
      rw [List.singleton_append, replaceWhiteSpaceRuns_other inRun c rest hc,
        replaceWhiteSpaceRuns_other inRun c [] hc]
      rfl
    | cons d a2 =>
      have hlast2 : ∀ x, (d :: a2).getLast? = some x → isJSWhiteSpace x = false := by
        intro x hx
        apply hlast x
        rw [List.getLast?_cons_cons]
        exact hx
      have ih2 := fun f => ih f (by simp) hlast2
      by_cases hc : isJSWhiteSpace c = true
      · cases inRun
        · rw [List.cons_append, replaceWhiteSpaceRuns_start c _ hc,
            replaceWhiteSpaceRuns_start c _ hc, ih2 true]
          rfl
        · rw [List.cons_append, replaceWhiteSpaceRuns_more c _ hc,
            replaceWhiteSpaceRuns_more c _ hc, ih2 true]
      · have hc2 : isJSWhiteSpace c = false := by simpa using hc
        rw [List.cons_append, replaceWhiteSpaceRuns_other inRun c _ hc2,
          replaceWhiteSpaceRuns_other inRun c _ hc2, ih2 false]
        rfl

/-- The rule of the replacement: a maximal run of white space between `a` and `b`
becomes one underscore. -/
theorem replaceWhiteSpaceRuns_between (a ws b : List Char) (hne : ws ≠ [])
    (hws : ∀ c ∈ ws, isJSWhiteSpace c = true)
    (hlast : ∀ c, a.getLast? = some c → isJSWhiteSpace c = false)
    (hhead : ∀ c, b.head? = some c → isJSWhiteSpace c = false) :
    replaceWhiteSpaceRuns false (a ++ ws ++ b)
      = replaceWhiteSpaceRuns false a ++ '_' :: replaceWhiteSpaceRuns false b := by
  have hrun : replaceWhiteSpaceRuns false (ws ++ b) = '_' :: replaceWhiteSpaceRuns false b := by
    cases ws with
    | nil => exact absurd rfl hne
    | cons c rest =>
      have hc := hws c (List.mem_cons_self _ _)
      rw [List.cons_append, replaceWhiteSpaceRuns_start c _ hc,
        replaceWhiteSpaceRuns_run rest b (fun d hd => hws d (List.mem_cons_of_mem _ hd)),
        replaceWhiteSpaceRuns_flag b hhead]
  by_cases ha : a = []
  · subst ha
    rw [List.nil_append, hrun]
    rfl
  · rw [List.append_assoc, replaceWhiteSpaceRuns_append a (ws ++ b) false ha hlast, hrun]

/-- On a text whose white space consists of single spaces, the replacement is that of
each space by an underscore. -/
theorem replaceWhiteSpaceRuns_singleSpaces (s : List Char) (h : singleSpaces s = true) :
    replaceWhiteSpaceRuns false s = s.map (fun c => if c = ' ' then '_' else c) := by
  induction s with
  | nil => rfl
  | cons c rest ih =>
    simp only [singleSpaces, Bool.and_eq_true] at h
    obtain ⟨hc, hrest⟩ := h
    by_cases hw : isJSWhiteSpace c = true
    · simp only [hw, if_true, Bool.and_eq_true, beq_iff_eq] at hc
      obtain ⟨hsp, hnext⟩ := hc
      have hflag : replaceWhiteSpaceRuns true rest = replaceWhiteSpaceRuns false rest := by
        apply replaceWhiteSpaceRuns_flag
        intro d hd
        cases rest with
        | nil => cases hd
        | cons e r =>
          simp only [List.head?_cons, Option.some.injEq] at hd
          subst hd
          simpa using hnext
      rw [replaceWhiteSpaceRuns_start c rest hw, hflag, ih hrest, List.map_cons, if_pos hsp]
    · have hw2 : isJSWhiteSpace c = false := by simpa using hw
      have hne : ¬ c = ' ' := by
        intro e
        rw [e] at hw
        exact hw (by decide)
      rw [replaceWhiteSpaceRuns_other false c rest hw2, ih hrest, List.map_cons, if_neg hne]

/-- The dispatch as the service calls it, with a path and no buffer, in terms of the
sender with all its parameters: the outcome is the same. -/
theorem sendCertificateEmail_eq_with (env : Env) (w : World) (forUser : String)
    (recipient participantName : Option String) (eventName pdfPath : String) :
    (sendCertificateEmail env w forUser recipient participantName eventName pdfPath).1
      = (sendCertificateEmailWith (fun p => decide (p ∈ w.files))
          (fun _ => env.sendMail (w.logCall (.sendCertificateEmail forUser recipient pdfPath))
            recipient participantName eventName pdfPath)
          ⟨recipient, participantName, eventName, some pdfPath, none⟩).1 := by
  unfold sendCertificateEmail sendCertificateEmailWith
  have hfiles : (w.logCall (.sendCertificateEmail forUser recipient pdfPath)).files = w.files :=
    rfl
  by_cases h : pdfPath.data ≠ [] ∧ pdfPath ∈ w.files
  · have h2 : truthyString (some pdfPath) = true ∧ decide (pdfPath ∈ w.files) = true := by
      simpa [truthyString] using h
    simp only [hfiles, h, h2, ne_eq, not_false_eq_true, and_self, if_true, Option.getD_some]
    split <;> rfl
  · have h2 : ¬ (truthyString (some pdfPath) = true ∧ decide (pdfPath ∈ w.files) = true) := by
      simpa [truthyString] using h
    simp only [hfiles, h, h2, if_false, Option.getD_some]

/-- C18 as stated fails: when both a buffer and the path of an existing file are
supplied, so that both inputs resolve to content, `sendCertificateEmail` does not fail;
it attaches the buffer and hands the mail to the transport. -/
theorem sendCertificateEmailWith_both_counterexample :
    sendCertificateEmailWith (fun p => p == "a.pdf") (fun _ => none)
        ⟨some "ann@example.org", some "Ann Lee", "Summit", some "a.pdf", some [37, 80, 68, 70]⟩
      = (.ok (), [⟨some "ann@example.org", "Certificate_Ann_Lee.pdf",
          .buffer [37, 80, 68, 70]⟩]) :=
  rfl

/-- C18, amended: `sendCertificateEmail` fails with the no-attachment error, without
handing a mail to the transport, exactly when neither input resolves to content: no
buffer is supplied, and no path is supplied or the file of the path does not exist.
In every other case one mail is handed to the transport, with the buffer as attachment
when one is supplied (also when a path is supplied as well) and the file of the path
otherwise, and the outcome is that of the transport. -/
theorem sendCertificateEmailWith_attachment (fileExists : String → Bool)
    (transport : MailOptions → Option String) (params : MailParams) :
    (sendCertificateEmailWith fileExists transport params = (.error noPdfContentError, []) ↔
        (params.pdfBuffer = none ∧
          ¬ (truthyString params.pdfPath = true ∧
            fileExists (params.pdfPath.getD "") = true))) ∧
      (∀ bytes, params.pdfBuffer = some bytes →
        (sendCertificateEmailWith fileExists transport params).2
          = [⟨params.recipient, attachmentFilename params.participantName, .buffer bytes⟩]) ∧
      (params.pdfBuffer = none → truthyString params.pdfPath = true →
        fileExists (params.pdfPath.getD "") = true →
        (sendCertificateEmailWith fileExists transport params).2
          = [⟨params.recipient, attachmentFilename params.participantName,
              .file (params.pdfPath.getD "")⟩]) ∧
      (∀ mail ∈ (sendCertificateEmailWith fileExists transport params).2,
        (sendCertificateEmailWith fileExists transport params).1
          = match transport mail with
            | some message => .error message
            | none => .ok ()) := by
  unfold sendCertificateEmailWith
  rcases hb : params.pdfBuffer with _ | bytes
  · by_cases hp : truthyString params.pdfPath = true ∧ fileExists (params.pdfPath.getD "") = true
    · simp only [hp, and_self, if_true, not_true_eq_false, and_false, iff_false]
      refine ⟨?_, fun b hb2 => (by cases hb2), ?_, ?_⟩
      · split <;> simp
      · intro _ _ _
        split <;> rfl
      · intro mail hmail
        split at hmail <;> simp at hmail <;> subst hmail <;> simp [*]
    · simp only [hp, if_false, not_false_eq_true, and_self, true_iff]
      refine ⟨trivial, fun b hb2 => (by cases hb2), ?_, ?_⟩
      · intro _ h1 h2
        exact absurd ⟨h1, h2⟩ hp
      · intro mail hmail
        simp at hmail
  · simp only [false_and, iff_false]
    refine ⟨?_, ?_, fun h => (by cases h), ?_⟩
    · split <;> simp
    · intro b hb2
      cases hb2
      split <;> rfl
    · intro mail hmail
      split at hmail <;> simp at hmail <;> subst hmail <;> simp [*]

/-- C18, amended, for a call with the path of a missing file and no buffer: the
no-attachment error, and no mail handed to the transport. -/
theorem sendCertificateEmailWith_attachment_witness :
    sendCertificateEmailWith (fun _ => false) (fun _ => none)
        ⟨some "ann@example.org", some "Ann Lee", "Summit", some "a.pdf", none⟩
      = (.error noPdfContentError, []) :=
  (sendCertificateEmailWith_attachment (fun _ => false) (fun _ => none)
    ⟨some "ann@example.org", some "Ann Lee", "Summit", some "a.pdf", none⟩).1.mpr
    ⟨rfl, by decide⟩

/-- C19 as stated fails: white space is replaced run by run, not space by space. For the
name `Ann  Lee`, with two spaces, the attachment is `Certificate_Ann_Lee.pdf`, while
replacing each space gives `Certificate_Ann__Lee.pdf`; and a tab is replaced as
well. -/
theorem attachmentFilename_runs_counterexample :
    attachmentFilename (some "Ann  Lee") = "Certificate_Ann_Lee.pdf" ∧
      eachSpaceToUnderscore "Ann  Lee" = "Certificate_Ann__Lee.pdf" ∧
      attachmentFilename (some "Ann  Lee") ≠ eachSpaceToUnderscore "Ann  Lee" ∧
      attachmentFilename (some "Ann\tLee") = "Certificate_Ann_Lee.pdf" := by
  refine ⟨rfl, rfl, by decide, rfl⟩

/-- C19, amended: the attachment file name is `Certificate_` followed by the participant
name with each maximal run of white space replaced by one underscore, followed by
`.pdf`; the name is `Participant` when none or an empty one is supplied. The file
name contains no white space. When the white space of the name consists of single
spaces, the file name is the name with each space replaced by an underscore. -/
theorem attachmentFilename_spec (participantName : Option String) :
    (∀ c ∈ (attachmentFilename participantName).data, isJSWhiteSpace c = false) ∧
      (truthyString participantName = false →
        attachmentFilename participantName = "Certificate_Participant.pdf") ∧
      (∀ name, participantName = some name → name.data ≠ [] →
        singleSpaces name.data = true →
        attachmentFilename participantName = eachSpaceToUnderscore name) ∧
      (∀ a ws b, participantName = some (String.mk (a ++ ws ++ b)) → ws ≠ [] →
        (∀ c ∈ ws, isJSWhiteSpace c = true) →
        (∀ c, a.getLast? = some c → isJSWhiteSpace c = false) →
        (∀ c, b.head? = some c → isJSWhiteSpace c = false) →
        attachmentFilename participantName
          = String.mk ("Certificate_".data ++ (replaceWhiteSpaceRuns false a
              ++ '_' :: replaceWhiteSpaceRuns false b) ++ ".pdf".data)) := by
  refine ⟨?_, ?_, ?_, ?_⟩
  · intro c hc
    unfold attachmentFilename at hc
    simp only [List.append_assoc, List.mem_append] at hc
    rcases hc with h | h | h
    · have : ∀ d ∈ "Certificate_".data, isJSWhiteSpace d = false := by decide
      exact this c h
    · exact replaceWhiteSpaceRuns_clean _ _ c h
    · have : ∀ d ∈ ".pdf".data, isJSWhiteSpace d = false := by decide
      exact this c h
  · intro h
    unfold attachmentFilename
    simp only [h, Bool.false_eq_true, if_false]
    rfl
  · intro name hname hne hsingle
    subst hname
    have ht : truthyString (some name) = true := by simpa [truthyString] using hne
    unfold attachmentFilename eachSpaceToUnderscore
    simp only [ht, if_true, Option.getD_some]
    rw [replaceWhiteSpaceRuns_singleSpaces name.data hsingle]
  · intro a ws b hname hne hws hlast hhead
    subst hname
    have hdata : (a ++ ws ++ b) ≠ [] := by
      cases ws with
      | nil => exact absurd rfl hne
      | cons c rest => simp
    have ht : truthyString (some (String.mk (a ++ ws ++ b))) = true := by
      simpa [truthyString] using hdata
    unfold attachmentFilename
    simp only [ht, if_true, Option.getD_some]
    rw [replaceWhiteSpaceRuns_between a ws b hne hws hlast hhead]

/-- C19, amended, for the names `Ann Lee`, none, and `Ann` and `Lee` separated by a
space, a tab and a space. -/
theorem attachmentFilename_spec_witness :
    attachmentFilename (some "Ann Lee") = "Certificate_Ann_Lee.pdf" ∧
      attachmentFilename none = "Certificate_Participant.pdf" ∧
      attachmentFilename (some "Ann \t Lee") = "Certificate_Ann_Lee.pdf" :=
  ⟨(attachmentFilename_spec (some "Ann Lee")).2.2.1 "Ann Lee" rfl (by decide) (by decide),
    (attachmentFilename_spec none).2.1 rfl,
    (attachmentFilename_spec (some "Ann \t Lee")).2.2.2 ['A', 'n', 'n'] [' ', '\t', ' ']
      ['L', 'e', 'e'] rfl (by decide) (by decide) (by decide) (by decide)⟩

/-! ## Properties of the membership operations -/

/-- A call that returns: what it leaves of the three ownership fields. -/
theorem EventDoc.apply_ok (e e1 : EventDoc) (op : EventOp) (h : e.apply op = .ok e1) :
    e1.createdBy = e.createdBy ∧
      (e1.subAdmins = e.subAdmins ∨
        (∃ u, op = .addSubAdmin u ∧ e.subAdmins.length < 3 ∧ e.isMainAdmin u = false ∧
          e1.subAdmins = e.subAdmins ++ [u]) ∨
        ∃ i, e1.subAdmins = e.subAdmins.eraseIdx i) ∧
      (e1.participants = e.participants ∨
        (∃ u, (op = .addParticipant u ∨
            (op = .joinEvent u ∧ e.getUserPermission u = .none)) ∧
          e1.participants = e.participants ++ [u]) ∨
        ∃ i, e1.participants = e.participants.eraseIdx i) := by
  cases op with
  | addSubAdmin u =>
    simp only [EventDoc.apply, EventDoc.addSubAdmin] at h
    split at h
    · cases h
    · split at h
      · cases h
      · split at h
        · cases h
        · rename_i hlen _ hm
          simp only [Except.ok.injEq] at h
          subst h
          refine ⟨rfl, Or.inr (Or.inl ⟨u, rfl, by omega, by simpa using hm, rfl⟩), Or.inl rfl⟩
  | removeSubAdmin u =>
    simp only [EventDoc.apply, EventDoc.removeSubAdmin] at h
    split at h
    · cases h
    · simp only [Except.ok.injEq] at h
      subst h
      exact ⟨rfl, Or.inr (Or.inr ⟨_, rfl⟩), Or.inl rfl⟩
  | addParticipant u =>
    simp only [EventDoc.apply, EventDoc.addParticipant] at h
    split at h
    · cases h
    · simp only [Except.ok.injEq] at h
      subst h
      exact ⟨rfl, Or.inl rfl, Or.inr (Or.inl ⟨u, Or.inl rfl, rfl⟩)⟩
  | removeParticipant u =>
    simp only [EventDoc.apply, EventDoc.removeParticipant] at h
    split at h
    · cases h
    · simp only [Except.ok.injEq] at h
      subst h
      exact ⟨rfl, Or.inl rfl, Or.inr (Or.inr ⟨_, rfl⟩)⟩
  | joinEvent u =>
    simp only [EventDoc.apply, EventDoc.joinEvent, EventDoc.addParticipant] at h
    split at h
    · cases h
    · rename_i hperm
      split at h
      · cases h
      · simp only [Except.ok.injEq] at h
        subst h
        exact ⟨rfl, Or.inl rfl,
          Or.inr (Or.inl ⟨u, Or.inr ⟨rfl, by simpa using hperm⟩, rfl⟩)⟩

theorem EventDoc.apply_subAdmins_length (e e1 : EventDoc) (op : EventOp)
    (hle : e.subAdmins.length ≤ 3) (h : e.apply op = .ok e1) : e1.subAdmins.length ≤ 3 := by
  rcases (EventDoc.apply_ok e e1 op h).2.1 with h1 | ⟨u, _, hlt, _, h1⟩ | ⟨i, h1⟩
  · rw [h1]
    exact hle
  · rw [h1, List.length_append, List.length_singleton]
    omega
  · rw [h1]
    exact le_trans (List.length_eraseIdx_le _ _) hle

theorem EventDoc.isMainAdmin_creator (e : EventDoc) (c u : String)
    (hc : e.createdBy = some c) (hne : c.data ≠ []) : e.isMainAdmin u = decide (c = u) := by
  have hg : getId (some c) = some c := by simp [getId, hne]
  unfold EventDoc.isMainAdmin
  rw [hc, hg]
  by_cases h : c = u <;> simp [h]

theorem EventDoc.apply_subAdmins_creator (e e1 : EventDoc) (op : EventOp) (c : String)
    (hc : e.createdBy = some c) (hne : c.data ≠ []) (hno : c ∉ e.subAdmins)
    (h : e.apply op = .ok e1) : c ∉ e1.subAdmins := by
  rcases (EventDoc.apply_ok e e1 op h).2.1 with h1 | ⟨u, _, _, hm, h1⟩ | ⟨i, h1⟩
  · rw [h1]
    exact hno
  · rw [h1]
    have hcu : ¬ c = u := by simpa [EventDoc.isMainAdmin_creator e c u hc hne] using hm
    simp only [List.mem_append, List.mem_singleton, not_or]
    exact ⟨hno, hcu⟩
  · rw [h1]
    exact fun hm => hno (List.mem_of_mem_eraseIdx hm)

theorem EventDoc.apply_participants_creator (e e1 : EventDoc) (op : EventOp) (c : String)
    (hc : e.createdBy = some c) (hne : c.data ≠ []) (hno : c ∉ e.participants)
    (hop : op ≠ .addParticipant c) (h : e.apply op = .ok e1) : c ∉ e1.participants := by
  rcases (EventDoc.apply_ok e e1 op h).2.2 with h1 | ⟨u, hu, h1⟩ | ⟨i, h1⟩
  · rw [h1]
    exact hno
  · rw [h1]
    have hcu : ¬ c = u := by
      intro e2
      rcases hu with hu | ⟨_, hperm⟩
      · exact hop (by rw [hu, e2])
      · have hmain := EventDoc.isMainAdmin_creator e c u hc hne
        simp [EventDoc.getUserPermission, hmain, e2] at hperm
    simp only [List.mem_append, List.mem_singleton, not_or]
    exact ⟨hno, hcu⟩
  · rw [h1]
    exact fun hm => hno (List.mem_of_mem_eraseIdx hm)

/-- C23: starting from an event with at most 3 sub-admins, every sequence of calls of
`addSubAdmin`, `removeSubAdmin`, `addParticipant`, `removeParticipant` (and of the join
step of the controller) leaves at most 3 sub-admins; `addSubAdmin` throws, and leaves
the document as it is, when the event has 3 sub-admins and when the user is already a
sub-admin. For an id that is not empty, being a sub-admin is being in the list. -/
theorem run_subAdminLimit (e : EventDoc) (ops : List EventOp) (h : e.subAdmins.length ≤ 3) :
    (e.run ops).subAdmins.length ≤ 3 ∧
      (∀ u, e.subAdmins.length = 3 →
        e.addSubAdmin u = .error "Maximum 3 sub-admins allowed") ∧
      (∀ u, e.subAdmins.length < 3 → e.isSubAdmin u = true →
        e.addSubAdmin u = .error "User is already a sub-admin") ∧
      (∀ u, (e.subAdmins.length = 3 ∨ e.isSubAdmin u = true) →
        e.run [.addSubAdmin u] = e) ∧
      (∀ u : String, u.data ≠ [] → (e.isSubAdmin u = true ↔ u ∈ e.subAdmins)) := by
  refine ⟨?_, ?_, ?_, ?_, ?_⟩
  · induction ops generalizing e with
    | nil => exact h
    | cons op ops ih =>
      rcases hop : e.apply op with message | e1
      · simp only [EventDoc.run, hop]
        exact ih e h
      · simp only [EventDoc.run, hop]
        exact ih e1 (EventDoc.apply_subAdmins_length e e1 op h hop)
  · intro u h3
    simp [EventDoc.addSubAdmin, h3]
  · intro u hlt hsub
    have hge : ¬ e.subAdmins.length ≥ 3 := by omega
    simp [EventDoc.addSubAdmin, hge, hsub]
  · intro u hcase
    have herr : ∃ message, e.addSubAdmin u = .error message := by
      by_cases hge : e.subAdmins.length ≥ 3
      · exact ⟨"Maximum 3 sub-admins allowed", by simp [EventDoc.addSubAdmin, hge]⟩
      · rcases hcase with h3 | hsub
        · omega
        · exact ⟨"User is already a sub-admin", by simp [EventDoc.addSubAdmin, hge, hsub]⟩
    obtain ⟨message, hm⟩ := herr
    simp [EventDoc.run, EventDoc.apply, hm]
  · intro u hu
    simp only [EventDoc.isSubAdmin, List.any_eq_true, beq_iff_eq]
    constructor
    · rintro ⟨a, ha, hid⟩
      simp only [getId] at hid
      split at hid
      · cases hid
      · cases hid
        exact ha
    · intro hmem
      exact ⟨u, hmem, by simp [getId, hu]⟩

/-- C23 for an event with two sub-admins and a sequence that tries to add three more. -/
theorem run_subAdminLimit_witness :
    (EventDoc.run ⟨some "c", ["a", "b"], []⟩
        [.addSubAdmin "d", .addSubAdmin "e", .addParticipant "p", .removeSubAdmin "a",
          .addSubAdmin "b", .addSubAdmin "f", .addSubAdmin "g"]).subAdmins.length ≤ 3 ∧
      (EventDoc.run ⟨some "c", ["a", "b"], []⟩
        [.addSubAdmin "d", .addSubAdmin "e", .addParticipant "p", .removeSubAdmin "a",
          .addSubAdmin "b", .addSubAdmin "f", .addSubAdmin "g"]).subAdmins = ["b", "d", "f"] :=
  ⟨(run_subAdminLimit ⟨some "c", ["a", "b"], []⟩
      [.addSubAdmin "d", .addSubAdmin "e", .addParticipant "p", .removeSubAdmin "a",
        .addSubAdmin "b", .addSubAdmin "f", .addSubAdmin "g"] (by decide)).1, by decide⟩

/-- C24 as stated fails: the model operation `addParticipant` does not test for the
creator. Called with the creator's id on an event whose creator is in neither list, it
adds the creator to the participants. -/
theorem run_creator_counterexample :
    EventDoc.run ⟨some "c", [], []⟩ [.addParticipant "c"] = ⟨some "c", [], ["c"]⟩ ∧
      "c" ∈ (EventDoc.run ⟨some "c", [], []⟩ [.addParticipant "c"]).participants := by
  constructor <;> decide

/-- C24, amended: starting from an event whose creator is not a sub-admin, every
sequence of calls of the membership operations, with any user id, leaves the creator
out of the sub-admins; and starting from an event whose creator is not a participant,
every sequence in which `addParticipant` is not called with the creator's id leaves
the creator out of the participants. The join step of the controller may be called
with any id: it turns the creator away before `addParticipant` is reached. -/
theorem run_creator (e : EventDoc) (ops : List EventOp) (c : String)
    (hc : e.createdBy = some c) (hne : c.data ≠ []) :
    (c ∉ e.subAdmins → c ∉ (e.run ops).subAdmins) ∧
      (c ∉ e.participants → (∀ op ∈ ops, op ≠ .addParticipant c) →
        c ∉ (e.run ops).participants) ∧
      e.joinEvent c = .error "You're already part of this event" := by
  refine ⟨?_, ?_, ?_⟩
  · intro hno
    induction ops generalizing e with
    | nil => exact hno
    | cons op ops ih =>
      rcases hop : e.apply op with message | e1
      · simp only [EventDoc.run, hop]
        exact ih e hc hno
      · simp only [EventDoc.run, hop]
        exact ih e1 ((EventDoc.apply_ok e e1 op hop).1.trans hc)
          (EventDoc.apply_subAdmins_creator e e1 op c hc hne hno hop)
  · intro hno hops
    induction ops generalizing e with
    | nil => exact hno
    | cons op ops ih =>
      have hrest : ∀ op2 ∈ ops, op2 ≠ .addParticipant c :=
        fun op2 h2 => hops op2 (List.mem_cons_of_mem _ h2)
      rcases hop : e.apply op with message | e1
      · simp only [EventDoc.run, hop]
        exact ih e hc hno hrest
      · simp only [EventDoc.run, hop]
        exact ih e1 ((EventDoc.apply_ok e e1 op hop).1.trans hc)
          (EventDoc.apply_participants_creator e e1 op c hc hne hno
            (hops op (List.mem_cons_self _ _)) hop) hrest
  · have hmain := EventDoc.isMainAdmin_creator e c c hc hne
    simp [EventDoc.joinEvent, EventDoc.getUserPermission, hmain]

/-- C24, amended, for the creator `c` and a sequence that tries to make the creator a
sub-admin and, through the join step, a participant. -/
theorem run_creator_witness :
    "c" ∉ (EventDoc.run ⟨some "c", ["a"], ["p"]⟩
        [.addSubAdmin "c", .joinEvent "c", .addParticipant "q", .removeSubAdmin "a",
          .addSubAdmin "c"]).subAdmins ∧
      "c" ∉ (EventDoc.run ⟨some "c", ["a"], ["p"]⟩
        [.addSubAdmin "c", .joinEvent "c", .addParticipant "q", .removeSubAdmin "a",
          .addSubAdmin "c"]).participants :=
  ⟨(run_creator ⟨some "c", ["a"], ["p"]⟩
      [.addSubAdmin "c", .joinEvent "c", .addParticipant "q", .removeSubAdmin "a",
        .addSubAdmin "c"] "c" rfl (by decide)).1 (by decide),
    (run_creator ⟨some "c", ["a"], ["p"]⟩
      [.addSubAdmin "c", .joinEvent "c", .addParticipant "q", .removeSubAdmin "a",
        .addSubAdmin "c"] "c" rfl (by decide)).2.1 (by decide) (by decide)⟩

/-! ## Properties of the PDF generator -/

theorem andThen_close {α : Type} (outcome : Option String) (call : EngineCall)
    (next : Except String α × List EngineCall) (hcall : call ≠ .close)
    (hnext : EngineCall.close ∉ next.2) : EngineCall.close ∉ (andThen outcome call next).2 := by
  unfold andThen
  cases outcome with
  | none =>
    simp only [List.mem_cons, not_or]
    exact ⟨fun e => hcall e.symm, hnext⟩
  | some message =>
    simp only [List.mem_singleton]
    exact fun e => hcall e.symm

theorem renderAndSave_close (engine : Engine) (outputPath : Option String) :
    EngineCall.close ∉ (renderAndSave engine outputPath).2 := by
  unfold renderAndSave
  apply andThen_close _ _ _ (by decide)
  split
  · simp
  · split
    · split <;> simp
    · simp

/-- The `try` block does not close the browser. -/
theorem pdfBody_close (engine : Engine) (htmlContent : String) (outputPath : Option String) :
    EngineCall.close ∉ (pdfBody engine htmlContent outputPath).2 := by
  unfold pdfBody
  apply andThen_close _ _ _ (by decide)
  apply andThen_close _ _ _ (by decide)
  split
  · exact andThen_close _ _ _ (by decide) (renderAndSave_close engine outputPath)
  · split
    · exact andThen_close _ _ _ (by decide) (renderAndSave_close engine outputPath)
    · simp

/-- C25: in `htmlToPdf`, when the launch of the rendering engine returns, `close` is
called once, as the last call, whatever the `try` block does (normal return, input
that is neither HTML nor a file, failure of a page call or of the PDF, failure of the
write to disk); the outcome is that of the `try` block unless `close` itself throws.
When the launch throws, `close` is not called and the error of the launch is
thrown. -/
theorem htmlToPdf_close (engine : Engine) (htmlContent : String) (outputPath : Option String) :
    (engine.launch = none →
        (htmlToPdf engine htmlContent outputPath).2.count .close = 1 ∧
        (htmlToPdf engine htmlContent outputPath).2
          = .launch :: (pdfBody engine htmlContent outputPath).2 ++ [.close] ∧
        (engine.close = none →
          (htmlToPdf engine htmlContent outputPath).1
            = (pdfBody engine htmlContent outputPath).1)) ∧
      (∀ message, engine.launch = some message →
        htmlToPdf engine htmlContent outputPath = (.error message, [.launch]) ∧
        EngineCall.close ∉ (htmlToPdf engine htmlContent outputPath).2) := by
  constructor
  · intro hlaunch
    have hlog : (htmlToPdf engine htmlContent outputPath).2
        = .launch :: (pdfBody engine htmlContent outputPath).2 ++ [.close] := by
      unfold htmlToPdf
      rw [hlaunch]
      dsimp only
      split <;> rfl
    refine ⟨?_, hlog, ?_⟩
    · rw [hlog]
      have hbody := pdfBody_close engine htmlContent outputPath
      have h0 : (pdfBody engine htmlContent outputPath).2.count .close = 0 :=
        List.count_eq_zero_of_not_mem hbody
      simp [List.count_cons, h0]
    · intro hclose
      unfold htmlToPdf
      rw [hlaunch]
      dsimp only
      rw [hclose]
  · intro message hlaunch
    have h : htmlToPdf engine htmlContent outputPath = (.error message, [.launch]) := by
      unfold htmlToPdf
      rw [hlaunch]
    refine ⟨h, ?_⟩
    rw [h]
    simp

/-- C25 for an engine whose write to disk fails, and for one whose launch fails. -/
theorem htmlToPdf_close_witness :
    htmlToPdf { sampleEngine with writeFile := some "ENOSPC" } "<html></html>" (some "a.pdf")
        = (.error "ENOSPC", [.launch, .newPage, .setViewport, .setContent, .evaluate, .pdf,
            .writeFile "a.pdf", .close]) ∧
      (htmlToPdf { sampleEngine with writeFile := some "ENOSPC" } "<html></html>"
        (some "a.pdf")).2.count .close = 1 ∧
      htmlToPdf { sampleEngine with launch := some "no browser" } "<html></html>" (some "a.pdf")
        = (.error "no browser", [.launch]) :=
  ⟨rfl,
    ((htmlToPdf_close { sampleEngine with writeFile := some "ENOSPC" } "<html></html>"
      (some "a.pdf")).1 rfl).1,
    ((htmlToPdf_close { sampleEngine with launch := some "no browser" } "<html></html>"
      (some "a.pdf")).2 "no browser" rfl).1⟩

/-! ## Properties of the request handlers -/

/-- C21 as stated fails: the handlers answer every error of the service with status 500.
`generateBulk` for an event that does not exist, and `resendSingle` for a pair without
certificate, respond with 500, not 404. -/
theorem generateBulk_status_counterexample :
    (generateBulk (exampleEnv []) (exampleWorld []) (some "e9") false true).1.status = 500 ∧
      (resendSingle (exampleEnv []) sampleRegenerate (exampleWorld []) "e1" "u1").1.status
        = 500 := by
  constructor <;> rfl

/-- C21, amended: `generateBulk` called with the id of an event that does not exist
responds with status 500 and the body `{ success: false, message: "Event not found" }`,
and `resendSingle` called for a pair without Certificate record responds with status 500
and the message `Certificate not found. Please generate first.`; in both cases nothing
is changed. -/
theorem generateBulk_missing (env : Env)
    (regenerate : World → String → User → Event → List (String × String) → String →
      Except String String)
    (w : World) (eventId userId : String) (forceRegenerate sendEmail : Bool) :
    (eventId.data ≠ [] → findEvent w.events eventId = none →
        generateBulk env w (some eventId) forceRegenerate sendEmail
          = ({ status := 500, success := false, message := some "Event not found" }, w)) ∧
      (findCertificate w.certificates eventId userId = none →
        resendSingle env regenerate w eventId userId
          = ({ status := 500, success := false, message := some certificateNotFoundError },
              w)) := by
  constructor
  · intro hid hnone
    have ht : truthyString (some eventId) = true := by simpa [truthyString] using hid
    simp [generateBulk, ht, generateCertificatesForEvent, hnone]
  · intro hnone
    simp [resendSingle, resendSingleCertificate, hnone]

/-- C21, amended, on the sample world: the event `e9` does not exist and the user `u1`
has no certificate. -/
theorem generateBulk_missing_witness :
    generateBulk (exampleEnv []) (exampleWorld []) (some "e9") false true
        = ({ status := 500, success := false, message := some "Event not found" },
            exampleWorld []) ∧
      resendSingle (exampleEnv []) sampleRegenerate (exampleWorld []) "e9" "u1"
        = ({ status := 500, success := false,
             message := some "Certificate not found. Please generate first." },
            exampleWorld []) :=
  ⟨(generateBulk_missing (exampleEnv []) sampleRegenerate (exampleWorld []) "e9" "u1"
      false true).1 (by decide) rfl,
    (generateBulk_missing (exampleEnv []) sampleRegenerate (exampleWorld []) "e9" "u1"
      false true).2 rfl⟩

/-- C22: for a certificate id that no Certificate record has, `verifyCertificate` responds
with status 404 and a body whose `valid` is `false`; and in every case, also when the
query throws or a reference of the record does not resolve, the handler sends a
response and no error escapes it. -/
theorem verifyCertificate_unknown (w : World) (queryError : Option String)
    (certificateId : String) :
    (∃ response, verifyCertificate w queryError certificateId = .ok response) ∧
      ((∀ c ∈ w.certificates, c.certificateId ≠ certificateId) →
        verifyCertificate w none certificateId
          = .ok { status := 404, success := false, valid := some false,
                  message := some "Certificate not found" }) ∧
      (∀ message, verifyCertificateTry w queryError certificateId = .error message →
        verifyCertificate w queryError certificateId
          = .ok { status := 500, success := false, message := some message }) := by
  refine ⟨?_, ?_, ?_⟩
  · unfold verifyCertificate
    split
    · exact ⟨_, rfl⟩
    · exact ⟨_, rfl⟩
  · intro hnone
    have hfind : w.certificates.find? (fun c => c.certificateId == certificateId) = none := by
      rw [List.find?_eq_none]
      intro c hc
      simpa using hnone c hc
    simp [verifyCertificate, verifyCertificateTry, hfind]
  · intro message h
    simp [verifyCertificate, h]

/-- C22 on a world with one certificate: an unknown id is answered with 404, and the id
of a record whose user does not resolve is answered with 500. -/
theorem verifyCertificate_unknown_witness :
    verifyCertificate (exampleWorld [exampleCertificate "u7" .sent .sent 0]) none "CERT-0"
        = .ok { status := 404, success := false, valid := some false,
                message := some "Certificate not found" } ∧
      verifyCertificate (exampleWorld [exampleCertificate "u7" .sent .sent 0]) none
          "CERT-20240212-01-u7"
        = .ok { status := 500, success := false,
                message := some "Cannot read properties of null (reading 'firstName')" } :=
  ⟨(verifyCertificate_unknown (exampleWorld [exampleCertificate "u7" .sent .sent 0]) none
      "CERT-0").2.1 (by decide),
    (verifyCertificate_unknown (exampleWorld [exampleCertificate "u7" .sent .sent 0]) none
      "CERT-20240212-01-u7").2.2 _ rfl⟩

/-! ## Repeated rendering -/

/-- C27 as stated fails: the template `{{a}{{b}}}` with the empty map renders to
`{{a}}`, and `{{a}}` renders to the empty text. -/
theorem fillPlaceholders_idempotent_counterexample :
    fillPlaceholders sampleRegexReplace "{{a}{{b}}}" [] = .ok "{{a}}" ∧
      fillPlaceholders sampleRegexReplace "{{a}}" [] = .ok "" ∧
      ("{{a}}" : String) ≠ "" :=
  ⟨rfl, rfl, by decide⟩

/-- C27, amended: for every template text and every map whose keys are non-empty and
contain no regular-expression syntax character, whatever the values: when the rendering
holds no placeholder token, rendering it again gives it back. The rendering holds no
placeholder token whenever the text handed to the final pass has no joint (no `}` that
directly follows a character other than `}` and is directly followed by `{{`), so that
no removal brings text together into a new placeholder. And rendering leaves every text
without placeholder token as it is. -/
theorem fillPlaceholders_idempotent
    (regexReplace : List Char → List Char → List Char → Except String (List Char))
    (html : String) (data : JSObject) (r : String)
    (hkeys : ∀ e ∈ data, plainKey e.1.data = true ∧ e.1.data ≠ [])
    (hr : fillPlaceholders regexReplace html data = .ok r) :
    (hasToken r.data = false → fillPlaceholders regexReplace r data = .ok r) ∧
      (∀ s, substituteEntries regexReplace html.data data = .ok s → hasJoint s = false →
        hasToken r.data = false ∧ fillPlaceholders regexReplace r data = .ok r) ∧
      ∀ t : String, hasToken t.data = false → fillPlaceholders regexReplace t data = .ok t := by
  have hfix : ∀ t : String, hasToken t.data = false →
      fillPlaceholders regexReplace t data = .ok t :=
    fun t ht => fillPlaceholders_fixed regexReplace t.data data hkeys ht
  refine ⟨hfix r, ?_, hfix⟩
  intro s hs hclean
  have hrs : r = String.mk (stripTokens s) := by
    unfold fillPlaceholders at hr
    rw [hs] at hr
    exact (Except.ok.inj hr).symm
  have hno : hasToken r.data = false := by
    rw [hrs]
    exact hasToken_stripTokens s hclean
  exact ⟨hno, hfix r hno⟩

/-- C27, amended, at a template with a style rule, a known placeholder and two unknown
ones in a row, and a value with braces and a dollar sign: the rendering holds no
placeholder token, and rendering it again gives it back. -/
theorem fillPlaceholders_idempotent_witness :
    fillPlaceholders sampleRegexReplace
        "<style>p { margin: 0 }</style>{{name}}{{other}}{{more}}!" [("name", .str "{Ann} $5")]
        = .ok "<style>p { margin: 0 }</style>{Ann} $5!" ∧
      fillPlaceholders sampleRegexReplace "<style>p { margin: 0 }</style>{Ann} $5!"
        [("name", .str "{Ann} $5")] = .ok "<style>p { margin: 0 }</style>{Ann} $5!" :=
  ⟨rfl, (fillPlaceholders_idempotent sampleRegexReplace
    "<style>p { margin: 0 }</style>{{name}}{{other}}{{more}}!" [("name", .str "{Ann} $5")]
    "<style>p { margin: 0 }</style>{Ann} $5!" (by decide) rfl).1 (by decide)⟩

/-! ## Result entries and the event flag -/

/-- The loop over the attendees does not write to the Event collection. -/
theorem attendeeLoop_events (env : Env) (eventId : String) (event : Event) (opts : Options)
    (outputDir : String) (atts : List (Option User)) (w : World) (acc : List ResultEntry) :
    (atts.foldl (processAttendee env eventId event opts outputDir) (w, acc)).1.events
      = w.events := by
  induction atts generalizing w acc with
  | nil => rfl
  | cons a atts ih =>
    rw [List.foldl_cons]
    cases a with
    | none =>
      rw [processAttendee_none]
      exact ih w acc
    | some v =>
      rw [processAttendee_some, ih]
      obtain ⟨⟨_, _, hevents, _⟩, _⟩ := processUser_touches env eventId event opts outputDir w v
      exact hevents

/-- The loop pushes one entry per attendance whose user resolves, in order, each with the
id of its user. -/
theorem attendeeLoop_entries (env : Env) (eventId : String) (event : Event) (opts : Options)
    (outputDir : String) (atts : List (Option User)) (w : World) (acc : List ResultEntry) :
    ((atts.foldl (processAttendee env eventId event opts outputDir) (w, acc)).2.map
        (fun entry => entry.userId))
      = acc.map (fun entry => entry.userId)
        ++ (atts.filterMap (fun a => a)).map (fun u => u.id) := by
  induction atts generalizing w acc with
  | nil => simp
  | cons a atts ih =>
    rw [List.foldl_cons]
    cases a with
    | none =>
      rw [processAttendee_none, ih]
      simp
    | some v =>
      rw [processAttendee_some, ih]
      obtain ⟨_, hid⟩ := processUser_touches env eventId event opts outputDir w v
      simp [hid]

/-- The step "Send Email": the status is `sent` exactly when a mail is due and the
dispatch returns, and `pending` when no mail is due, in which case nothing is done. -/
theorem emailStep_status (env : Env) (w3 : World) (opts : Options) (event : Event)
    (user : User) (i : Nat) (certRecord : Certificate) (pdfPath : String) (now : Nat) :
    ((emailStep env w3 opts event user i certRecord pdfPath now).1 = .sent ↔
        (opts.sendEmail = true ∧ truthyString user.email = true ∧
          ∃ w4, sendCertificateEmail env w3 user.id user.email (mailParticipantName user)
            event.title pdfPath = (.ok (), w4))) ∧
      ((opts.sendEmail = false ∨ truthyString user.email = false) →
        emailStep env w3 opts event user i certRecord pdfPath now = (.pending, w3)) := by
  constructor
  · unfold emailStep
    by_cases hdue : opts.sendEmail = true ∧ truthyString user.email = true
    · simp only [hdue, and_self, if_true, true_and]
      show ((match sendCertificateEmail env w3 user.id user.email (mailParticipantName user)
            event.title pdfPath with
        | (.ok _, w1) => (DeliveryStatus.sent, w1.saveCertificate i { certRecord with
            emailSent := true, emailSentAt := some now, status := .sent,
            deliveryStatus := .sent })
        | (.error message, w1) => (DeliveryStatus.failed, w1.saveCertificate i { certRecord with
            deliveryStatus := .failed, failureReason := some message,
            retryCount := certRecord.retryCount + 1, lastAttemptAt := some now })).1 = .sent) ↔ _
      rcases hs : sendCertificateEmail env w3 user.id user.email (mailParticipantName user)
          event.title pdfPath with ⟨message | u, w4⟩
      · simp
      · simp
    · rw [if_neg hdue]
      constructor
      · intro h
        cases h
      · rintro ⟨h1, h2, _⟩
        exact absurd ⟨h1, h2⟩ hdue
  · intro h
    have hdue : ¬ (opts.sendEmail = true ∧ truthyString user.email = true) := by
      rintro ⟨h1, h2⟩
      rcases h with h | h
      · rw [h] at h1
        cases h1
      · rw [h] at h2
        cases h2
    unfold emailStep
    rw [if_neg hdue]

/-- An entry with status `success` is pushed only at the end of an iteration that went
through generation, rendering and the upsert, and whose step "Send Email" ended with
`sent`. -/
theorem processUser_success (env : Env) (eventId : String) (event : Event) (opts : Options)
    (outputDir : String) (w : World) (user : User)
    (h : (processUser env eventId event opts outputDir w user).2.status = .success) :
    ∃ r pdfPath w2 i certRecord w3,
      alreadySent (findCertificate w.certificates eventId user.id) opts.forceRegenerate = false ∧
      env.generateCertificateHTML w eventId user event = .ok r ∧
      renderPdfStep env (w.logCall (.generateCertificateHTML eventId user.id))
        opts.savePdf outputDir user r = (.ok pdfPath, w2) ∧
      upsertStep env w2 eventId user r pdfPath (env.now w2)
        (findCertificate w.certificates eventId user.id) = (.ok (i, certRecord), w3) ∧
      (emailStep env w3 opts event user i certRecord pdfPath (env.now w2)).1 = .sent := by
  by_cases hskip : alreadySent (findCertificate w.certificates eventId user.id)
      opts.forceRegenerate = true
  · simp [processUser, hskip, skippedEntry] at h
  · have hskip2 : alreadySent (findCertificate w.certificates eventId user.id)
        opts.forceRegenerate = false := by simpa using hskip
    rcases hgen : env.generateCertificateHTML w eventId user event with message | r
    · simp [processUser, hskip2, hgen, caughtEntry] at h
    · rcases hpdf : renderPdfStep env (w.logCall (.generateCertificateHTML eventId user.id))
          opts.savePdf outputDir user r with ⟨message | pdfPath, w2⟩
      · simp [processUser, hskip2, hgen, hpdf, caughtEntry] at h
      · rcases hups : upsertStep env w2 eventId user r pdfPath (env.now w2)
            (findCertificate w.certificates eventId user.id) with ⟨message | ⟨i, certRecord⟩, w3⟩
        · simp [processUser, hskip2, hgen, hpdf, hups, caughtEntry] at h
        · rw [processUser_reach env eventId event opts outputDir w user r pdfPath w2 i
            certRecord w3 hskip2 hgen hpdf hups] at h
          refine ⟨r, pdfPath, w2, i, certRecord, w3, hskip2, rfl, hpdf, hups, ?_⟩
          simp only [doneEntry] at h
          by_contra hne
          simp [hne] at h

/-- C28: a run of `generateCertificatesForEvent` for an event that has a present
attendance returns normally with `success = true` and leaves the event with
`certificatesSent = true`, whatever the iterations of the loop do. For an event without
present attendance the run returns `{ success: false, message, results: [] }` and
changes nothing; and for an id that no event has it throws `Event not found` and
changes nothing. -/
theorem generateCertificatesForEvent_eventFlag (env : Env) (w : World) (eventId : String)
    (opts : Options) :
    (findEvent w.events eventId = none →
        generateCertificatesForEvent env w eventId opts = (.error "Event not found", w)) ∧
      (∀ event, findEvent w.events eventId = some event →
        (presentAttendees w eventId).length = 0 →
        generateCertificatesForEvent env w eventId opts
          = (.ok ⟨false, some "No present attendees found", none, []⟩, w)) ∧
      (∀ event, findEvent w.events eventId = some event →
        (presentAttendees w eventId).length ≠ 0 →
        ∃ r w2, generateCertificatesForEvent env w eventId opts = (.ok r, w2) ∧
          r.success = true ∧
          ∃ now, findEvent w2.events eventId
            = some { event with certificatesSent := true, certificatesSentAt := some now }) := by
  refine ⟨?_, ?_, ?_⟩
  · intro h
    simp [generateCertificatesForEvent, h]
  · intro event h hlen
    simp [generateCertificatesForEvent, h, hlen]
  · intro event h hlen
    have hrun := generateCertificatesForEvent_run env w eventId opts event h hlen
    have hflag := findEvent_markCertificatesSent
      (((presentAttendees w eventId).foldl
        (processAttendee env eventId event opts (outputDirOf eventId)) (w, [])).1) eventId
      (env.now ((presentAttendees w eventId).foldl
        (processAttendee env eventId event opts (outputDirOf eventId)) (w, [])).1) event
      (by rw [attendeeLoop_events]; exact h)
    exact ⟨_, _, hrun, rfl, _, hflag⟩

/-- C28 on the sample world, where the transport throws for every attendee: the event is
marked all the same; and for the id of no event nothing changes. -/
theorem generateCertificatesForEvent_eventFlag_witness :
    (∃ r w2, generateCertificatesForEvent
        (exampleEnv ["ann@example.org", "bob@example.org", "cy@example.org"])
        (exampleWorld []) "e1" {} = (.ok r, w2) ∧ r.success = true ∧
        ∃ now, findEvent w2.events "e1" = some ⟨"e1", "Summit", 1, true, true, some now⟩) ∧
      generateCertificatesForEvent (exampleEnv []) (exampleWorld []) "e9" {}
        = (.error "Event not found", exampleWorld []) :=
  ⟨(generateCertificatesForEvent_eventFlag
      (exampleEnv ["ann@example.org", "bob@example.org", "cy@example.org"])
      (exampleWorld []) "e1" {}).2.2 ⟨"e1", "Summit", 1, true, false, none⟩ rfl (by decide),
    (generateCertificatesForEvent_eventFlag (exampleEnv []) (exampleWorld []) "e9" {}).1 rfl⟩

/-- C30: in `generateCertificatesForEvent`, the entry pushed by the iteration for an
attendee has status `success` exactly when the iteration went through generation,
rendering and the upsert, a mail was due (`sendEmail` set and the attendee has an
address) and the dispatch returned. When the iteration reaches the upsert and no mail
is due, the entry has status `failed` and delivery status `pending`, and the record
exists. The entries of a run are one per present attendance whose user resolves, in
order, and their number is at most the reported total. -/
theorem generateCertificatesForEvent_entries (env : Env) (w wk : World) (eventId : String)
    (opts : Options) (event : Event) (outputDir : String) (user : User) :
    ((processUser env eventId event opts outputDir wk user).2.status = .success ↔
        ∃ r pdfPath w2 i certRecord w3 w4,
          alreadySent (findCertificate wk.certificates eventId user.id)
            opts.forceRegenerate = false ∧
          env.generateCertificateHTML wk eventId user event = .ok r ∧
          renderPdfStep env (wk.logCall (.generateCertificateHTML eventId user.id))
            opts.savePdf outputDir user r = (.ok pdfPath, w2) ∧
          upsertStep env w2 eventId user r pdfPath (env.now w2)
            (findCertificate wk.certificates eventId user.id) = (.ok (i, certRecord), w3) ∧
          opts.sendEmail = true ∧ truthyString user.email = true ∧
          sendCertificateEmail env w3 user.id user.email (mailParticipantName user)
            event.title pdfPath = (.ok (), w4)) ∧
      (∀ r pdfPath w2 i certRecord w3,
        alreadySent (findCertificate wk.certificates eventId user.id)
          opts.forceRegenerate = false →
        env.generateCertificateHTML wk eventId user event = .ok r →
        renderPdfStep env (wk.logCall (.generateCertificateHTML eventId user.id))
          opts.savePdf outputDir user r = (.ok pdfPath, w2) →
        upsertStep env w2 eventId user r pdfPath (env.now w2)
          (findCertificate wk.certificates eventId user.id) = (.ok (i, certRecord), w3) →
        (opts.sendEmail = false ∨ truthyString user.email = false) →
        (processUser env eventId event opts outputDir wk user).2
            = ⟨user.id, user.fullName, .failed, some .pending, none⟩ ∧
          findCertificate (processUser env eventId event opts outputDir wk user).1.certificates
            eventId user.id = some (i, certRecord)) ∧
      (∀ r w2, generateCertificatesForEvent env w eventId opts = (.ok r, w2) →
        r.results.map (fun entry => entry.userId)
            = ((presentAttendees w eventId).filterMap (fun a => a)).map (fun u => u.id) ∧
          r.results.length = ((presentAttendees w eventId).filterMap (fun a => a)).length ∧
          (r.success = true → r.total = some (presentAttendees w eventId).length) ∧
          r.results.length ≤ (presentAttendees w eventId).length) := by
  refine ⟨⟨?_, ?_⟩, ?_, ?_⟩
  · intro h
    obtain ⟨r, pdfPath, w2, i, certRecord, w3, h1, h2, h3, h4, h5⟩ :=
      processUser_success env eventId event opts outputDir wk user h
    obtain ⟨hs, he, w4, hw4⟩ :=
      (emailStep_status env w3 opts event user i certRecord pdfPath (env.now w2)).1.mp h5
    exact ⟨r, pdfPath, w2, i, certRecord, w3, w4, h1, h2, h3, h4, hs, he, hw4⟩
  · rintro ⟨r, pdfPath, w2, i, certRecord, w3, w4, h1, h2, h3, h4, hs, he, hw4⟩
    rw [processUser_reach env eventId event opts outputDir wk user r pdfPath w2 i certRecord w3
      h1 h2 h3 h4]
    have hsent := (emailStep_status env w3 opts event user i certRecord pdfPath
      (env.now w2)).1.mpr ⟨hs, he, w4, hw4⟩
    simp [doneEntry, hsent]
  · intro r pdfPath w2 i certRecord w3 h1 h2 h3 h4 hno
    rw [processUser_reach env eventId event opts outputDir wk user r pdfPath w2 i certRecord w3
      h1 h2 h3 h4]
    have hpend := (emailStep_status env w3 opts event user i certRecord pdfPath
      (env.now w2)).2 hno
    rw [hpend]
    refine ⟨by simp [doneEntry], ?_⟩
    have hw2 : w2.certificates = wk.certificates := by
      have h := (renderPdfStep_touches env
        (wk.logCall (.generateCertificateHTML eventId user.id))
        opts.savePdf eventId outputDir user r).2
      rw [h3] at h
      exact h
    have h4b : upsertStep env w2 eventId user r pdfPath (env.now w2)
        (findCertificate w2.certificates eventId user.id) = (.ok (i, certRecord), w3) := by
      rw [hw2]
      exact h4
    exact (upsertStep_record env w2 eventId user r pdfPath (env.now w2) i certRecord w3 h4b).1
  · intro r w2 hrun
    have hfilter : ((presentAttendees w eventId).filterMap (fun a => a)).length
        ≤ (presentAttendees w eventId).length := List.length_filterMap_le _ _
    rcases hevent : findEvent w.events eventId with _ | ev
    · simp [generateCertificatesForEvent, hevent] at hrun
    · by_cases hlen : (presentAttendees w eventId).length = 0
      · have hnil : presentAttendees w eventId = [] := List.length_eq_zero.mp hlen
        simp only [generateCertificatesForEvent, hevent, hlen, if_true, Prod.mk.injEq,
          Except.ok.injEq] at hrun
        obtain ⟨hr, _⟩ := hrun
        subst hr
        simp [hnil]
      · rw [generateCertificatesForEvent_run env w eventId opts ev hevent hlen] at hrun
        simp only [Prod.mk.injEq, Except.ok.injEq] at hrun
        obtain ⟨hr, _⟩ := hrun
        subst hr
        have hids := attendeeLoop_entries env eventId ev opts (outputDirOf eventId)
          (presentAttendees w eventId) w []
        simp only [List.map_nil, List.nil_append] at hids
        have hlen2 := congrArg List.length hids
        simp only [List.length_map] at hlen2
        refine ⟨hids, hlen2, fun _ => rfl, ?_⟩
        rw [hlen2]
        exact hfilter

/-- C30 on the sample world with `sendEmail = false`: three entries, one per attendee,
each `failed` with delivery status `pending`. -/
theorem generateCertificatesForEvent_entries_witness :
    ∃ r w2, generateCertificatesForEvent (exampleEnv []) (exampleWorld []) "e1"
        { sendEmail := false } = (.ok r, w2) ∧
      r.results.length = 3 ∧
      r.results.map (fun entry => (entry.status, entry.deliveryStatus))
        = [(.failed, some .pending), (.failed, some .pending), (.failed, some .pending)] :=
  ⟨_, _, rfl,
    ((generateCertificatesForEvent_entries (exampleEnv []) (exampleWorld []) (exampleWorld [])
      "e1" { sendEmail := false } ⟨"e1", "Summit", 1, true, false, none⟩ (outputDirOf "e1")
      ⟨"u1", some "ann@example.org", some "Ann Lee", none, none⟩).2.2 _ _ rfl).2.1,
    rfl⟩

/-! ## Properties of the writes of the pipeline -/

theorem map_set_same {β : Type} (f : Certificate → β) (cs : List Certificate) (i : Nat)
    (c d : Certificate) (hget : cs.get? i = some c) (hf : f d = f c) :
    (cs.set i d).map f = cs.map f := by
  induction cs generalizing i with
  | nil => simp at hget
  | cons a cs ih =>
    cases i with
    | zero =>
      simp only [List.get?_cons_zero, Option.some.injEq] at hget
      subst hget
      simp [hf]
    | succ i =>
      simp only [List.get?_cons_succ] at hget
      simp [ih i hget]

theorem findCertificateFrom_none (e u : String) (cs : List Certificate) (start : Nat)
    (h : findCertificateFrom e u cs start = none) :
    ∀ c ∈ cs, ¬ (c.event = e ∧ c.user = u) := by
  induction cs generalizing start with
  | nil =>
    intro c hc
    cases hc
  | cons d cs ih =>
    intro c hc
    by_cases hk : d.event = e ∧ d.user = u
    · simp [findCertificateFrom, hk] at h
    · simp only [findCertificateFrom, hk, if_false] at h
      rcases List.mem_cons.mp hc with rfl | hc
      · exact hk
      · exact ih (start + 1) h c hc

/-- The writes of the pipeline delete no record and change no identity: the identities
before are, position by position, those of the first records after. -/
theorem PipelineWrites.idents {cs1 cs2 : List Certificate} (h : PipelineWrites cs1 cs2) :
    cs1.map Certificate.ident <+: cs2.map Certificate.ident := by
  induction h with
  | same cs => exact List.prefix_refl _
  | update cs i c d hget hid _ =>
    rw [map_set_same Certificate.ident cs i c d hget hid]
  | create cs d _ _ =>
    rw [List.map_append]
    exact List.prefix_append _ _
  | seq _ _ _ _ _ ih1 ih2 => exact ih1.trans ih2

/-- The writes of the pipeline keep the records at one per pair. -/
theorem PipelineWrites.nodup {cs1 cs2 : List Certificate} (h : PipelineWrites cs1 cs2)
    (hnodup : (cs1.map Certificate.key).Nodup) : (cs2.map Certificate.key).Nodup := by
  induction h with
  | same cs => exact hnodup
  | update cs i c d hget hid _ =>
    have hkey : d.key = c.key := by
      have h1 : d.event = c.event := congrArg (fun p => p.2.1) hid
      have h2 : d.user = c.user := congrArg (fun p => p.2.2) hid
      simp [Certificate.key, h1, h2]
    rw [map_set_same Certificate.key cs i c d hget hkey]
    exact hnodup
  | create cs d hnone _ =>
    rw [List.map_append, List.map_singleton]
    apply List.Nodup.append hnodup (List.nodup_singleton _)
    rw [List.disjoint_singleton]
    intro hmem
    obtain ⟨c, hc, hk⟩ := List.mem_map.mp hmem
    have h1 : c.event = d.event := congrArg Prod.fst hk
    have h2 : c.user = d.user := congrArg Prod.snd hk
    exact findCertificateFrom_none d.event d.user cs 0 hnone c hc ⟨h1, h2⟩
  | seq _ _ _ _ _ ih1 ih2 => exact ih2 (ih1 hnodup)

/-- The writes of the pipeline keep every record consistent. -/
theorem PipelineWrites.consistent {cs1 cs2 : List Certificate} (h : PipelineWrites cs1 cs2)
    (hall : ∀ c ∈ cs1, c.consistent) : ∀ c ∈ cs2, c.consistent := by
  induction h with
  | same cs => exact hall
  | update cs i c d _ _ hd =>
    intro x hx
    rcases List.mem_or_eq_of_mem_set hx with h | h
    · exact hall x h
    · rw [h]
      exact hd
  | create cs d _ hd =>
    intro x hx
    rcases List.mem_append.mp hx with h | h
    · exact hall x h
    · rw [List.mem_singleton.mp h]
      exact hd
  | seq _ _ _ _ _ ih1 ih2 => exact ih2 (ih1 hall)

theorem saveCertificate_writes (w : World) (i : Nat) (c d : Certificate)
    (hget : w.certificates.get? i = some c) (hid : d.ident = c.ident) (hd : d.consistent) :
    PipelineWrites w.certificates (w.saveCertificate i d).certificates :=
  PipelineWrites.update w.certificates i c d hget hid hd

/-- The upsert step is a write of the pipeline. -/
theorem upsertStep_writes (env : Env) (w : World) (eventId : String) (user : User) (r : HtmlResult)
    (pdfPath : String) (now : Nat) :
    PipelineWrites w.certificates
      (upsertStep env w eventId user r pdfPath now
        (findCertificate w.certificates eventId user.id)).2.certificates := by
  unfold upsertStep
  rcases hfound : findCertificate w.certificates eventId user.id with _ | ⟨i, old⟩
  · dsimp only
    rcases hcreate : w.createCertificate _ _ with message | ⟨k, w1⟩
    · exact PipelineWrites.same _
    · obtain ⟨_, hw1⟩ := createCertificate_ok w _ _ k w1 hcreate
      dsimp only
      rw [hw1]
      exact PipelineWrites.create w.certificates _ hfound (fun h => by cases h)
  · obtain ⟨hget, _, _⟩ := findCertificate_spec _ _ _ _ _ hfound
    dsimp only
    split
    · exact saveCertificate_writes w i old _ hget rfl (fun h => by cases h)
    · exact PipelineWrites.same _

/-- The step "Send Email" is a write of the pipeline. -/
theorem emailStep_writes (env : Env) (w : World) (opts : Options) (event : Event)
    (user : User) (i : Nat) (certRecord : Certificate) (pdfPath : String) (now : Nat)
    (hget : w.certificates.get? i = some certRecord) :
    PipelineWrites w.certificates
      (emailStep env w opts event user i certRecord pdfPath now).2.certificates := by
  unfold emailStep
  split
  · dsimp only
    have hs := (sendCertificateEmail_touches env w event.id user.id user.email
      (if truthyString user.fullName then user.fullName
        else some (String.mk ((templateString user.firstName).data ++ [' ']
          ++ (templateString user.lastName).data))) event.title pdfPath).2
    split
    · rename_i u w1 heq
      rw [heq] at hs
      have hget1 : w1.certificates.get? i = some certRecord := by
        rw [show w1.certificates = w.certificates from hs]
        exact hget
      have := saveCertificate_writes w1 i certRecord
        { certRecord with emailSent := true, emailSentAt := some now, status := .sent,
                          deliveryStatus := .sent } hget1 rfl (fun _ => rfl)
      rw [show w1.certificates = w.certificates from hs] at this
      exact this
    · rename_i message w1 heq
      rw [heq] at hs
      have hget1 : w1.certificates.get? i = some certRecord := by
        rw [show w1.certificates = w.certificates from hs]
        exact hget
      have := saveCertificate_writes w1 i certRecord
        { certRecord with deliveryStatus := .failed, failureReason := some message,
                          retryCount := certRecord.retryCount + 1, lastAttemptAt := some now }
        hget1 rfl (fun h => by cases h)
      rw [show w1.certificates = w.certificates from hs] at this
      exact this
  · exact PipelineWrites.same _

/-- One iteration of the loop of `generateCertificatesForEvent` makes writes of the
pipeline only. -/
theorem processUser_writes (env : Env) (eventId : String) (event : Event) (opts : Options)
    (outputDir : String) (w : World) (user : User) :
    PipelineWrites w.certificates
      (processUser env eventId event opts outputDir w user).1.certificates := by
  unfold processUser
  dsimp only
  split
  · exact PipelineWrites.same _
  · split
    · exact PipelineWrites.same _
    · rename_i r hgen
      have hpdf := (renderPdfStep_touches env
        (w.logCall (.generateCertificateHTML eventId user.id)) opts.savePdf eventId
        outputDir user r).2
      split
      · rename_i message w2 heq
        rw [heq] at hpdf
        rw [show w2.certificates = w.certificates from hpdf]
        exact PipelineWrites.same _
      · rename_i pdfPath w2 heq
        rw [heq] at hpdf
        have hcerts : w2.certificates = w.certificates := hpdf
        have hups := upsertStep_writes env w2 eventId user r pdfPath (env.now w2)
        rw [hcerts] at hups
        have hfound : ∀ i c, findCertificate w.certificates eventId user.id = some (i, c) →
            w2.certificates.get? i = some c ∧ c.event = eventId ∧ c.user = user.id := by
          intro i c h
          rw [hcerts]
          exact findCertificate_spec _ _ _ _ _ h
        have hstored := (upsertStep_touches env w2 eventId user r pdfPath (env.now w2)
          (findCertificate w.certificates eventId user.id) hfound).2
        split
        · rename_i message w3 heq2
          rw [heq2] at hups
          exact hups
        · rename_i i certRecord w3 heq2
          rw [heq2] at hups hstored
          obtain ⟨hget, _⟩ := hstored i certRecord rfl
          exact PipelineWrites.seq _ _ _ hups
            (emailStep_writes env w3 opts event user i certRecord pdfPath (env.now w2) hget)

theorem attendeeLoop_writes (env : Env) (eventId : String) (event : Event) (opts : Options)
    (outputDir : String) (atts : List (Option User)) (w : World) (acc : List ResultEntry) :
    PipelineWrites w.certificates
      (atts.foldl (processAttendee env eventId event opts outputDir) (w, acc)).1.certificates := by
  induction atts generalizing w acc with
  | nil => exact PipelineWrites.same _
  | cons a atts ih =>
    rw [List.foldl_cons]
    cases a with
    | none =>
      rw [processAttendee_none]
      exact ih w acc
    | some v =>
      rw [processAttendee_some]
      exact PipelineWrites.seq _ _ _
        (processUser_writes env eventId event opts outputDir w v) (ih _ _)

/-- A run of `generateCertificatesForEvent` makes writes of the pipeline only. -/
theorem generateCertificatesForEvent_writes (env : Env) (w : World) (eventId : String)
    (opts : Options) :
    PipelineWrites w.certificates
      (generateCertificatesForEvent env w eventId opts).2.certificates := by
  rcases hevent : findEvent w.events eventId with _ | event
  · simp only [generateCertificatesForEvent, hevent]
    exact PipelineWrites.same _
  · by_cases hlen : (presentAttendees w eventId).length = 0
    · simp only [generateCertificatesForEvent, hevent, hlen, if_true]
      exact PipelineWrites.same _
    · rw [generateCertificatesForEvent_run env w eventId opts event hevent hlen]
      exact attendeeLoop_writes env eventId event opts (outputDirOf eventId) _ w []

/-- A call of `resendSingleCertificate` makes writes of the pipeline only. -/
theorem resendSingleCertificate_writes (env : Env)
    (regenerate : World → String → User → Event → List (String × String) → String →
      Except String String)
    (w : World) (eventId userId : String) :
    PipelineWrites w.certificates
      (resendSingleCertificate env regenerate w eventId userId).2.certificates := by
  unfold resendSingleCertificate
  rcases hfound : findCertificate w.certificates eventId userId with _ | ⟨i, cert⟩
  · exact PipelineWrites.same _
  · obtain ⟨hget, _, _⟩ := findCertificate_spec _ _ _ _ _ hfound
    dsimp only
    rcases huser : findUser w.users userId with _ | user
    · exact PipelineWrites.same _
    · rcases hevent : findEvent w.events eventId with _ | event
      · exact PipelineWrites.same _
      · dsimp only
        have hprep := preparePdf_certificates env regenerate w eventId user event cert
        rcases hp : preparePdf env regenerate w eventId user event cert with
          ⟨message | pdfPath, w1⟩
        · rw [hp] at hprep
          have hc : w1.certificates = w.certificates := hprep
          dsimp only
          have := saveCertificate_writes w1 i cert { cert with
              deliveryStatus := .failed, failureReason := some message,
              retryCount := cert.retryCount + 1, lastAttemptAt := some (env.now w1) }
            (by rw [hc]; exact hget) rfl (fun h => by cases h)
          rw [hc] at this
          exact this
        · rw [hp] at hprep
          have hc : w1.certificates = w.certificates := hprep
          dsimp only
          have hsend := (sendCertificateEmail_touches env w1 eventId user.id user.email
            user.fullName event.title pdfPath).2
          rcases hs : sendCertificateEmail env w1 user.id user.email user.fullName event.title
            pdfPath with ⟨message | u, w2⟩
          · rw [hs] at hsend
            have hc2 : w2.certificates = w.certificates := Eq.trans hsend hc
            dsimp only
            have := saveCertificate_writes w2 i cert { cert with
                deliveryStatus := .failed, failureReason := some message,
                retryCount := cert.retryCount + 1, lastAttemptAt := some (env.now w2) }
              (by rw [hc2]; exact hget) rfl (fun h => by cases h)
            rw [hc2] at this
            exact this
          · rw [hs] at hsend
            have hc2 : w2.certificates = w.certificates := Eq.trans hsend hc
            dsimp only
            have := saveCertificate_writes w2 i cert { cert with
                deliveryStatus := .sent, emailSent := true,
                emailSentAt := some (env.now w2), status := .sent }
              (by rw [hc2]; exact hget) rfl (fun _ => rfl)
            rw [hc2] at this
            exact this

/-- The loop of `resendFailedCertificates`, given documents that are in the collection at
their positions, up to the fields that are not part of the identity, and that have
`deliveryStatus = failed`, makes writes of the pipeline only. -/
theorem resendLoop_writes (env : Env) (event : Option Event)
    (items : List (Nat × Certificate × Option User)) (w : World) (results : List ResultEntry)
    (hitems : ∀ it ∈ items, it.2.1.deliveryStatus = .failed ∧
      ∃ c, w.certificates.get? it.1 = some c ∧ c.ident = it.2.1.ident) :
    PipelineWrites w.certificates (resendLoop env event w results items).2.certificates := by
  induction items generalizing w results with
  | nil => exact PipelineWrites.same _
  | cons it rest ih =>
    obtain ⟨i, cert, user⟩ := it
    obtain ⟨hfailed, c, hget, hid⟩ := hitems (i, cert, user) (List.mem_cons_self _ _)
    have hatt := resendAttempt_certificates env w event cert user
    -- a save at position `i` of a record with the identity of `cert`
    have hsave : ∀ (w1 : World) (d : Certificate), w1.certificates = w.certificates →
        d.ident = cert.ident → d.consistent →
        PipelineWrites w.certificates (w1.saveCertificate i d).certificates ∧
        ∀ it ∈ rest, it.2.1.deliveryStatus = .failed ∧
          ∃ c2, (w1.saveCertificate i d).certificates.get? it.1 = some c2 ∧
            c2.ident = it.2.1.ident := by
      intro w1 d h1 hd hcons
      constructor
      · have := saveCertificate_writes w1 i c d (by rw [h1]; exact hget) (hd.trans hid.symm) hcons
        rw [h1] at this
        exact this
      · intro it hit
        obtain ⟨hf, c2, hget2, hid2⟩ := hitems it (List.mem_cons_of_mem _ hit)
        refine ⟨hf, ?_⟩
        by_cases hi : i = it.1
        · refine ⟨d, ?_, ?_⟩
          · have hlt : i < w.certificates.length := by
              rcases Nat.lt_or_ge i w.certificates.length with h | h
              · exact h
              · rw [List.get?_eq_none.mpr h] at hget
                cases hget
            simp [World.saveCertificate, h1, ← hi, List.getElem?_set, hlt]
          · rw [← hi, hget] at hget2
            cases hget2
            exact hd.trans (hid.symm.trans hid2)
        · exact ⟨c2, by simp [World.saveCertificate, h1, List.getElem?_set_ne hi, ← hget2], hid2⟩
    unfold resendLoop
    rcases hres : resendAttempt env w event cert user with ⟨res, w1⟩
    rw [hres] at hatt
    cases res with
    | error message =>
      obtain ⟨hw, hrest⟩ := hsave w1 { cert with
        retryCount := cert.retryCount + 1, lastAttemptAt := some (env.now w1),
        failureReason := some message } hatt rfl
        (fun h => by
          have h2 : cert.deliveryStatus = .sent := h
          rw [hfailed] at h2
          cases h2)
      cases user with
      | none => exact hw
      | some u =>
        dsimp only
        exact PipelineWrites.seq _ _ _ hw (ih _ _ hrest)
    | ok v =>
      obtain ⟨hw, hrest⟩ := hsave w1 { cert with
        deliveryStatus := .sent, emailSent := true, emailSentAt := some (env.now w1),
        status := .sent } hatt rfl (fun _ => rfl)
      cases user with
      | none => exact hw
      | some u =>
        dsimp only
        exact PipelineWrites.seq _ _ _ hw (ih _ _ hrest)

/-- A call of `resendFailedCertificates` makes writes of the pipeline only. -/
theorem resendFailedCertificates_writes (env : Env) (w : World) (eventId : String) :
    PipelineWrites w.certificates (resendFailedCertificates env w eventId).2.certificates := by
  have hitems : ∀ it ∈ failedCertificatesFrom w.users eventId w.certificates 0,
      it.2.1.deliveryStatus = .failed ∧
        ∃ c, w.certificates.get? it.1 = some c ∧ c.ident = it.2.1.ident := by
    intro it hit
    obtain ⟨_, h2, h3, _⟩ := failedCertificatesFrom_spec w.users eventId w.certificates 0 it hit
    refine ⟨?_, it.2.1, by simpa using h2, rfl⟩
    simp only [isResendCandidate, Bool.and_eq_true, beq_iff_eq] at h3
    exact h3.1.2
  have hloop := resendLoop_writes env (findEvent w.events eventId)
    (failedCertificatesFrom w.users eventId w.certificates 0) w [] hitems
  unfold resendFailedCertificates
  dsimp only
  rcases hl : resendLoop env (findEvent w.events eventId) w []
    (failedCertificatesFrom w.users eventId w.certificates 0) with ⟨res, w1⟩
  rw [hl] at hloop
  cases res with
  | error message => exact hloop
  | ok results => exact hloop

theorem World.runOps_writes (env : Env)
    (regenerate : World → String → User → Event → List (String × String) → String →
      Except String String)
    (w : World) (ops : List PipelineOp) :
    PipelineWrites w.certificates (w.runOps env regenerate ops).certificates := by
  induction ops generalizing w with
  | nil => exact PipelineWrites.same _
  | cons op ops ih =>
    have hop : PipelineWrites w.certificates (w.applyOp env regenerate op).certificates := by
      cases op with
      | generate eventId opts => exact generateCertificatesForEvent_writes env w eventId opts
      | resendSingle eventId userId =>
        exact resendSingleCertificate_writes env regenerate w eventId userId
      | resendFailed eventId => exact resendFailedCertificates_writes env w eventId
    exact PipelineWrites.seq _ _ _ hop (ih (w.applyOp env regenerate op))

theorem prefix_map_get {β : Type} (f : Certificate → β) (cs1 cs2 : List Certificate)
    (h : cs1.map f <+: cs2.map f) (i : Nat) (c : Certificate) (hget : cs1.get? i = some c) :
    ∃ d, cs2.get? i = some d ∧ f d = f c := by
  obtain ⟨t, ht⟩ := h
  have hlt : i < cs1.length := by
    rcases Nat.lt_or_ge i cs1.length with h | h
    · exact h
    · rw [List.get?_eq_none.mpr h] at hget
      cases hget
  have hc : cs1[i]? = some c := by
    rw [← List.get?_eq_getElem?]
    exact hget
  have h1 : (cs2.map f)[i]? = some (f c) := by
    rw [← ht, List.getElem?_append_left (by simpa using hlt), List.getElem?_map, hc]
    rfl
  rw [List.getElem?_map] at h1
  rcases hd : cs2[i]? with _ | d
  · rw [hd] at h1
    cases h1
  · rw [hd] at h1
    simp only [Option.map_some', Option.some.injEq] at h1
    exact ⟨d, by rw [List.get?_eq_getElem?, hd], h1⟩

/-- C26: if the Certificate collection holds at most one record per (event, user) pair,
then after any sequence of runs of `generateCertificatesForEvent`,
`resendSingleCertificate` and `resendFailedCertificates`, returning or throwing, it
still holds at most one record per pair; and, whatever the collection holds, no record
is deleted and the record at each position keeps its certificate id, event and user.
Nothing is assumed of the Attendance collection. -/
theorem runOps_onePerPair (env : Env)
    (regenerate : World → String → User → Event → List (String × String) → String →
      Except String String)
    (w : World) (ops : List PipelineOp) :
    ((w.certificates.map Certificate.key).Nodup →
        ((w.runOps env regenerate ops).certificates.map Certificate.key).Nodup) ∧
      w.certificates.length ≤ (w.runOps env regenerate ops).certificates.length ∧
      (∀ i c, w.certificates.get? i = some c →
        ∃ d, (w.runOps env regenerate ops).certificates.get? i = some d ∧
          d.certificateId = c.certificateId ∧ d.event = c.event ∧ d.user = c.user) := by
  have hw := World.runOps_writes env regenerate w ops
  refine ⟨fun h => hw.nodup h, ?_, ?_⟩
  · have := hw.idents.length_le
    simpa using this
  · intro i c hget
    obtain ⟨d, hd, hid⟩ := prefix_map_get Certificate.ident _ _ hw.idents i c hget
    refine ⟨d, hd, ?_, ?_, ?_⟩
    · exact congrArg (fun p => p.1) hid
    · exact congrArg (fun p => p.2.1) hid
    · exact congrArg (fun p => p.2.2) hid

/-- C26 on the sample world with one record: after a run of the generation for all three
attendees, a resend and a retry of the failed ones, the pairs are still distinct and
the first record keeps its identity. -/
theorem runOps_onePerPair_witness :
    (((exampleWorld [exampleCertificate "u1" .generated .failed 1]).runOps
        (exampleEnv ["bob@example.org"]) sampleRegenerate
        [.generate "e1" {}, .resendSingle "e1" "u2", .resendFailed "e1"]).certificates.map
        Certificate.key).Nodup ∧
      ∃ d, ((exampleWorld [exampleCertificate "u1" .generated .failed 1]).runOps
          (exampleEnv ["bob@example.org"]) sampleRegenerate
          [.generate "e1" {}, .resendSingle "e1" "u2", .resendFailed "e1"]).certificates.get? 0
          = some d ∧
        d.certificateId = "CERT-20240212-01-u1" ∧ d.event = "e1" ∧ d.user = "u1" :=
  ⟨(runOps_onePerPair (exampleEnv ["bob@example.org"]) sampleRegenerate
      (exampleWorld [exampleCertificate "u1" .generated .failed 1])
      [.generate "e1" {}, .resendSingle "e1" "u2", .resendFailed "e1"]).1 (by decide),
    (runOps_onePerPair (exampleEnv ["bob@example.org"]) sampleRegenerate
      (exampleWorld [exampleCertificate "u1" .generated .failed 1])
      [.generate "e1" {}, .resendSingle "e1" "u2", .resendFailed "e1"]).2.2 0 _ rfl⟩

/-- C29: if every record of the Certificate collection satisfies
`deliveryStatus = sent → status = sent`, as every record does when it is created by the
pipeline, then so does every record after any sequence of runs of
`generateCertificatesForEvent`, `resendSingleCertificate` and
`resendFailedCertificates`; in particular every record of a collection that the
pipeline has filled from empty. -/
theorem runOps_consistent (env : Env)
    (regenerate : World → String → User → Event → List (String × String) → String →
      Except String String)
    (w : World) (ops : List PipelineOp) :
    ((∀ c ∈ w.certificates, c.deliveryStatus = .sent → c.status = .sent) →
        ∀ c ∈ (w.runOps env regenerate ops).certificates,
          c.deliveryStatus = .sent → c.status = .sent) ∧
      (w.certificates = [] →
        ∀ c ∈ (w.runOps env regenerate ops).certificates,
          c.deliveryStatus = .sent → c.status = .sent) := by
  have hw := World.runOps_writes env regenerate w ops
  refine ⟨fun h => hw.consistent h, fun hnil => hw.consistent ?_⟩
  rw [hnil]
  intro c hc
  cases hc

/-- C29 on the sample world, filled from empty by a run in which one dispatch fails,
followed by a resend and a retry of the failed ones. -/
theorem runOps_consistent_witness :
    ∀ c ∈ ((exampleWorld []).runOps (exampleEnv ["bob@example.org"]) sampleRegenerate
        [.generate "e1" {}, .resendSingle "e1" "u2", .resendFailed "e1"]).certificates,
      c.deliveryStatus = .sent → c.status = .sent :=
  (runOps_consistent (exampleEnv ["bob@example.org"]) sampleRegenerate (exampleWorld [])
    [.generate "e1" {}, .resendSingle "e1" "u2", .resendFailed "e1"]).2 rfl

/-! ### The skip rule on the states of the pipeline -/

/-- C3: in a state that the pipeline has reached (by runs of
`generateCertificatesForEvent`, `resendSingleCertificate` and `resendFailedCertificates`,
returning or throwing, from a collection in which every delivered record has `status`
`sent`, such as the empty one), for every present attendee whose Certificate record has
`deliveryStatus` `sent`, a run of `generateCertificatesForEvent` without forced
regeneration returns normally; the attendee has a result entry, and every result entry
of the attendee has status `skipped` and the reason `Already sent`; the record is left
unchanged at its place; and no call (neither `generateCertificateHTML` nor `htmlToPdf`
nor a mail dispatch) is made for the attendee. -/
theorem generateCertificatesForEvent_skip (env : Env)
    (regenerate : World → String → User → Event → List (String × String) → String →
      Except String String)
    (w0 : World) (ops : List PipelineOp) (w : World) (eventId : String)
    (opts : Options) (event : Event) (user : User) (i : Nat) (c : Certificate)
    (hstart : ∀ d ∈ w0.certificates, d.deliveryStatus = .sent → d.status = .sent)
    (hw : w = w0.runOps env regenerate ops)
    (hforce : opts.forceRegenerate = false)
    (hevent : findEvent w.events eventId = some event)
    (hatt : some user ∈ presentAttendees w eventId)
    (hfound : findCertificate w.certificates eventId user.id = some (i, c))
    (hdelivered : c.deliveryStatus = .sent) :
    ∃ r w2, generateCertificatesForEvent env w eventId opts = (.ok r, w2) ∧
      (∃ e ∈ r.results, e.userId = user.id) ∧
      (∀ e ∈ r.results, e.userId = user.id →
        e.status = .skipped ∧ e.reason = some "Already sent" ∧
        e.participantName = none ∧ e.deliveryStatus = none) ∧
      findCertificate w2.certificates eventId user.id = some (i, c) ∧
      w2.certificates.get? i = some c ∧
      ∃ calls, w2.log = w.log ++ calls ∧ ∀ call ∈ calls, call.forUser ≠ user.id := by
  have hget := (findCertificate_spec eventId user.id w.certificates i c hfound).1
  have hcons : ∀ d ∈ w.certificates, d.consistent := by
    rw [hw]
    exact (World.runOps_writes env regenerate w0 ops).consistent hstart
  have hsent : c.status = .sent := hcons c (List.get?_mem hget) hdelivered
  have hne : ¬ (presentAttendees w eventId).length = 0 := by
    intro h
    rw [List.length_eq_zero] at h
    rw [h] at hatt
    cases hatt
  obtain ⟨h1, h2, entries, h3, h4, h5⟩ := attendeeLoop_skip env eventId event opts
    (outputDirOf eventId) user.id i c hsent hforce (presentAttendees w eventId) w [] hfound
  refine ⟨_, _, generateCertificatesForEvent_run env w eventId opts event hevent hne,
    ?_, ?_, h1, (findCertificate_spec eventId user.id _ i c h1).1, h2⟩
  · dsimp only
    rw [h3]
    exact ⟨skippedEntry user.id, List.mem_append_right _ (h5 user hatt rfl), rfl⟩
  · dsimp only
    rw [h3]
    intro e he hid
    have := h4 e (by simpa using he) hid
    rw [this]
    exact ⟨rfl, rfl, rfl, rfl⟩

/-- C3 in the state that a first run for the sample event has left, in which the three
certificates are delivered: a second run skips the first attendee. -/
theorem generateCertificatesForEvent_skip_witness :
    ∃ r w2,
      generateCertificatesForEvent (exampleEnv [])
          ((exampleWorld []).runOps (exampleEnv []) sampleRegenerate [.generate "e1" {}])
          "e1" {} = (.ok r, w2) ∧
      (∃ e ∈ r.results, e.userId = "u1") ∧
      (∀ e ∈ r.results, e.userId = "u1" →
        e.status = .skipped ∧ e.reason = some "Already sent" ∧
        e.participantName = none ∧ e.deliveryStatus = none) :=
  have h := generateCertificatesForEvent_skip (exampleEnv []) sampleRegenerate
    (exampleWorld []) [.generate "e1" {}] _ "e1" {} _
    ⟨"u1", some "ann@example.org", some "Ann Lee", none, none⟩ 0 _
    (fun d hd => by cases hd) rfl rfl rfl (by decide) rfl rfl
  match h with
  | ⟨r, w2, hrun, hsome, hall, _⟩ => ⟨r, w2, hrun, hsome, hall⟩

end Certs
